import Mathlib

/-!
# Verification of the summary rollup pipeline of `daily-tracker`

Shallow embedding of the repository's summary rollup core:
calendar arithmetic (ECMAScript local `Date` semantics, modelled on day
granularity as integer day counts since 1970-01-01 local time), the strict
local ISO date codec (`utils/dateHelpers.ts`, consolidated strict version),
the rule-based aggregator (`lib/ai/summarizers.ts`), the rollup generators
(`lib/summaries/{weekly,monthly,yearly}.ts`) and the pending-backfill
scanner (`SummaryService.checkAndGeneratePendingSummaries`).

Modelling conventions:
* JS `Date` values at local midnight are integer day counts (`Int`).
  `new Date(y, m, d)` is `jsNewDate`, including ECMAScript month/day field
  normalization and the remapping of constructor years 0..99 to 1900+y
  (ECMA-262 `MakeFullYear`).
* JS numbers are modelled as exact rationals (`ℚ`); the pipeline only adds
  small integers and divides by list lengths, and no claim is about binary
  floating-point rounding.
* JS strings are `List Char`.
* Plain-object string keys (`Object.entries` enumeration order) are modelled
  with insertion-ordered association lists, with integer-index keys
  enumerated first in ascending numeric order (ECMA-262
  `OrdinaryOwnPropertyKeys`).
* Markdown `content` rendering is presentation-only and not modelled; no
  claim depends on it.

Note: on `Int`, `/` and `%` denote Euclidean division and remainder
(floor division for the positive literal divisors used here).
-/

namespace DailyTracker

/-! ## Calendar core

Proleptic-Gregorian civil calendar on integer day counts, the denotation of
ECMAScript local-time `Date` values at day granularity.  `civilFromDays`
decomposes the day of era into century / four-year block / year-in-block,
so that every recovery step is a single bounded division.
-/

/-- Gregorian leap-year predicate. -/
def isLeap (y : Int) : Bool :=
  (y % 4 == 0 && y % 100 != 0) || y % 400 == 0

/-- Length of month `m` (1..12) of civil year `y`. -/
def daysInMonth (y m : Int) : Int :=
  if m = 2 then (if isLeap y then 29 else 28)
  else if m = 4 ∨ m = 6 ∨ m = 9 ∨ m = 11 then 30
  else 31

/-- Day count since 1970-01-01 of the civil date `(y, m, d)`; total in all
arguments, linear in `d`, intended for `m ∈ [1,12]`. -/
def daysFromCivil (y m d : Int) : Int :=
  let y2 := if m ≤ 2 then y - 1 else y
  let mp := if m ≤ 2 then m + 9 else m - 3
  let era := y2 / 400
  let yoe := y2 - era * 400
  era * 146097 + yoe * 365 + yoe / 4 - yoe / 100
    + (153 * mp + 2) / 5 + d - 1 - 719468

/-- Day of the 400-year era, `[0, 146096]`. -/
def cfdDoe (z : Int) : Int := (z + 719468) - (z + 719468) / 146097 * 146097

/-- Century within the era, `[0, 3]`. -/
def cfdCen (z : Int) : Int := cfdDoe z / 36524 - cfdDoe z / 146096

/-- Day of the century, `[0, 36524]`. -/
def cfdDoc (z : Int) : Int := cfdDoe z - 36524 * cfdCen z

/-- Four-year block within the century, `[0, 24]`. -/
def cfdQuad (z : Int) : Int := cfdDoc z / 1461

/-- Day within the four-year block, `[0, 1460]`. -/
def cfdDq (z : Int) : Int := cfdDoc z - 1461 * cfdQuad z

/-- Year within the four-year block, `[0, 3]`. -/
def cfdYiq (z : Int) : Int := cfdDq z / 365 - cfdDq z / 1460

/-- Year of the era, `[0, 399]`. -/
def cfdYoe (z : Int) : Int := 100 * cfdCen z + 4 * cfdQuad z + cfdYiq z

/-- Day of the March-based year, `[0, 365]`. -/
def cfdDoy (z : Int) : Int := cfdDq z - 365 * cfdYiq z

/-- March-based month index, `[0, 11]` (0 = March). -/
def cfdMp (z : Int) : Int := (5 * cfdDoy z + 2) / 153

/-- Civil day of month, `[1, 31]`. -/
def cfdD (z : Int) : Int := cfdDoy z - (153 * cfdMp z + 2) / 5 + 1

/-- Civil month, `[1, 12]`. -/
def cfdM (z : Int) : Int := if cfdMp z < 10 then cfdMp z + 3 else cfdMp z - 9

/-- Civil year. -/
def cfdY (z : Int) : Int :=
  (z + 719468) / 146097 * 400 + cfdYoe z + (if cfdM z ≤ 2 then 1 else 0)

/-- Civil date `(y, m, d)` of a day count since 1970-01-01. -/
def civilFromDays (z : Int) : Int × Int × Int := (cfdY z, cfdM z, cfdD z)

/-! ## ECMAScript `Date` constructor and field accessors

`jsNewDate y m d` models `new Date(y, m, d)` at local midnight (month `m`
is 0-based as in JS): month overflow folds into the year, day overflow is
plain day arithmetic, and constructor years 0..99 are remapped to 1900+y
(ECMA-262 `MakeFullYear`).  Field accessors `getFullYear` / `getMonth` /
`getDate` / `getDay` are `dYear` / `dMonth0` / `dDay` / `dDow`.
-/

/-- `MakeDay`: day count of `(y, m, d)` with 0-based month `m` normalized
into the year, and arbitrary (possibly overflowing) day `d`. -/
def mkDayNum (y m d : Int) : Int :=
  daysFromCivil (y + m / 12) (m % 12 + 1) d

/-- `new Date(y, m, d)` (local midnight), with the two-digit-year remap. -/
def jsNewDate (y m d : Int) : Int :=
  mkDayNum (if 0 ≤ y ∧ y ≤ 99 then y + 1900 else y) m d

/-- `getFullYear()`. -/
def dYear (e : Int) : Int := cfdY e

/-- `getMonth()` (0-based). -/
def dMonth0 (e : Int) : Int := cfdM e - 1

/-- `getDate()` (day of month, 1-based). -/
def dDay (e : Int) : Int := cfdD e

/-- `getDay()` (0 = Sunday .. 6 = Saturday); 1970-01-01 was a Thursday. -/
def dDow (e : Int) : Int := (e + 4) % 7

/-! ## Strings and the local ISO date codec

JS strings are `List Char`.  The codec is the strict consolidated
`utils/dateHelpers.ts`: `formatLocalDateISO` renders
`${year}-${pad2 (month+1)}-${pad2 day}` from the date's local fields, and
`parseLocalISODate` trims, matches `/^(\d{4})-(\d{2})-(\d{2})$/`, builds
`new Date(y, m-1, d)` and re-checks the constructed date's fields
(rejecting calendar overflow); a `none` result models a thrown error.
-/

/-- JS string. -/
abbrev JStr := List Char

/-- Digit character of a value `0..9` (template-literal rendering). -/
def digitChar (n : Nat) : Char :=
  if n = 0 then '0' else if n = 1 then '1' else if n = 2 then '2'
  else if n = 3 then '3' else if n = 4 then '4' else if n = 5 then '5'
  else if n = 6 then '6' else if n = 7 then '7' else if n = 8 then '8'
  else if n = 9 then '9' else '*'

/-- Value of a digit character (`\d` of the regex together with its
numeric value); `none` for every non-digit. -/
def charDigit? (c : Char) : Option Nat :=
  if c = '0' then some 0 else if c = '1' then some 1 else if c = '2' then some 2
  else if c = '3' then some 3 else if c = '4' then some 4 else if c = '5' then some 5
  else if c = '6' then some 6 else if c = '7' then some 7 else if c = '8' then some 8
  else if c = '9' then some 9 else none

/-- Decimal digits accumulator (`String(n)` semantics). -/
def natDigitsAux (n : Nat) (acc : List Char) : List Char :=
  if n < 10 then digitChar n :: acc
  else natDigitsAux (n / 10) (digitChar (n % 10) :: acc)
  termination_by n
  decreasing_by omega

/-- Decimal rendering of a natural number, no leading zeros. -/
def natDigits (n : Nat) : List Char := natDigitsAux n []

/-- `String(i)` for an integer (template-literal rendering). -/
def intDigits (i : Int) : JStr :=
  if i < 0 then '-' :: natDigits (-i).toNat else natDigits i.toNat

/-- `String(i).padStart(2, '0')`. -/
def pad2 (i : Int) : JStr :=
  if 0 ≤ i ∧ i < 10 then '0' :: intDigits i else intDigits i

/-- `formatLocalDateISO` / `formatDateISO`: local `YYYY-MM-DD` (year
rendered unpadded, month/day zero-padded to two digits). -/
def formatLocalDateISO (e : Int) : JStr :=
  intDigits (dYear e) ++ '-' :: (pad2 (dMonth0 e + 1) ++ '-' :: pad2 (dDay e))

/-- JS whitespace for `trim` (the characters relevant to this codec). -/
def wsChar (c : Char) : Bool :=
  c = ' ' || c = '\t' || c = '\n' || c = '\r'

/-- `String.prototype.trim`. -/
def trimJS (s : JStr) : JStr :=
  ((s.dropWhile wsChar).reverse.dropWhile wsChar).reverse

/-- The regex `/^(\d{4})-(\d{2})-(\d{2})$/` together with component
extraction: `some (year, month, day)` on match, `none` otherwise. -/
def isoComponents : JStr → Option (Int × Int × Int)
  | [c1, c2, c3, c4, h1, c5, c6, h2, c7, c8] =>
    if h1 = '-' ∧ h2 = '-' then
      match charDigit? c1, charDigit? c2, charDigit? c3, charDigit? c4,
          charDigit? c5, charDigit? c6, charDigit? c7, charDigit? c8 with
      | some v1, some v2, some v3, some v4, some v5, some v6, some v7, some v8 =>
        some ((1000 * v1 + 100 * v2 + 10 * v3 + v4 : Nat),
          (10 * v5 + v6 : Nat), (10 * v7 + v8 : Nat))
      | _, _, _, _, _, _, _, _ => none
    else none
  | _ => none

/-- `parseLocalISODate` (strict): trim, regex match, construct
`new Date(y, m-1, d)`, re-check the constructed fields; `none` models the
thrown `Error`. -/
def parseLocalISODate (s : JStr) : Option Int :=
  match isoComponents (trimJS s) with
  | none => none
  | some (y, m, d) =>
    let e := jsNewDate y (m - 1) d
    if dYear e = y ∧ dMonth0 e = m - 1 ∧ dDay e = d then some e else none

/-! ## Data model and the rule-based aggregator (`lib/ai/summarizers.ts`)

`DailyEntry` and `Summary` mirror `lib/database.ts` (the `id` column and
the markdown `content` column are not modelled: ids are storage-assigned
and never read by the pipeline logic, and `content` is presentation-only).
JS numbers are exact rationals here.

`Object.entries` enumeration order over a `Record<string, number>` is the
ECMAScript own-property order: integer-index keys (canonical base-10
strings below 2^32 - 1) ascending first, then the remaining string keys in
insertion order.  `Array.prototype.sort` is stable; the comparator
`(a, b) => b - a` sorts by descending count, so sorting is modelled by a
stable insertion sort.
-/

structure Ratings where
  productivity : ℚ
  mood : ℚ
  energy : ℚ
deriving DecidableEq, Repr

structure DailyEntry where
  date : JStr
  daily_text : JStr
  accomplishments : List JStr
  things_learned : List JStr
  things_grateful : List JStr
  ratings : Ratings
deriving DecidableEq, Repr

inductive SType where
  | weekly
  | monthly
  | yearly
deriving DecidableEq, Repr

structure Insights where
  key_themes : List JStr
  productivity_trend : ℚ
  mood_trend : ℚ
  energy_trend : ℚ
  top_accomplishments : List JStr
  main_learnings : List JStr
deriving DecidableEq, Repr

structure Summary where
  stype : SType
  start_date : JStr
  end_date : JStr
  insights : Insights
deriving DecidableEq, Repr

/-- `average`: arithmetic mean, `0` for the empty list (guarded division). -/
def average (nums : List ℚ) : ℚ :=
  if nums.length = 0 then 0 else nums.sum / nums.length

/-- `nonEmpty` (`!!s && !!s.trim()`). -/
def nonEmpty (s : JStr) : Bool :=
  decide (s ≠ []) && decide (trimJS s ≠ [])

/-- `freq[k] = (freq[k] || 0) + 1` on an insertion-ordered record. -/
def bumpKey (k : JStr) : List (JStr × Nat) → List (JStr × Nat)
  | [] => [(k, 1)]
  | (k', n) :: t => if k' = k then (k', n + 1) :: t else (k', n) :: bumpKey k t

/-- Frequency record of a key list, keys in first-encounter order. -/
def buildFreq (l : List JStr) : List (JStr × Nat) :=
  l.foldl (fun acc k => bumpKey k acc) []

/-- Numeric value of an all-digit string. -/
def digitsVal : JStr → Option Nat
  | [] => some 0
  | c :: t => (charDigit? c).bind fun v => (digitsVal t).map fun r => v * 10 ^ t.length + r

/-- Canonical array-index test of ECMAScript property keys: a base-10
numeral without leading zeros whose value is below `2^32 - 1`. -/
def arrayIndex? (s : JStr) : Option Nat :=
  match s with
  | [] => none
  | c :: t =>
    match digitsVal (c :: t) with
    | none => none
    | some v =>
      if (c = '0' ∧ t ≠ []) ∨ 4294967295 ≤ v then none else some v

/-- Sort key for the integer-index segment. -/
def idxVal (p : JStr × Nat) : Nat := (arrayIndex? p.1).getD 0

def insertAscIdx (p : JStr × Nat) : List (JStr × Nat) → List (JStr × Nat)
  | [] => [p]
  | q :: t => if idxVal q ≤ idxVal p then q :: insertAscIdx p t else p :: q :: t

def sortAscIdx (l : List (JStr × Nat)) : List (JStr × Nat) :=
  l.foldl (fun acc p => insertAscIdx p acc) []

/-- `Object.entries` enumeration order: integer-index keys ascending,
then the other keys in insertion order. -/
def jsEntries (l : List (JStr × Nat)) : List (JStr × Nat) :=
  sortAscIdx (l.filter fun p => (arrayIndex? p.1).isSome)
    ++ l.filter fun p => ¬ (arrayIndex? p.1).isSome

/-- Stable insertion into a list sorted by descending count. -/
def insertDesc (p : JStr × Nat) : List (JStr × Nat) → List (JStr × Nat)
  | [] => [p]
  | q :: t => if p.2 ≤ q.2 then q :: insertDesc p t else p :: q :: t

/-- `entries.sort((a, b) => b[1] - a[1])`: stable, descending by count. -/
def sortDesc (l : List (JStr × Nat)) : List (JStr × Nat) :=
  l.foldl (fun acc p => insertDesc p acc) []

/-- `consolidateThemes`: frequency-rank themes, full list (no slice). -/
def consolidateThemes (themes : List JStr) : List JStr :=
  (sortDesc (jsEntries (buildFreq themes))).map Prod.fst

/-- ASCII lowercasing (`toLowerCase`; the pipeline only compares against
ASCII stopwords). -/
def lowerChar (c : Char) : Char :=
  if 65 ≤ c.toNat ∧ c.toNat ≤ 90 then Char.ofNat (c.toNat + 32) else c

/-- ASCII uppercasing (`toUpperCase` of the first letter). -/
def upperChar (c : Char) : Char :=
  if 97 ≤ c.toNat ∧ c.toNat ≤ 122 then Char.ofNat (c.toNat - 32) else c

/-- `\w` of the regex: `[A-Za-z0-9_]`. -/
def isWordChar (c : Char) : Bool :=
  (65 ≤ c.toNat && c.toNat ≤ 90) || (97 ≤ c.toNat && c.toNat ≤ 122)
    || (48 ≤ c.toNat && c.toNat ≤ 57) || c = '_'

/-- Split on whitespace runs.  (JS `split(/\s+/)` can additionally yield
empty boundary tokens; every empty token is discarded downstream by the
`length > 3` filter, so the two agree observationally.) -/
def splitWsGo : JStr → JStr → List JStr
  | [], cur => [cur.reverse]
  | c :: t, cur => if wsChar c then cur.reverse :: splitWsGo t [] else splitWsGo t (c :: cur)

def splitWs (s : JStr) : List JStr := splitWsGo s []

/-- The stopword set of `extractKeyThemes`. -/
def commonWords : List JStr :=
  ["the", "and", "or", "but", "in", "on", "at", "to", "for", "of", "with",
    "by", "a", "an", "is", "was", "were", "been", "have", "has", "had",
    "will", "would", "could", "should", "i", "you", "he", "she", "it",
    "we", "they", "me", "him", "her", "us", "them", "my", "your", "his",
    "its", "our", "their"].map String.data

/-- `word.charAt(0).toUpperCase() + word.slice(1)`. -/
def capitalizeJS : JStr → JStr
  | [] => []
  | c :: t => upperChar c :: t

/-- Tokens of one `daily_text`: lowercase, strip every character that is
neither `\w` nor `\s`, split on whitespace, keep tokens longer than 3
that are not stopwords. -/
def textWords (text : JStr) : List JStr :=
  (splitWs ((text.map lowerChar).filter fun c => isWordChar c || wsChar c)).filter
    fun w => 3 < w.length && decide (w ∉ commonWords)

/-- `extractKeyThemes`: top-8 words by frequency across all texts,
capitalized. -/
def extractKeyThemes (dailyTexts : List JStr) : List JStr :=
  ((sortDesc (jsEntries (buildFreq (dailyTexts.flatMap textWords)))).take 8).map
    fun p => capitalizeJS p.1

/-- The all-zero insights of an `emptyResponse`. -/
def emptyInsights : Insights :=
  ⟨[], 0, 0, 0, [], []⟩

/-- `ruleBasedWeekly` (insights; markdown content not modelled). -/
def ruleBasedWeekly (entries : List DailyEntry) : Insights :=
  if entries.length = 0 then emptyInsights
  else
    let allAccomplishments := (entries.flatMap (·.accomplishments)).filter nonEmpty
    let allLearnings := (entries.flatMap (·.things_learned)).filter nonEmpty
    { key_themes := extractKeyThemes (entries.map (·.daily_text))
      productivity_trend := average (entries.map (·.ratings.productivity))
      mood_trend := average (entries.map (·.ratings.mood))
      energy_trend := average (entries.map (·.ratings.energy))
      top_accomplishments := allAccomplishments.take 5
      main_learnings := allLearnings.take 5 }

/-- `ruleBasedMonthly` (insights). -/
def ruleBasedMonthly (weeklySummaries : List Summary) : Insights :=
  if weeklySummaries.length = 0 then emptyInsights
  else
    { key_themes :=
        (consolidateThemes (weeklySummaries.flatMap (·.insights.key_themes))).take 10
      productivity_trend := average (weeklySummaries.map (·.insights.productivity_trend))
      mood_trend := average (weeklySummaries.map (·.insights.mood_trend))
      energy_trend := average (weeklySummaries.map (·.insights.energy_trend))
      top_accomplishments :=
        (weeklySummaries.flatMap (·.insights.top_accomplishments)).take 10
      main_learnings := (weeklySummaries.flatMap (·.insights.main_learnings)).take 10 }

/-- `ruleBasedYearly` (insights). -/
def ruleBasedYearly (monthlySummaries : List Summary) : Insights :=
  if monthlySummaries.length = 0 then emptyInsights
  else
    { key_themes :=
        (consolidateThemes (monthlySummaries.flatMap (·.insights.key_themes))).take 8
      productivity_trend := average (monthlySummaries.map (·.insights.productivity_trend))
      mood_trend := average (monthlySummaries.map (·.insights.mood_trend))
      energy_trend := average (monthlySummaries.map (·.insights.energy_trend))
      top_accomplishments :=
        (monthlySummaries.flatMap (·.insights.top_accomplishments)).take 20
      main_learnings := (monthlySummaries.flatMap (·.insights.main_learnings)).take 20 }

/-! ## Store state, rollup generators and the pending-backfill scanner

`St` is the summary store: the three summary tables plus the (read-only
for this pipeline) daily-entries table, abstracted as the query
`entriesFor : weekStartISO → entries` (`getEntriesForWeeklySummary`).
The pipeline never writes entries, so `entriesFor` is a fixed function.

`JsRes` is the outcome of an async operation: `ok v`, or `thrown` for a
propagated exception.  The modular `SummaryService` front-end
(`checkAndGeneratePendingSummaries`) awaits the three scans sequentially
with no `try`/`catch`, so an exception aborts the current scan and skips
the remaining granularities.

`getWeeklySummariesForMonth` is modelled at the level of the Store
contract (§6): weekly rows with `start_date ≥ monthStartISO` and
`end_date ≤` the month's last day.  (The SQLite store derives the month
end via a UTC parse; either way the result is a fixed pure function of
the weekly table and the key, which is all the pipeline depends on.)
-/

structure St where
  weekly : List Summary
  monthly : List Summary
  yearly : List Summary
  entriesFor : JStr → List DailyEntry

inductive JsRes (α : Type) where
  | ok (val : α)
  | thrown
deriving DecidableEq, Repr

/-- `databaseService.saveSummary` routed by the record's type column. -/
def saveSummary (s : St) (sm : Summary) : St :=
  match sm.stype with
  | .weekly => { s with weekly := s.weekly ++ [sm] }
  | .monthly => { s with monthly := s.monthly ++ [sm] }
  | .yearly => { s with yearly := s.yearly ++ [sm] }

/-- JS string `<` (code-unit lexicographic). -/
def jstrLt : JStr → JStr → Bool
  | [], [] => false
  | [], _ :: _ => true
  | _ :: _, [] => false
  | a :: s, b :: t =>
    if a.toNat < b.toNat then true
    else if b.toNat < a.toNat then false
    else jstrLt s t

/-- JS string `<=`. -/
def jstrLe (s t : JStr) : Bool := ! jstrLt t s

/-- `aiService.validateSummaryRequest` on the two dates: both must match
`/^\d{4}-\d{2}-\d{2}$/` and parse as valid local dates (the parse throws
on failure).  The non-empty source check also performed there is already
established at every call site by the generator's own empty-input guard. -/
def aiDatesOk (startDate endDate : JStr) : Bool :=
  (isoComponents startDate).isSome && (isoComponents endDate).isSome &&
    (parseLocalISODate startDate).isSome && (parseLocalISODate endDate).isSome

/-- Local week end: `new Date(y, m, d + 6)` of the week start. -/
def weekEndOf (start : Int) : Int :=
  jsNewDate (dYear start) (dMonth0 start) (dDay start + 6)

/-- Month end: day 0 of the following month,
`new Date(y, m + 1, 0)` on local fields. -/
def monthEndD (e : Int) : Int :=
  jsNewDate (dYear e) (dMonth0 e + 1) 0

/-- Week-start projection (`getWeekStartDate`, and the Monday derivation
inside the weekly scanner): local-midnight base, then
`mondayOffset = (dow == 0 ? -6 : 1 - dow)` days. -/
def weekStart (e : Int) : Int :=
  let base := jsNewDate (dYear e) (dMonth0 e) (dDay e)
  let off := if dDow base = 0 then -6 else 1 - dDow base
  jsNewDate (dYear base) (dMonth0 base) (dDay base + off)

/-- Store contract: weekly summaries lying inside the month that starts
at `monthStartISO` (string comparison on ISO dates). -/
def getWeeklySummariesForMonth (weeklyList : List Summary) (monthStartISO : JStr) :
    List Summary :=
  let monthEndISO :=
    match parseLocalISODate monthStartISO with
    | some e => formatLocalDateISO (monthEndD e)
    | none => []
  weeklyList.filter fun r =>
    jstrLe monthStartISO r.start_date && jstrLe r.end_date monthEndISO

/-- `generateWeeklySummary` (`summaries/weekly.ts`): canonicalize the
key, fetch the week's entries, `null` on empty, otherwise aggregate and
save.  Every `thrown` branch occurs before the save, so a throw leaves
the store untouched. -/
def generateWeeklySummary (s : St) (weekStartDate : JStr) : St × JsRes (Option Summary) :=
  match parseLocalISODate weekStartDate with
  | none => (s, .thrown)
  | some dt =>
    let canonicalDate := formatLocalDateISO dt
    let entries := s.entriesFor canonicalDate
    if entries.length = 0 then (s, .ok none)
    else
      match parseLocalISODate canonicalDate with
      | none => (s, .thrown)
      | some start =>
        let weekEndISO := formatLocalDateISO (weekEndOf start)
        if aiDatesOk canonicalDate weekEndISO then
          let sm : Summary :=
            ⟨.weekly, canonicalDate, weekEndISO, ruleBasedWeekly entries⟩
          (saveSummary s sm, .ok (some sm))
        else (s, .thrown)

/-- `generateMonthlySummary` (`summaries/monthly.ts`). -/
def generateMonthlySummary (s : St) (monthStartDate : JStr) : St × JsRes (Option Summary) :=
  let weeklySummaries := getWeeklySummariesForMonth s.weekly monthStartDate
  if weeklySummaries.length = 0 then (s, .ok none)
  else
    match parseLocalISODate monthStartDate with
    | none => (s, .thrown)
    | some start =>
      let monthEndISO := formatLocalDateISO (monthEndD start)
      if aiDatesOk monthStartDate monthEndISO then
        let sm : Summary :=
          ⟨.monthly, monthStartDate, monthEndISO, ruleBasedMonthly weeklySummaries⟩
        (saveSummary s sm, .ok (some sm))
      else (s, .thrown)

/-- `${year}-01-01`. -/
def yearStartStr (year : Int) : JStr :=
  intDigits year ++ ['-', '0', '1', '-', '0', '1']

/-- `formatDateISO(new Date(year, 12, 0))` — local Dec 31. -/
def yearEndStr (year : Int) : JStr :=
  formatLocalDateISO (jsNewDate year 12 0)

/-- Monthly summaries fully contained in the year window (string
comparison, as in the source). -/
def yearlyFilter (monthlies : List Summary) (year : Int) : List Summary :=
  monthlies.filter fun r =>
    jstrLe (yearStartStr year) r.start_date && jstrLe r.end_date (yearEndStr year)

/-- `generateYearlySummary` (`summaries/yearly.ts`). -/
def generateYearlySummary (s : St) (year : Int) : St × JsRes (Option Summary) :=
  let yearMonthlySummaries := yearlyFilter s.monthly year
  if yearMonthlySummaries.length = 0 then (s, .ok none)
  else
    if aiDatesOk (yearStartStr year) (yearEndStr year) then
      let sm : Summary :=
        ⟨.yearly, yearStartStr year, yearEndStr year, ruleBasedYearly yearMonthlySummaries⟩
      (saveSummary s sm, .ok (some sm))
    else (s, .thrown)

/-- Canonicalized start dates of the existing weekly summaries
(`formatDateISO(parseLocalISODate(s.start_date))` over the fetched list;
`none` models a throw on the first unparsable stored date). -/
def canonList : List JStr → Option (List JStr)
  | [] => some []
  | sd :: t =>
    match parseLocalISODate sd with
    | none => none
    | some e => (canonList t).map (formatLocalDateISO e :: ·)

/-- The `i`-th weekly backfill candidate: step back `i` weeks from the
pivot, then project to that week's Monday, canonical ISO. -/
def weekCandidate (oneWeekAgo : Int) (i : Int) : JStr :=
  let pivot := jsNewDate (dYear oneWeekAgo) (dMonth0 oneWeekAgo) (dDay oneWeekAgo - i * 7)
  let off := if dDow pivot = 0 then -6 else 1 - dDow pivot
  formatLocalDateISO (jsNewDate (dYear pivot) (dMonth0 pivot) (dDay pivot + off))

/-- The `for` loop of `generatePendingWeeklySummaries`: skip candidates
with an existing summary, generate when the week has ≥ 3 entries. -/
def scanWeekLoop (s : St) (exist : List JStr) : List JStr → St × JsRes Unit
  | [] => (s, .ok ())
  | c :: cs =>
    if c ∈ exist then scanWeekLoop s exist cs
    else if 3 ≤ (s.entriesFor c).length then
      match generateWeeklySummary s c with
      | (s', .ok _) => scanWeekLoop s' exist cs
      | (s', .thrown) => (s', .thrown)
    else scanWeekLoop s exist cs

/-- `generatePendingWeeklySummaries`: 4 most recent completed weeks,
pivoting from one week before today's local midnight. -/
def generatePendingWeeklySummaries (s : St) (now : Int) : St × JsRes Unit :=
  let todayLocal := jsNewDate (dYear now) (dMonth0 now) (dDay now)
  let oneWeekAgoLocal :=
    jsNewDate (dYear todayLocal) (dMonth0 todayLocal) (dDay todayLocal - 7)
  match canonList (s.weekly.map (·.start_date)) with
  | none => (s, .thrown)
  | some existingStarts =>
    scanWeekLoop s existingStarts
      ((List.range 4).map fun i => weekCandidate oneWeekAgoLocal (i : Int))

/-- The `i`-th monthly backfill candidate: first of the month `i` months
back. -/
def monthCandidate (now : Int) (i : Int) : JStr :=
  formatLocalDateISO (jsNewDate (dYear now) (dMonth0 now - i) 1)

/-- The `for` loop of `generatePendingMonthlySummaries`: threshold ≥ 2
weekly summaries. -/
def scanMonthLoop (s : St) (exist : List JStr) : List JStr → St × JsRes Unit
  | [] => (s, .ok ())
  | c :: cs =>
    if c ∈ exist then scanMonthLoop s exist cs
    else if 2 ≤ (getWeeklySummariesForMonth s.weekly c).length then
      match generateMonthlySummary s c with
      | (s', .ok _) => scanMonthLoop s' exist cs
      | (s', .thrown) => (s', .thrown)
    else scanMonthLoop s exist cs

/-- `generatePendingMonthlySummaries`: the previous 3 months, raw
`start_date` matching (no canonicalization). -/
def generatePendingMonthlySummaries (s : St) (now : Int) : St × JsRes Unit :=
  scanMonthLoop s (s.monthly.map (·.start_date))
    ((List.range 3).map fun i => monthCandidate now ((i : Int) + 1))

/-- The `for` loop of `generatePendingYearlySummaries` over year numbers:
threshold ≥ 6 monthly summaries, counted on the list fetched once before
the loop. -/
def scanYearLoop (s : St) (exist : List JStr) (monthlies : List Summary) :
    List Int → St × JsRes Unit
  | [] => (s, .ok ())
  | y :: ys =>
    if yearStartStr y ∈ exist then scanYearLoop s exist monthlies ys
    else if 6 ≤ (yearlyFilter monthlies y).length then
      match generateYearlySummary s y with
      | (s', .ok _) => scanYearLoop s' exist monthlies ys
      | (s', .thrown) => (s', .thrown)
    else scanYearLoop s exist monthlies ys

/-- `generatePendingYearlySummaries`: the years `currentYear - 2` and
`currentYear - 1`. -/
def generatePendingYearlySummaries (s : St) (now : Int) : St × JsRes Unit :=
  scanYearLoop s (s.yearly.map (·.start_date)) s.monthly [dYear now - 2, dYear now - 1]

/-- `SummaryService.checkAndGeneratePendingSummaries`: the three scans
awaited in sequence; an exception skips the remaining granularities. -/
def checkAndGeneratePendingSummaries (s : St) (now : Int) : St × JsRes Unit :=
  match generatePendingWeeklySummaries s now with
  | (s1, .thrown) => (s1, .thrown)
  | (s1, .ok _) =>
    match generatePendingMonthlySummaries s1 now with
    | (s2, .thrown) => (s2, .thrown)
    | (s2, .ok _) => generatePendingYearlySummaries s2 now

/-- `normalizeYearlyForceDate`: accept `"YYYY"` or `"YYYY-MM-DD"` only
(regex `/^(?:\d{4}|\d{4}-\d{2}-\d{2})$/`), return `Number(date.slice(0, 4))`;
`none` models the thrown descriptive `Error`. -/
def normalizeYearlyForceDate (date : JStr) : Option Int :=
  match date with
  | [c1, c2, c3, c4] =>
    match charDigit? c1, charDigit? c2, charDigit? c3, charDigit? c4 with
    | some v1, some v2, some v3, some v4 =>
      some ((1000 * v1 + 100 * v2 + 10 * v3 + v4 : Nat) : Int)
    | _, _, _, _ => none
  | [c1, c2, c3, c4, h1, c5, c6, h2, c7, c8] =>
    match isoComponents [c1, c2, c3, c4, h1, c5, c6, h2, c7, c8] with
    | some (y, _, _) => some y
    | none => none
  | _ => none

/-- The well-formed yearly force keys: exactly `"YYYY"` or
`"YYYY-MM-DD"`. -/
def isFourDigitYear (s : JStr) : Bool :=
  match s with
  | [c1, c2, c3, c4] =>
    (charDigit? c1).isSome && (charDigit? c2).isSome &&
      (charDigit? c3).isSome && (charDigit? c4).isSome
  | _ => false

def yearlyKeyShapeOK (s : JStr) : Bool :=
  isFourDigitYear s || (isoComponents s).isSome

/-- `forceSummaryGeneration('yearly', date)`: normalization runs first
and synchronously; the generator (and with it any store access) is
reached only on success. -/
def forceYearlySummaryGeneration (s : St) (date : JStr) : St × JsRes (Option Summary) :=
  match normalizeYearlyForceDate date with
  | none => (s, .thrown)
  | some year => generateYearlySummary s year

/-! ## Pure mirrors of the generators

Each generator touches the store only through its final `saveSummary`,
and every branch condition depends only on the read-only inputs (the
entries query for weekly, the weekly table for monthly, the monthly
table for yearly).  The `*Attempt` functions compute the outcome and
`*App` the appended rows, and the `*_split` lemmas restate each
generator as append-plus-outcome. -/

def weeklyAttempt (f : JStr → List DailyEntry) (c : JStr) : JsRes (Option Summary) :=
  match parseLocalISODate c with
  | none => .thrown
  | some dt =>
    let canonicalDate := formatLocalDateISO dt
    let entries := f canonicalDate
    if entries.length = 0 then .ok none
    else
      match parseLocalISODate canonicalDate with
      | none => .thrown
      | some start =>
        let weekEndISO := formatLocalDateISO (weekEndOf start)
        if aiDatesOk canonicalDate weekEndISO then
          .ok (some ⟨.weekly, canonicalDate, weekEndISO, ruleBasedWeekly entries⟩)
        else .thrown

def wApp (f : JStr → List DailyEntry) (c : JStr) : List Summary :=
  match weeklyAttempt f c with
  | .ok (some r) => [r]
  | _ => []

def monthlyAttempt (weeklyList : List Summary) (c : JStr) : JsRes (Option Summary) :=
  let ws := getWeeklySummariesForMonth weeklyList c
  if ws.length = 0 then .ok none
  else
    match parseLocalISODate c with
    | none => .thrown
    | some start =>
      let monthEndISO := formatLocalDateISO (monthEndD start)
      if aiDatesOk c monthEndISO then
        .ok (some ⟨.monthly, c, monthEndISO, ruleBasedMonthly ws⟩)
      else .thrown

def mApp (weeklyList : List Summary) (c : JStr) : List Summary :=
  match monthlyAttempt weeklyList c with
  | .ok (some r) => [r]
  | _ => []

def yearlyAttempt (monthlies : List Summary) (year : Int) : JsRes (Option Summary) :=
  let ys := yearlyFilter monthlies year
  if ys.length = 0 then .ok none
  else
    if aiDatesOk (yearStartStr year) (yearEndStr year) then
      .ok (some ⟨.yearly, yearStartStr year, yearEndStr year, ruleBasedYearly ys⟩)
    else .thrown

def yApp (monthlies : List Summary) (year : Int) : List Summary :=
  match yearlyAttempt monthlies year with
  | .ok (some r) => [r]
  | _ => []

/-! ## Characterization and idempotence of the weekly scan -/

/-- The candidate list of one weekly scan, as a function of "now". -/
def weekCands (now : Int) : List JStr :=
  let todayLocal := jsNewDate (dYear now) (dMonth0 now) (dDay now)
  let oneWeekAgoLocal :=
    jsNewDate (dYear todayLocal) (dMonth0 todayLocal) (dDay todayLocal - 7)
  (List.range 4).map fun i => weekCandidate oneWeekAgoLocal (i : Int)

/-- A processed weekly candidate: skipped (existing key or thin week),
generated nothing (`null`), or generated a row recorded in `app`. -/
def wCond (f : JStr → List DailyEntry) (exist : List JStr) (app : List Summary)
    (c : JStr) : Prop :=
  c ∈ exist ∨ (f c).length < 3 ∨ weeklyAttempt f c = .ok none ∨
    ∃ r, r ∈ app ∧ weeklyAttempt f c = .ok (some r)

/-! ## Characterization and idempotence of the monthly scan -/

/-- The candidate list of one monthly scan. -/
def monthCands (now : Int) : List JStr :=
  (List.range 3).map fun i => monthCandidate now ((i : Int) + 1)

/-- A processed monthly candidate. -/
def mCond (w : List Summary) (exist : List JStr) (app : List Summary)
    (c : JStr) : Prop :=
  c ∈ exist ∨ (getWeeklySummariesForMonth w c).length < 2 ∨
    monthlyAttempt w c = .ok none ∨
    ∃ r, r ∈ app ∧ monthlyAttempt w c = .ok (some r)

/-! ## Characterization and idempotence of the yearly scan -/

/-- The candidate year list of one yearly scan. -/
def yearCands (now : Int) : List Int :=
  [dYear now - 2, dYear now - 1]

/-- A processed yearly candidate. -/
def yCond (m : List Summary) (exist : List JStr) (app : List Summary)
    (y : Int) : Prop :=
  yearStartStr y ∈ exist ∨ (yearlyFilter m y).length < 6 ∨
    yearlyAttempt m y = .ok none ∨
    ∃ r, r ∈ app ∧ yearlyAttempt m y = .ok (some r)

/-! ## Concrete fixtures for the witnesses -/

/-- An empty store. -/
def emptySt : St := ⟨[], [], [], fun _ => []⟩

/-- A blank daily entry. -/
def entry0 : DailyEntry := ⟨[], [], [], [], [], ⟨0, 0, 0⟩⟩

/-- A store whose entry query always returns 3 entries. -/
def st3 : St := ⟨[], [], [], fun _ => [entry0, entry0, entry0]⟩

/-- A store whose entry query always returns 2 entries. -/
def st2 : St := ⟨[], [], [], fun _ => [entry0, entry0]⟩

def wsum1 : Summary := ⟨.weekly, "2025-01-06".data, "2025-01-12".data, emptyInsights⟩

def wsum2 : Summary := ⟨.weekly, "2025-01-13".data, "2025-01-19".data, emptyInsights⟩

/-- A store with two January-2025 weekly summaries. -/
def stM : St := ⟨[wsum1, wsum2], [], [], fun _ => []⟩

def msum : Summary := ⟨.monthly, "2024-03-01".data, "2024-03-31".data, emptyInsights⟩

/-- A store with six 2024 monthly summaries. -/
def stY : St := ⟨[], [msum, msum, msum, msum, msum, msum], [], fun _ => []⟩

/-- Weekly-summary fixtures for concrete theme aggregation. -/
def wth1 : Summary :=
  ⟨.weekly, [], [], ⟨["Work", "Work", "Family"].map String.data, 0, 0, 0, [], []⟩⟩

def wth2 : Summary :=
  ⟨.weekly, [], [], ⟨["Family", "Travel"].map String.data, 0, 0, 0, [], []⟩⟩

theorem cfdDoe_bounds (z : Int) : 0 ≤ cfdDoe z ∧ cfdDoe z < 146097 := by
  unfold cfdDoe; omega

theorem cfdCen_facts (z : Int) :
    0 ≤ cfdCen z ∧ cfdCen z ≤ 3 ∧ cfdDoc z = cfdDoe z - 36524 * cfdCen z ∧
    0 ≤ cfdDoc z ∧ cfdDoc z ≤ 36524 ∧ (cfdDoc z = 36524 → cfdCen z = 3) := by
  have h := cfdDoe_bounds z
  unfold cfdDoc cfdCen
  omega

theorem cfdQuad_facts (z : Int) :
    0 ≤ cfdQuad z ∧ cfdQuad z ≤ 24 ∧ cfdDq z = cfdDoc z - 1461 * cfdQuad z ∧
    0 ≤ cfdDq z ∧ cfdDq z ≤ 1460 ∧
    (cfdDq z = 1460 → cfdQuad z = 24 → cfdCen z = 3) := by
  have h := cfdCen_facts z
  unfold cfdDq cfdQuad
  omega

theorem cfdYiq_facts (z : Int) :
    0 ≤ cfdYiq z ∧ cfdYiq z ≤ 3 ∧ cfdDoy z = cfdDq z - 365 * cfdYiq z ∧
    0 ≤ cfdDoy z ∧ cfdDoy z ≤ 365 ∧ (cfdDoy z = 365 → cfdYiq z = 3 ∧ cfdDq z = 1460) := by
  have h := cfdQuad_facts z
  unfold cfdDoy cfdYiq
  omega

theorem cfdYoe_facts (z : Int) :
    0 ≤ cfdYoe z ∧ cfdYoe z ≤ 399 ∧
    cfdYoe z / 4 = 25 * cfdCen z + cfdQuad z ∧ cfdYoe z / 100 = cfdCen z := by
  have hc := cfdCen_facts z
  have hq := cfdQuad_facts z
  have hy := cfdYiq_facts z
  unfold cfdYoe
  omega

theorem cfdMp_facts (z : Int) :
    0 ≤ cfdMp z ∧ cfdMp z ≤ 11 ∧
    cfdD z = cfdDoy z - (153 * cfdMp z + 2) / 5 + 1 := by
  have h := cfdYiq_facts z
  unfold cfdD cfdMp
  omega

/-- Era/century/block/year decomposition of the day count. -/
theorem cfd_decomp (z : Int) :
    z + 719468 = (z + 719468) / 146097 * 146097 + 36524 * cfdCen z
      + 1461 * cfdQuad z + 365 * cfdYiq z + cfdDoy z := by
  have hcen := cfdCen_facts z
  have hquad := cfdQuad_facts z
  have hyiq := cfdYiq_facts z
  have hdoeEq : cfdDoe z = (z + 719468) - (z + 719468) / 146097 * 146097 := rfl
  omega

/-- `daysFromCivil` is a left inverse of `civilFromDays` on all day counts. -/
theorem daysFromCivil_civilFromDays (z : Int) :
    daysFromCivil (cfdY z) (cfdM z) (cfdD z) = z := by
  have hyoe := cfdYoe_facts z
  have hmp := cfdMp_facts z
  have hdec := cfd_decomp z
  have hyoeEq : cfdYoe z = 100 * cfdCen z + 4 * cfdQuad z + cfdYiq z := rfl
  have hdoy := cfdYiq_facts z
  by_cases hsplit : cfdMp z < 10
  · have hM : cfdM z = cfdMp z + 3 := by unfold cfdM; simp [hsplit]
    have hM2 : ¬ cfdM z ≤ 2 := by omega
    have hY : cfdY z = (z + 719468) / 146097 * 400 + cfdYoe z := by
      unfold cfdY; simp [hM2]
    simp only [daysFromCivil, if_neg hM2]
    rw [hY, show (z + 719468) / 146097 * 400 + cfdYoe z
        - ((z + 719468) / 146097 * 400 + cfdYoe z) / 400 * 400
        = cfdYoe z - (cfdYoe z / 400) * 400 by omega,
      show cfdYoe z / 400 = 0 by omega,
      show cfdYoe z - 0 * 400 = cfdYoe z by ring, hM,
      show cfdMp z + 3 - 3 = cfdMp z by omega]
    have h4 : cfdYoe z / 4 = 25 * cfdCen z + cfdQuad z := hyoe.2.2.1
    have h100 : cfdYoe z / 100 = cfdCen z := hyoe.2.2.2
    omega
  · have hM : cfdM z = cfdMp z - 9 := by unfold cfdM; simp [hsplit]
    have hM2 : cfdM z ≤ 2 := by omega
    have hY : cfdY z = (z + 719468) / 146097 * 400 + cfdYoe z + 1 := by
      unfold cfdY; simp [hM2]
    simp only [daysFromCivil, if_pos hM2]
    rw [hY, show (z + 719468) / 146097 * 400 + cfdYoe z + 1 - 1
        - ((z + 719468) / 146097 * 400 + cfdYoe z + 1 - 1) / 400 * 400
        = cfdYoe z - (cfdYoe z / 400) * 400 by omega,
      show cfdYoe z / 400 = 0 by omega,
      show cfdYoe z - 0 * 400 = cfdYoe z by ring, hM,
      show cfdMp z - 9 + 9 = cfdMp z by omega]
    have h4 : cfdYoe z / 4 = 25 * cfdCen z + cfdQuad z := hyoe.2.2.1
    have h100 : cfdYoe z / 100 = cfdCen z := hyoe.2.2.2
    omega

/-- Unfolding of `isLeap` into integer congruences. -/
theorem isLeap_iff (y : Int) :
    isLeap y = true ↔ ((y % 4 = 0 ∧ y % 100 ≠ 0) ∨ y % 400 = 0) := by
  simp [isLeap, Bool.or_eq_true, Bool.and_eq_true, beq_iff_eq, bne_iff_ne]

/-- The components produced by `civilFromDays` always form a valid civil
date: month in `[1,12]` and day in `[1, daysInMonth]` (with the exact
Gregorian leap rule governing February 29). -/
theorem civilFromDays_valid (z : Int) :
    1 ≤ cfdM z ∧ cfdM z ≤ 12 ∧ 1 ≤ cfdD z ∧ cfdD z ≤ daysInMonth (cfdY z) (cfdM z) := by
  have hmp := cfdMp_facts z
  have hyiq := cfdYiq_facts z
  have hquad := cfdQuad_facts z
  have hcen := cfdCen_facts z
  have hyoe := cfdYoe_facts z
  have hmpEq : cfdMp z = (5 * cfdDoy z + 2) / 153 := rfl
  have hdEq : cfdD z = cfdDoy z - (153 * cfdMp z + 2) / 5 + 1 := rfl
  have hyoeEq : cfdYoe z = 100 * cfdCen z + 4 * cfdQuad z + cfdYiq z := rfl
  have hmEq : cfdM z = if cfdMp z < 10 then cfdMp z + 3 else cfdMp z - 9 := rfl
  have hm1 : 1 ≤ cfdM z := by rw [hmEq]; split <;> omega
  have hm12 : cfdM z ≤ 12 := by rw [hmEq]; split <;> omega
  refine ⟨hm1, hm12, by omega, ?_⟩
  by_cases hfeb : cfdMp z = 11
  · have hm2 : cfdM z = 2 := by rw [hmEq, hfeb]; norm_num
    have hYEq : cfdY z = (z + 719468) / 146097 * 400 + cfdYoe z + 1 := by
      unfold cfdY; rw [hm2]; norm_num
    rw [hm2, show daysInMonth (cfdY z) 2 = if isLeap (cfdY z) then 29 else 28 from by
      simp [daysInMonth]]
    rcases hL : isLeap (cfdY z) with _ | _
    · norm_num
      have hLprop : ¬ ((cfdY z % 4 = 0 ∧ cfdY z % 100 ≠ 0) ∨ cfdY z % 400 = 0) := by
        rw [← isLeap_iff, hL]; simp
      omega
    · norm_num
      omega
  · have hcases : cfdMp z = 0 ∨ cfdMp z = 1 ∨ cfdMp z = 2 ∨ cfdMp z = 3 ∨ cfdMp z = 4
        ∨ cfdMp z = 5 ∨ cfdMp z = 6 ∨ cfdMp z = 7 ∨ cfdMp z = 8 ∨ cfdMp z = 9
        ∨ cfdMp z = 10 := by omega
    rw [hmEq]
    rcases hcases with h | h | h | h | h | h | h | h | h | h | h <;>
      rw [h] <;> norm_num [daysInMonth] <;> omega

/-- Day-of-year bounds for a valid civil date, and recovery of the shifted
month index.  `mp` is the March-based month, `doy` the day of March-year. -/
theorem doy_facts (y m d : Int) (hm1 : 1 ≤ m) (hm12 : m ≤ 12)
    (hd1 : 1 ≤ d) (hd2 : d ≤ daysInMonth y m)
    (mp : Int) (hmp : (m ≤ 2 ∧ mp = m + 9) ∨ (¬ m ≤ 2 ∧ mp = m - 3)) :
    0 ≤ (153 * mp + 2) / 5 + d - 1 ∧ (153 * mp + 2) / 5 + d - 1 ≤ 365 ∧
    (5 * ((153 * mp + 2) / 5 + d - 1) + 2) / 153 = mp ∧
    ((153 * mp + 2) / 5 + d - 1 = 365 → m = 2 ∧ d = 29 ∧ isLeap y = true) := by
  by_cases hfeb : m = 2
  · subst hfeb
    have hmp11 : mp = 11 := by omega
    subst hmp11
    rw [show daysInMonth y 2 = if isLeap y then 29 else 28 from by simp [daysInMonth]] at hd2
    rcases hL : isLeap y with _ | _ <;> rw [hL] at hd2 <;> norm_num at hd2
    · refine ⟨by omega, by omega, by omega, fun h => ?_⟩
      exact absurd (show d = 29 by omega) (by omega)
    · exact ⟨by omega, by omega, by omega, fun h => ⟨rfl, by omega, rfl⟩⟩
  · have hd31 : d ≤ 31 := by
      simp only [daysInMonth, if_neg hfeb] at hd2
      split at hd2 <;> omega
    have hd30 : m = 4 ∨ m = 6 ∨ m = 9 ∨ m = 11 → d ≤ 30 := by
      intro hm
      simp only [daysInMonth, if_neg hfeb, if_pos hm] at hd2
      omega
    have hcases : mp = 0 ∨ mp = 1 ∨ mp = 2 ∨ mp = 3 ∨ mp = 4 ∨ mp = 5 ∨ mp = 6
        ∨ mp = 7 ∨ mp = 8 ∨ mp = 9 ∨ mp = 10 := by omega
    refine ⟨by omega, ?_, ?_, ?_⟩ <;> omega

/-- Century recovery from a day-of-era written as `36524 * cen + doc`. -/
theorem cen_recover (cen doc : Int) (hc0 : 0 ≤ cen) (hc1 : cen ≤ 3)
    (hd0 : 0 ≤ doc) (hcor : doc ≤ 36523 ∨ (doc = 36524 ∧ cen = 3)) :
    (36524 * cen + doc) / 36524 - (36524 * cen + doc) / 146096 = cen := by
  omega

set_option maxHeartbeats 1000000 in
/-- `civilFromDays` is a left inverse of `daysFromCivil` on valid civil
dates. -/
theorem civilFromDays_daysFromCivil (y m d : Int) (hm1 : 1 ≤ m) (hm12 : m ≤ 12)
    (hd1 : 1 ≤ d) (hd2 : d ≤ daysInMonth y m) :
    civilFromDays (daysFromCivil y m d) = (y, m, d) := by
  obtain ⟨y2, mp, hsplit⟩ : ∃ y2 mp,
      (m ≤ 2 ∧ y2 = y - 1 ∧ mp = m + 9) ∨ (¬ m ≤ 2 ∧ y2 = y ∧ mp = m - 3) := by
    by_cases h : m ≤ 2
    · exact ⟨y - 1, m + 9, Or.inl ⟨h, rfl, rfl⟩⟩
    · exact ⟨y, m - 3, Or.inr ⟨h, rfl, rfl⟩⟩
  have hmp' : (m ≤ 2 ∧ mp = m + 9) ∨ (¬ m ≤ 2 ∧ mp = m - 3) := by tauto
  have hdoy := doy_facts y m d hm1 hm12 hd1 hd2 mp hmp'
  obtain ⟨doy, hdoyEq⟩ : ∃ t, t = (153 * mp + 2) / 5 + d - 1 := ⟨_, rfl⟩
  rw [← hdoyEq] at hdoy
  obtain ⟨era, yoe, hyEq, hyoe0, hyoe1⟩ :
      ∃ era yoe, y2 = 400 * era + yoe ∧ 0 ≤ yoe ∧ yoe ≤ 399 :=
    ⟨y2 / 400, y2 - y2 / 400 * 400, by omega, by omega, by omega⟩
  obtain ⟨cen, quad, yiq, hyoeEq, hcen0, hcen1, hquad0, hquad1, hyiq0, hyiq1⟩ :
      ∃ cen quad yiq, yoe = 100 * cen + 4 * quad + yiq ∧ 0 ≤ cen ∧ cen ≤ 3 ∧
        0 ≤ quad ∧ quad ≤ 24 ∧ 0 ≤ yiq ∧ yiq ≤ 3 :=
    ⟨yoe / 100, (yoe - yoe / 100 * 100) / 4,
      yoe - yoe / 100 * 100 - (yoe - yoe / 100 * 100) / 4 * 4,
      by omega, by omega, by omega, by omega, by omega, by omega, by omega⟩
  obtain ⟨z, hzdef⟩ : ∃ z, daysFromCivil y m d = z := ⟨_, rfl⟩
  have hz : z = 146097 * era + 36524 * cen + 1461 * quad + 365 * yiq + doy - 719468 := by
    rcases hsplit with ⟨h2, hy2, hmpv⟩ | ⟨h2, hy2, hmpv⟩
    · rw [← hzdef]; simp only [daysFromCivil, if_pos h2]; omega
    · rw [← hzdef]; simp only [daysFromCivil, if_neg h2]; omega
  -- the two corner cases need the leap-year congruences
  have hleap : doy = 365 → yiq = 3 ∧ (quad = 24 → cen = 3) := by
    intro h365
    obtain ⟨hm2, hd29, hL⟩ := hdoy.2.2.2 h365
    have hLp := (isLeap_iff y).mp hL
    have hy2v : y2 = y - 1 := by rcases hsplit with ⟨_, h, _⟩ | ⟨h, _, _⟩ <;> omega
    omega
  have hcorner : 1461 * quad + 365 * yiq + doy ≤ 36523
      ∨ (quad = 24 ∧ yiq = 3 ∧ doy = 365 ∧ cen = 3) := by
    by_cases h : 1461 * quad + 365 * yiq + doy ≤ 36523
    · exact Or.inl h
    · have h365 : doy = 365 := by omega
      have := hleap h365
      exact Or.inr ⟨by omega, by omega, h365, by omega⟩
  have hera : (z + 719468) / 146097 = era := by omega
  have hdoez : cfdDoe z = 36524 * cen + 1461 * quad + 365 * yiq + doy := by
    unfold cfdDoe; omega
  have hcenz : cfdCen z = cen := by
    unfold cfdCen
    rw [hdoez, show 36524 * cen + 1461 * quad + 365 * yiq + doy
        = 36524 * cen + (1461 * quad + 365 * yiq + doy) by ring]
    refine cen_recover cen _ hcen0 hcen1 (by omega) ?_
    rcases hcorner with h | ⟨h1, h2, h3, h4⟩
    · exact Or.inl h
    · exact Or.inr ⟨by omega, h4⟩
  have hdocz : cfdDoc z = 1461 * quad + 365 * yiq + doy := by
    unfold cfdDoc; rw [hdoez, hcenz]; ring
  have hquadz : cfdQuad z = quad := by
    unfold cfdQuad; rw [hdocz]; omega
  have hdqz : cfdDq z = 365 * yiq + doy := by
    unfold cfdDq; rw [hdocz, hquadz]; ring
  have hyiqz : cfdYiq z = yiq := by
    unfold cfdYiq; rw [hdqz]; omega
  have hdoyz : cfdDoy z = doy := by
    unfold cfdDoy; rw [hdqz, hyiqz]; ring
  have hmpz : cfdMp z = mp := by
    unfold cfdMp; rw [hdoyz]; exact hdoy.2.2.1
  have hdz : cfdD z = d := by
    unfold cfdD; rw [hdoyz, hmpz]; omega
  have hmz : cfdM z = m := by
    unfold cfdM; rw [hmpz]; split <;> omega
  have hyoez : cfdYoe z = yoe := by
    unfold cfdYoe; rw [hcenz, hquadz, hyiqz]; omega
  have hyz : cfdY z = y := by
    unfold cfdY; rw [hera, hyoez, hmz]; split <;> omega
  rw [hzdef]
  simp only [civilFromDays]
  rw [hyz, hmz, hdz]

/-- `daysFromCivil` is linear in the day argument. -/
theorem daysFromCivil_linear (y m d k : Int) :
    daysFromCivil y m (d + k) = daysFromCivil y m d + k := by
  by_cases h : m ≤ 2
  · simp only [daysFromCivil, if_pos h]; ring
  · simp only [daysFromCivil, if_neg h]; ring

/-- Rebuilding a date from its own fields with a day offset shifts the day
count by exactly that offset — provided the year is outside the remapped
range 0..99. -/
theorem jsNewDate_fields (e k : Int) (hy : ¬ (0 ≤ dYear e ∧ dYear e ≤ 99)) :
    jsNewDate (dYear e) (dMonth0 e) (dDay e + k) = e + k := by
  have hval := civilFromDays_valid e
  unfold jsNewDate mkDayNum dYear dMonth0 dDay
  rw [if_neg (by unfold dYear at hy; exact hy)]
  rw [show (cfdM e - 1) / 12 = 0 by omega, show (cfdM e - 1) % 12 = cfdM e - 1 by omega,
    show cfdM e - 1 + 1 = cfdM e by ring, show cfdY e + 0 = cfdY e by ring,
    daysFromCivil_linear, daysFromCivil_civilFromDays]

/-- Rebuilding a date from its own fields is the identity outside the
remapped year range. -/
theorem jsNewDate_fields_id (e : Int) (hy : ¬ (0 ≤ dYear e ∧ dYear e ≤ 99)) :
    jsNewDate (dYear e) (dMonth0 e) (dDay e) = e := by
  have h := jsNewDate_fields e 0 hy
  rw [show dDay e + 0 = dDay e by ring] at h
  rw [h.trans (by ring)]

/-- One civil year forward is 365 or 366 days forward. -/
theorem daysFromCivil_succ_year (y m d : Int) :
    daysFromCivil y m d + 365 ≤ daysFromCivil (y + 1) m d ∧
    daysFromCivil (y + 1) m d ≤ daysFromCivil y m d + 366 := by
  by_cases h : m ≤ 2
  · simp only [daysFromCivil, if_pos h]
    constructor <;> omega
  · simp only [daysFromCivil, if_neg h]
    constructor <;> omega

/-- `daysFromCivil` is strictly monotone in the year. -/
theorem daysFromCivil_year_lt (y k m d : Int) (hk : 0 < k) :
    daysFromCivil y m d < daysFromCivil (y + k) m d := by
  have key : ∀ n : Nat, daysFromCivil y m d < daysFromCivil (y + (n + 1 : Nat)) m d := by
    intro n
    induction n with
    | zero =>
      have := (daysFromCivil_succ_year y m d).1
      have harg : y + ((0 + 1 : Nat) : Int) = y + 1 := by push_cast; ring
      rw [harg]; omega
    | succ n ih =>
      have hstep := (daysFromCivil_succ_year (y + (n + 1 : Nat)) m d).1
      have harg : y + (n + 1 : Nat) + 1 = y + ((n + 1 + 1 : Nat) : Int) := by push_cast; ring
      rw [harg] at hstep
      omega
  have hk' : k = ((k - 1).toNat + 1 : Nat) := by
    have := Int.toNat_of_nonneg (show (0:Int) ≤ k - 1 by omega)
    push_cast
    omega
  rw [show y + k = y + (((k - 1).toNat + 1 : Nat) : Int) by rw [← hk']]
  exact key (k - 1).toNat

/-- Sanity: the epoch day 0 is 1970-01-01, a Thursday. -/
theorem sanity_epoch :
    civilFromDays 0 = (1970, 1, 1) ∧ daysFromCivil 1970 1 1 = 0 ∧ dDow 0 = 4 := by
  refine ⟨?_, by decide, by decide⟩
  show (cfdY 0, cfdM 0, cfdD 0) = (1970, 1, 1)
  have h : cfdY 0 = 1970 ∧ cfdM 0 = 1 ∧ cfdD 0 = 1 := by decide
  rw [h.1, h.2.1, h.2.2]

/-- Sanity: 2024-02-29 exists (leap year) and is day 19782; 2025-01-06 is
day 20094 and a Monday. -/
theorem sanity_dates :
    daysFromCivil 2024 2 29 = 19782 ∧ daysInMonth 2024 2 = 29 ∧
    daysInMonth 1900 2 = 28 ∧ daysFromCivil 2025 1 6 = 20094 ∧
    dDow 20094 = 1 := by
  refine ⟨by decide, by decide, by decide, by decide, by decide⟩

theorem digitChar_charDigit (c : Char) (v : Nat) (h : charDigit? c = some v) :
    digitChar v = c ∧ v ≤ 9 := by
  unfold charDigit? at h
  split_ifs at h with a0 a1 a2 a3 a4 a5 a6 a7 a8 a9
  · obtain rfl := Option.some.inj h; subst a0; exact ⟨rfl, by omega⟩
  · obtain rfl := Option.some.inj h; subst a1; exact ⟨rfl, by omega⟩
  · obtain rfl := Option.some.inj h; subst a2; exact ⟨rfl, by omega⟩
  · obtain rfl := Option.some.inj h; subst a3; exact ⟨rfl, by omega⟩
  · obtain rfl := Option.some.inj h; subst a4; exact ⟨rfl, by omega⟩
  · obtain rfl := Option.some.inj h; subst a5; exact ⟨rfl, by omega⟩
  · obtain rfl := Option.some.inj h; subst a6; exact ⟨rfl, by omega⟩
  · obtain rfl := Option.some.inj h; subst a7; exact ⟨rfl, by omega⟩
  · obtain rfl := Option.some.inj h; subst a8; exact ⟨rfl, by omega⟩
  · obtain rfl := Option.some.inj h; subst a9; exact ⟨rfl, by omega⟩

theorem charDigit_digitChar (v : Nat) (h : v ≤ 9) :
    charDigit? (digitChar v) = some v := by
  interval_cases v <;> rfl

/-- Inversion of a successful regex match. -/
theorem isoComponents_inv (s : JStr) (y m d : Int)
    (h : isoComponents s = some (y, m, d)) :
    ∃ c1 c2 c3 c4 c5 c6 c7 c8 v1 v2 v3 v4 v5 v6 v7 v8,
      s = [c1, c2, c3, c4, '-', c5, c6, '-', c7, c8] ∧
      charDigit? c1 = some v1 ∧ charDigit? c2 = some v2 ∧
      charDigit? c3 = some v3 ∧ charDigit? c4 = some v4 ∧
      charDigit? c5 = some v5 ∧ charDigit? c6 = some v6 ∧
      charDigit? c7 = some v7 ∧ charDigit? c8 = some v8 ∧
      y = 1000 * v1 + 100 * v2 + 10 * v3 + v4 ∧
      m = 10 * v5 + v6 ∧ d = 10 * v7 + v8 := by
  match s with
  | [c1, c2, c3, c4, h1, c5, c6, h2, c7, c8] =>
    simp only [isoComponents] at h
    split at h
    case isTrue hdash =>
      split at h
      case h_1 v1 v2 v3 v4 v5 v6 v7 v8 e1 e2 e3 e4 e5 e6 e7 e8 =>
        refine ⟨c1, c2, c3, c4, c5, c6, c7, c8, v1, v2, v3, v4, v5, v6, v7, v8,
          ?_, e1, e2, e3, e4, e5, e6, e7, e8, ?_, ?_, ?_⟩
        · rw [hdash.1, hdash.2]
        · simp only [Option.some.injEq, Prod.mk.injEq] at h
          omega
        · simp only [Option.some.injEq, Prod.mk.injEq] at h
          omega
        · simp only [Option.some.injEq, Prod.mk.injEq] at h
          omega
      case h_2 => exact absurd h (by simp)
    case isFalse => exact absurd h (by simp)
  | [] => exact absurd h (by simp [isoComponents])
  | [_] => exact absurd h (by simp [isoComponents])
  | [_, _] => exact absurd h (by simp [isoComponents])
  | [_, _, _] => exact absurd h (by simp [isoComponents])
  | [_, _, _, _] => exact absurd h (by simp [isoComponents])
  | [_, _, _, _, _] => exact absurd h (by simp [isoComponents])
  | [_, _, _, _, _, _] => exact absurd h (by simp [isoComponents])
  | [_, _, _, _, _, _, _] => exact absurd h (by simp [isoComponents])
  | [_, _, _, _, _, _, _, _] => exact absurd h (by simp [isoComponents])
  | [_, _, _, _, _, _, _, _, _] => exact absurd h (by simp [isoComponents])
  | _ :: _ :: _ :: _ :: _ :: _ :: _ :: _ :: _ :: _ :: _ :: _ =>
    exact absurd h (by simp [isoComponents])

/-! ## Rendering lemmas for the decimal digits -/

theorem natDigitsAux_step (n : Nat) (acc : List Char) :
    natDigitsAux n acc =
      if n < 10 then digitChar n :: acc
      else natDigitsAux (n / 10) (digitChar (n % 10) :: acc) := by
  rw [natDigitsAux]

theorem natDigits_one (n : Nat) (h : n ≤ 9) : natDigits n = [digitChar n] := by
  unfold natDigits
  rw [natDigitsAux_step, if_pos (by omega)]

theorem natDigits_two (n : Nat) (h1 : 10 ≤ n) (h2 : n ≤ 99) :
    natDigits n = [digitChar (n / 10), digitChar (n % 10)] := by
  unfold natDigits
  rw [natDigitsAux_step, if_neg (by omega), natDigitsAux_step, if_pos (by omega)]

theorem natDigits_three (n : Nat) (h1 : 100 ≤ n) (h2 : n ≤ 999) :
    natDigits n = [digitChar (n / 100), digitChar (n / 10 % 10), digitChar (n % 10)] := by
  unfold natDigits
  rw [natDigitsAux_step, if_neg (by omega), natDigitsAux_step, if_neg (by omega),
    natDigitsAux_step, if_pos (by omega), show n / 10 / 10 = n / 100 by omega,
    show n / 10 % 10 = n / 10 % 10 by rfl]

theorem natDigits_four (n : Nat) (h1 : 1000 ≤ n) (h2 : n ≤ 9999) :
    natDigits n = [digitChar (n / 1000), digitChar (n / 100 % 10),
      digitChar (n / 10 % 10), digitChar (n % 10)] := by
  unfold natDigits
  rw [natDigitsAux_step, if_neg (by omega), natDigitsAux_step, if_neg (by omega),
    natDigitsAux_step, if_neg (by omega), natDigitsAux_step, if_pos (by omega),
    show n / 10 / 10 / 10 = n / 1000 by omega, show n / 10 / 10 % 10 = n / 100 % 10 by omega]

theorem natDigitsAux_length (n : Nat) (acc : List Char) :
    acc.length + 1 ≤ (natDigitsAux n acc).length := by
  induction n using Nat.strong_induction_on generalizing acc with
  | _ n ih =>
    rw [natDigitsAux_step]
    split
    · simp
    · have := ih (n / 10) (by omega) (digitChar (n % 10) :: acc)
      simp at this ⊢
      omega

theorem natDigits_length_ge_five (n : Nat) (h : 10000 ≤ n) :
    5 ≤ (natDigits n).length := by
  unfold natDigits
  rw [natDigitsAux_step, if_neg (by omega), natDigitsAux_step, if_neg (by omega),
    natDigitsAux_step, if_neg (by omega), natDigitsAux_step, if_neg (by omega)]
  have := natDigitsAux_length (n / 10 / 10 / 10 / 10)
    [digitChar (n / 10 / 10 / 10 % 10), digitChar (n / 10 / 10 % 10),
      digitChar (n / 10 % 10), digitChar (n % 10)]
  simpa using this

theorem natDigits_length_four_iff (n : Nat) :
    (natDigits n).length = 4 ↔ 1000 ≤ n ∧ n ≤ 9999 := by
  constructor
  · intro h
    by_contra hc
    rcases (by omega : n ≤ 9 ∨ (10 ≤ n ∧ n ≤ 99) ∨ (100 ≤ n ∧ n ≤ 999) ∨ 10000 ≤ n) with
      h1 | h1 | h1 | h1
    · rw [natDigits_one n h1] at h; simp at h
    · rw [natDigits_two n h1.1 h1.2] at h; simp at h
    · rw [natDigits_three n h1.1 h1.2] at h; simp at h
    · have := natDigits_length_ge_five n h1; omega
  · intro h
    rw [natDigits_four n h.1 h.2]
    rfl

/-! ## No whitespace ever appears in rendered dates -/

theorem wsChar_digitChar (v : Nat) (h : v ≤ 9) : wsChar (digitChar v) = false := by
  interval_cases v <;> rfl

theorem natDigitsAux_chars (n : Nat) (acc : List Char) (c : Char)
    (hc : c ∈ natDigitsAux n acc) : (∃ v, v ≤ 9 ∧ c = digitChar v) ∨ c ∈ acc := by
  induction n using Nat.strong_induction_on generalizing acc with
  | _ n ih =>
    rw [natDigitsAux_step] at hc
    split at hc
    · rcases List.mem_cons.mp hc with h | h
      · exact Or.inl ⟨n, by omega, h⟩
      · exact Or.inr h
    · rcases ih (n / 10) (by omega) _ hc with h | h
      · exact Or.inl h
      · rcases List.mem_cons.mp h with h' | h'
        · exact Or.inl ⟨n % 10, by omega, h'⟩
        · exact Or.inr h'

theorem wsChar_of_mem_format (e : Int) (c : Char)
    (hc : c ∈ formatLocalDateISO e) : wsChar c = false := by
  have hone : ∀ (n : Nat) (c : Char), c ∈ natDigits n → wsChar c = false := by
    intro n c h
    rcases natDigitsAux_chars n [] c h with ⟨v, hv, rfl⟩ | h
    · exact wsChar_digitChar v hv
    · simp at h
  have hint : ∀ (i : Int) (c : Char), c ∈ intDigits i → wsChar c = false := by
    intro i c h
    unfold intDigits at h
    split at h
    · rcases List.mem_cons.mp h with rfl | h
      · rfl
      · exact hone _ _ h
    · exact hone _ _ h
  have hpad : ∀ (i : Int) (c : Char), c ∈ pad2 i → wsChar c = false := by
    intro i c h
    unfold pad2 at h
    split at h
    · rcases List.mem_cons.mp h with rfl | h
      · rfl
      · exact hint _ _ h
    · exact hint _ _ h
  unfold formatLocalDateISO at hc
  rcases List.mem_append.mp hc with h | h
  · exact hint _ _ h
  · rcases List.mem_cons.mp h with rfl | h
    · rfl
    · rcases List.mem_append.mp h with h | h
      · exact hpad _ _ h
      · rcases List.mem_cons.mp h with rfl | h
        · rfl
        · exact hpad _ _ h

theorem trimJS_of_ws_free (s : JStr) (h : ∀ c ∈ s, wsChar c = false) :
    trimJS s = s := by
  have hdw : ∀ (t : JStr), (∀ c ∈ t, wsChar c = false) → t.dropWhile wsChar = t := by
    intro t ht
    cases t with
    | nil => rfl
    | cons a t =>
      rw [List.dropWhile_cons, if_neg (by simp [ht a (by simp)])]
  rw [trimJS, hdw s h, hdw s.reverse (by intro c hc; exact h c (List.mem_reverse.mp hc)),
    List.reverse_reverse]

theorem trimJS_format (e : Int) : trimJS (formatLocalDateISO e) = formatLocalDateISO e :=
  trimJS_of_ws_free _ (wsChar_of_mem_format e)

/-! ## Explicit rendering and the codec round-trips -/

theorem pad2_digits (i : Int) (h0 : 0 ≤ i) (h99 : i ≤ 99) :
    pad2 i = [digitChar (i.toNat / 10), digitChar (i.toNat % 10)] := by
  unfold pad2 intDigits
  by_cases h : i < 10
  · rw [if_pos ⟨h0, h⟩, if_neg (by omega), natDigits_one i.toNat (by omega),
      show i.toNat / 10 = 0 by omega, show i.toNat % 10 = i.toNat by omega]
    rfl
  · rw [if_neg (by omega), if_neg (by omega),
      natDigits_two i.toNat (by omega) (by omega)]

/-- Explicit ten-character rendering for four-digit years. -/
theorem format_explicit (e : Int) (h1 : 1000 ≤ dYear e) (h2 : dYear e ≤ 9999) :
    formatLocalDateISO e =
      [digitChar ((dYear e).toNat / 1000), digitChar ((dYear e).toNat / 100 % 10),
        digitChar ((dYear e).toNat / 10 % 10), digitChar ((dYear e).toNat % 10), '-',
        digitChar ((dMonth0 e + 1).toNat / 10), digitChar ((dMonth0 e + 1).toNat % 10), '-',
        digitChar ((dDay e).toNat / 10), digitChar ((dDay e).toNat % 10)] := by
  have hval := civilFromDays_valid e
  have hm : 0 ≤ dMonth0 e + 1 ∧ dMonth0 e + 1 ≤ 99 := by
    unfold dMonth0; omega
  have hd : 0 ≤ dDay e ∧ dDay e ≤ 99 := by
    unfold dDay
    have : daysInMonth (cfdY e) (cfdM e) ≤ 31 := by
      unfold daysInMonth
      split
      · split <;> omega
      · split <;> omega
    omega
  rw [formatLocalDateISO, pad2_digits _ hm.1 hm.2, pad2_digits _ hd.1 hd.2,
    show intDigits (dYear e) = natDigits (dYear e).toNat from by
      unfold intDigits; rw [if_neg (by omega)],
    natDigits_four (dYear e).toNat (by omega) (by omega)]
  rfl

theorem charDigit_not_ws (c : Char) (v : Nat) (h : charDigit? c = some v) :
    wsChar c = false := by
  obtain ⟨hc, hv⟩ := digitChar_charDigit c v h
  rw [← hc]
  exact wsChar_digitChar v hv

/-- A string that matches the regex needs no trimming. -/
theorem trimJS_of_components (s : JStr) (y m d : Int)
    (h : isoComponents s = some (y, m, d)) : trimJS s = s := by
  obtain ⟨c1, c2, c3, c4, c5, c6, c7, c8, v1, v2, v3, v4, v5, v6, v7, v8,
    hs, e1, e2, e3, e4, e5, e6, e7, e8, hy, hm, hd⟩ := isoComponents_inv s y m d h
  subst hs
  apply trimJS_of_ws_free
  intro c hc
  simp only [List.mem_cons, List.not_mem_nil, or_false] at hc
  rcases hc with rfl | rfl | rfl | rfl | rfl | rfl | rfl | rfl | rfl | rfl
  · exact charDigit_not_ws _ _ e1
  · exact charDigit_not_ws _ _ e2
  · exact charDigit_not_ws _ _ e3
  · exact charDigit_not_ws _ _ e4
  · rfl
  · exact charDigit_not_ws _ _ e5
  · exact charDigit_not_ws _ _ e6
  · rfl
  · exact charDigit_not_ws _ _ e7
  · exact charDigit_not_ws _ _ e8

/-- Successful strict parse of a regex-matching string denoting a valid
calendar date with year ≥ 100 (no two-digit-year remap). -/
theorem parse_of_components (s : JStr) (y m d : Int)
    (hc : isoComponents s = some (y, m, d)) (hy : 100 ≤ y)
    (hm1 : 1 ≤ m) (hm12 : m ≤ 12) (hd1 : 1 ≤ d) (hd2 : d ≤ daysInMonth y m) :
    parseLocalISODate s = some (daysFromCivil y m d) := by
  have hrt := civilFromDays_daysFromCivil y m d hm1 hm12 hd1 hd2
  have hfields : cfdY (daysFromCivil y m d) = y ∧ cfdM (daysFromCivil y m d) = m ∧
      cfdD (daysFromCivil y m d) = d := by
    have h1 : (civilFromDays (daysFromCivil y m d)).1 = y := by rw [hrt]
    have h2 : (civilFromDays (daysFromCivil y m d)).2.1 = m := by rw [hrt]
    have h3 : (civilFromDays (daysFromCivil y m d)).2.2 = d := by rw [hrt]
    exact ⟨h1, h2, h3⟩
  have hnew : jsNewDate y (m - 1) d = daysFromCivil y m d := by
    unfold jsNewDate mkDayNum
    rw [if_neg (by omega), show (m - 1) / 12 = 0 by omega,
      show (m - 1) % 12 = m - 1 by omega, show m - 1 + 1 = m by ring,
      show y + 0 = y by ring]
  rw [parseLocalISODate, trimJS_of_components s y m d hc, hc]
  simp only [hnew]
  rw [if_pos]
  constructor
  · unfold dYear; exact hfields.1
  constructor
  · unfold dMonth0; rw [hfields.2.1]
  · unfold dDay; exact hfields.2.2

/-- Rendering a parsed valid date with a four-digit year returns exactly
the original string. -/
theorem format_of_components (s : JStr) (y m d : Int)
    (hc : isoComponents s = some (y, m, d)) (hy : 1000 ≤ y)
    (hm1 : 1 ≤ m) (hm12 : m ≤ 12) (hd1 : 1 ≤ d) (hd2 : d ≤ daysInMonth y m) :
    formatLocalDateISO (daysFromCivil y m d) = s := by
  obtain ⟨c1, c2, c3, c4, c5, c6, c7, c8, v1, v2, v3, v4, v5, v6, v7, v8,
    hs, e1, e2, e3, e4, e5, e6, e7, e8, hyv, hmv, hdv⟩ := isoComponents_inv s y m d hc
  have hb1 := digitChar_charDigit _ _ e1
  have hb2 := digitChar_charDigit _ _ e2
  have hb3 := digitChar_charDigit _ _ e3
  have hb4 := digitChar_charDigit _ _ e4
  have hb5 := digitChar_charDigit _ _ e5
  have hb6 := digitChar_charDigit _ _ e6
  have hb7 := digitChar_charDigit _ _ e7
  have hb8 := digitChar_charDigit _ _ e8
  have hrt := civilFromDays_daysFromCivil y m d hm1 hm12 hd1 hd2
  have hfy : dYear (daysFromCivil y m d) = y := by
    unfold dYear; have : (civilFromDays (daysFromCivil y m d)).1 = y := by rw [hrt]
    exact this
  have hfm : dMonth0 (daysFromCivil y m d) = m - 1 := by
    unfold dMonth0
    have : (civilFromDays (daysFromCivil y m d)).2.1 = m := by rw [hrt]
    rw [show cfdM (daysFromCivil y m d) = m from this]
  have hfd : dDay (daysFromCivil y m d) = d := by
    unfold dDay; have : (civilFromDays (daysFromCivil y m d)).2.2 = d := by rw [hrt]
    exact this
  rw [format_explicit _ (by omega) (by omega : dYear (daysFromCivil y m d) ≤ 9999)]
  rw [hfy, hfm, hfd, hs]
  have hy9999 : y ≤ 9999 := by omega
  congr 1
  · rw [show y.toNat / 1000 = v1 by omega]; exact hb1.1
  congr 1
  · rw [show y.toNat / 100 % 10 = v2 by omega]; exact hb2.1
  congr 1
  · rw [show y.toNat / 10 % 10 = v3 by omega]; exact hb3.1
  congr 1
  · rw [show y.toNat % 10 = v4 by omega]; exact hb4.1
  congr 1
  congr 1
  · rw [show (m - 1 + 1).toNat / 10 = v5 by omega]; exact hb5.1
  congr 1
  · rw [show (m - 1 + 1).toNat % 10 = v6 by omega]; exact hb6.1
  congr 1
  congr 1
  · rw [show d.toNat / 10 = v7 by omega]; exact hb7.1
  congr 1
  · rw [show d.toNat % 10 = v8 by omega]; exact hb8.1

/-! ## Quantitative monotonicity and the strict-parse rejection lemmas -/

/-- Moving the year forward by `k ≥ 0` moves the day count forward by at
least `365 k`. -/
theorem daysFromCivil_year_ge (y m d k : Int) (hk : 0 ≤ k) :
    daysFromCivil y m d + 365 * k ≤ daysFromCivil (y + k) m d := by
  have key : ∀ n : Nat, daysFromCivil y m d + 365 * n ≤ daysFromCivil (y + n) m d := by
    intro n
    induction n with
    | zero => simp
    | succ n ih =>
      have hstep := (daysFromCivil_succ_year (y + n) m d).1
      have harg : y + ((n : Int) + 1) = y + n + 1 := by ring
      have hcast : ((n + 1 : Nat) : Int) = (n : Int) + 1 := by push_cast; ring
      rw [hcast, harg]
      omega
  have h := key k.toNat
  rw [Int.toNat_of_nonneg hk] at h
  exact h

/-- Changing only the month moves the day count by less than 704 days. -/
theorem daysFromCivil_month_bound (y m m' d : Int)
    (hm1 : 1 ≤ m) (hm12 : m ≤ 12) (hm1' : 1 ≤ m') (hm12' : m' ≤ 12) :
    daysFromCivil y m d - 703 ≤ daysFromCivil y m' d := by
  by_cases h1 : m ≤ 2 <;> by_cases h2 : m' ≤ 2 <;>
    simp only [daysFromCivil, if_pos, if_neg, h1, h2, ite_true, ite_false] <;>
    omega

/-- A constructor call with a two-digit year never reproduces its own
arguments as fields: the remap to `1900 + y` moves the date far away. -/
theorem remap_reject (y jm d : Int) (hy0 : 0 ≤ y) (hy99 : y ≤ 99)
    (hjm : -1 ≤ jm) (hjm98 : jm ≤ 98) :
    ¬ (dYear (jsNewDate y jm d) = y ∧ dMonth0 (jsNewDate y jm d) = jm ∧
        dDay (jsNewDate y jm d) = d) := by
  rintro ⟨hY, hM, hD⟩
  have hval := civilFromDays_valid (jsNewDate y jm d)
  unfold dYear at hY
  unfold dMonth0 at hM
  unfold dDay at hD
  have hrt := daysFromCivil_civilFromDays (jsNewDate y jm d)
  have hM' : cfdM (jsNewDate y jm d) = jm + 1 := by omega
  rw [hY, hM', hD] at hrt
  have hdef : jsNewDate y jm d = daysFromCivil (y + 1900 + jm / 12) (jm % 12 + 1) d := by
    unfold jsNewDate mkDayNum
    rw [if_pos ⟨hy0, hy99⟩]
  have hmA1 : 1 ≤ jm + 1 := by omega
  have hmA12 : jm + 1 ≤ 12 := by rw [← hM']; exact hval.2.1
  have hge := daysFromCivil_year_ge y (jm % 12 + 1) d (1900 + jm / 12) (by omega)
  rw [show y + (1900 + jm / 12) = y + 1900 + jm / 12 by ring] at hge
  have hmb := daysFromCivil_month_bound y (jm + 1) (jm % 12 + 1) d
    hmA1 hmA12 (by omega) (by omega)
  omega

/-- If the constructed date reproduces the requested fields, the request
was a valid civil date. -/
theorem fields_match_valid (y jm d : Int)
    (h : dYear (jsNewDate y jm d) = y ∧ dMonth0 (jsNewDate y jm d) = jm ∧
      dDay (jsNewDate y jm d) = d) :
    1 ≤ jm + 1 ∧ jm + 1 ≤ 12 ∧ 1 ≤ d ∧ d ≤ daysInMonth y (jm + 1) := by
  obtain ⟨hY, hM, hD⟩ := h
  have hval := civilFromDays_valid (jsNewDate y jm d)
  unfold dYear at hY
  unfold dMonth0 at hM
  unfold dDay at hD
  have hM' : cfdM (jsNewDate y jm d) = jm + 1 := by omega
  refine ⟨by omega, by rw [← hM']; exact hval.2.1, by omega, ?_⟩
  have := hval.2.2.2
  rw [hY, hM', hD] at this
  exact this

/-- The strict parser rejects every regex-matching string whose components
are not a valid civil date, and every string whose (four-digit,
zero-padded) year lies in 0..99 — the constructor remap makes the
re-check fail. -/
theorem parse_none_of_bad (s : JStr) (y m d : Int)
    (hc : isoComponents (trimJS s) = some (y, m, d))
    (hm0 : 0 ≤ m) (hm99 : m ≤ 99)
    (hbad : (0 ≤ y ∧ y ≤ 99) ∨ ¬ (1 ≤ m ∧ m ≤ 12 ∧ 1 ≤ d ∧ d ≤ daysInMonth y m)) :
    parseLocalISODate s = none := by
  rw [parseLocalISODate, hc]
  simp only
  rw [if_neg]
  intro hmatch
  rcases hbad with hremap | hinvalid
  · exact remap_reject y (m - 1) d hremap.1 hremap.2 (by omega) (by omega) hmatch
  · have := fields_match_valid y (m - 1) d hmatch
    rw [show m - 1 + 1 = m by ring] at this
    exact hinvalid this

/-- Non-matching input is rejected. -/
theorem parse_none_of_nomatch (s : JStr) (hc : isoComponents (trimJS s) = none) :
    parseLocalISODate s = none := by
  rw [parseLocalISODate, hc]

/-- Parsing a rendered date succeeds only with the original date: the
canonicalization `parse ∘ format` never moves a date. -/
theorem parse_format_inv (e e' : Int)
    (h : parseLocalISODate (formatLocalDateISO e) = some e') : e' = e := by
  rw [parseLocalISODate, trimJS_format e] at h
  cases hiso : isoComponents (formatLocalDateISO e) with
  | none => rw [hiso] at h; exact absurd h (by simp)
  | some comps =>
    obtain ⟨y', m', d'⟩ := comps
    rw [hiso] at h
    simp only at h
    have hval := civilFromDays_valid e
    obtain ⟨c1, c2, c3, c4, c5, c6, c7, c8, v1, v2, v3, v4, v5, v6, v7, v8,
      hs, e1, e2, e3, e4, e5, e6, e7, e8, hyv, hmv, hdv⟩ :=
      isoComponents_inv _ y' m' d' hiso
    have hb1 := digitChar_charDigit _ _ e1
    have hb2 := digitChar_charDigit _ _ e2
    have hb3 := digitChar_charDigit _ _ e3
    have hb4 := digitChar_charDigit _ _ e4
    have hb5 := digitChar_charDigit _ _ e5
    have hb6 := digitChar_charDigit _ _ e6
    have hb7 := digitChar_charDigit _ _ e7
    have hb8 := digitChar_charDigit _ _ e8
    -- the year must be rendered with exactly four digit characters
    have hm99 : 0 ≤ dMonth0 e + 1 ∧ dMonth0 e + 1 ≤ 99 := by
      unfold dMonth0; omega
    have hd99 : 0 ≤ dDay e ∧ dDay e ≤ 99 := by
      unfold dDay
      have : daysInMonth (cfdY e) (cfdM e) ≤ 31 := by
        unfold daysInMonth
        split
        · split <;> omega
        · split <;> omega
      omega
    have hlen : (intDigits (dYear e)).length = 4 := by
      have h10 : (formatLocalDateISO e).length = 10 := by rw [hs]; rfl
      have hexp : (formatLocalDateISO e).length = (intDigits (dYear e)).length + 6 := by
        rw [formatLocalDateISO, pad2_digits _ hm99.1 hm99.2, pad2_digits _ hd99.1 hd99.2]
        simp
      omega
    have hypos : 0 ≤ dYear e := by
      by_contra hneg
      have hform : formatLocalDateISO e
          = '-' :: (natDigits (-(dYear e)).toNat ++ '-' ::
            (pad2 (dMonth0 e + 1) ++ '-' :: pad2 (dDay e))) := by
        rw [formatLocalDateISO, show intDigits (dYear e)
          = '-' :: natDigits (-(dYear e)).toNat from by
            unfold intDigits; rw [if_pos (by omega)]]
        simp
      rw [hform] at hs
      have hc1 : c1 = '-' := (List.cons.injEq _ _ _ _).mp hs.symm |>.1
      rw [hc1] at e1
      exact absurd e1 (by simp [charDigit?])
    have hy4 : 1000 ≤ dYear e ∧ dYear e ≤ 9999 := by
      have : intDigits (dYear e) = natDigits (dYear e).toNat := by
        unfold intDigits; rw [if_neg (by omega)]
      rw [this] at hlen
      have := (natDigits_length_four_iff (dYear e).toNat).mp hlen
      omega
    -- explicit rendering pins every character
    have hexp := format_explicit e hy4.1 hy4.2
    rw [hexp] at hs
    simp only [List.cons.injEq, and_true] at hs
    obtain ⟨k1, k2, k3, k4, -, k5, k6, -, k7, k8⟩ := hs
    have hv1 : v1 = (dYear e).toNat / 1000 := by
      have := charDigit_digitChar ((dYear e).toNat / 1000) (by omega)
      rw [k1] at this; rw [e1] at this; exact Option.some.inj this
    have hv2 : v2 = (dYear e).toNat / 100 % 10 := by
      have := charDigit_digitChar ((dYear e).toNat / 100 % 10) (by omega)
      rw [k2] at this; rw [e2] at this; exact Option.some.inj this
    have hv3 : v3 = (dYear e).toNat / 10 % 10 := by
      have := charDigit_digitChar ((dYear e).toNat / 10 % 10) (by omega)
      rw [k3] at this; rw [e3] at this; exact Option.some.inj this
    have hv4 : v4 = (dYear e).toNat % 10 := by
      have := charDigit_digitChar ((dYear e).toNat % 10) (by omega)
      rw [k4] at this; rw [e4] at this; exact Option.some.inj this
    have hv5 : v5 = (dMonth0 e + 1).toNat / 10 := by
      have := charDigit_digitChar ((dMonth0 e + 1).toNat / 10) (by omega)
      rw [k5] at this; rw [e5] at this; exact Option.some.inj this
    have hv6 : v6 = (dMonth0 e + 1).toNat % 10 := by
      have := charDigit_digitChar ((dMonth0 e + 1).toNat % 10) (by omega)
      rw [k6] at this; rw [e6] at this; exact Option.some.inj this
    have hv7 : v7 = (dDay e).toNat / 10 := by
      have := charDigit_digitChar ((dDay e).toNat / 10) (by omega)
      rw [k7] at this; rw [e7] at this; exact Option.some.inj this
    have hv8 : v8 = (dDay e).toNat % 10 := by
      have := charDigit_digitChar ((dDay e).toNat % 10) (by omega)
      rw [k8] at this; rw [e8] at this; exact Option.some.inj this
    have hy' : y' = dYear e := by omega
    have hm' : m' = dMonth0 e + 1 := by omega
    have hd' : d' = dDay e := by omega
    split at h
    case isTrue hchk =>
      have he' : jsNewDate y' (m' - 1) d' = e' := Option.some.inj h
      rw [hy', hm', hd', show dMonth0 e + 1 - 1 = dMonth0 e by ring] at he'
      rw [← he', jsNewDate_fields_id e (by omega)]
    case isFalse => exact absurd h (by simp)

theorem genWeekly_split (s : St) (c : JStr) :
    generateWeeklySummary s c =
      ({ s with weekly := s.weekly ++ wApp s.entriesFor c },
        weeklyAttempt s.entriesFor c) := by
  unfold generateWeeklySummary wApp weeklyAttempt
  cases hp : parseLocalISODate c with
  | none => simp
  | some dt =>
    simp only
    by_cases he : (s.entriesFor (formatLocalDateISO dt)).length = 0
    · simp [he]
    · simp only [if_neg he]
      cases hp2 : parseLocalISODate (formatLocalDateISO dt) with
      | none => simp
      | some start =>
        simp only
        by_cases hai : aiDatesOk (formatLocalDateISO dt)
            (formatLocalDateISO (weekEndOf start))
        · simp only [if_pos hai, saveSummary]
        · simp [hai]

theorem genMonthly_split (s : St) (c : JStr) :
    generateMonthlySummary s c =
      ({ s with monthly := s.monthly ++ mApp s.weekly c },
        monthlyAttempt s.weekly c) := by
  unfold generateMonthlySummary mApp monthlyAttempt
  by_cases he : (getWeeklySummariesForMonth s.weekly c).length = 0
  · simp [he]
  · simp only [if_neg he]
    cases hp : parseLocalISODate c with
    | none => simp
    | some start =>
      simp only
      by_cases hai : aiDatesOk c (formatLocalDateISO (monthEndD start))
      · simp only [if_pos hai, saveSummary]
      · simp [hai]

theorem genYearly_split (s : St) (year : Int) :
    generateYearlySummary s year =
      ({ s with yearly := s.yearly ++ yApp s.monthly year },
        yearlyAttempt s.monthly year) := by
  unfold generateYearlySummary yApp yearlyAttempt
  by_cases he : (yearlyFilter s.monthly year).length = 0
  · simp [he]
  · simp only [if_neg he]
    by_cases hai : aiDatesOk (yearStartStr year) (yearEndStr year)
    · simp only [if_pos hai, saveSummary]
    · simp [hai]

/-! ## Keys of successfully generated rows -/

/-- A successful weekly generation at a canonically rendered candidate
saves exactly that candidate as `start_date`, and the candidate parses
back to the date it renders. -/
theorem wAttempt_ok_key (f : JStr → List DailyEntry) (c : JStr) (w : Int) (r : Summary)
    (hc : c = formatLocalDateISO w) (h : weeklyAttempt f c = .ok (some r)) :
    r.start_date = c ∧ parseLocalISODate c = some w := by
  simp only [weeklyAttempt] at h
  cases hp : parseLocalISODate c with
  | none => rw [hp] at h; exact absurd h (by simp)
  | some dt =>
    have hdt : dt = w := parse_format_inv w dt (by rw [← hc]; exact hp)
    refine ⟨?_, by rw [hdt]⟩
    rw [hp] at h
    simp only at h
    rw [hdt] at hp h
    rw [← hc] at h
    by_cases he : (f c).length = 0
    · rw [if_pos he] at h
      exact absurd h (by simp)
    · rw [if_neg he, hp] at h
      simp only at h
      by_cases hai : aiDatesOk c (formatLocalDateISO (weekEndOf w))
      · rw [if_pos hai] at h
        simp only [JsRes.ok.injEq, Option.some.injEq] at h
        rw [← h]
      · rw [if_neg hai] at h
        exact absurd h (by simp)

/-- A successful monthly generation saves the candidate key verbatim. -/
theorem mAttempt_ok_key (weeklyList : List Summary) (c : JStr) (r : Summary)
    (h : monthlyAttempt weeklyList c = .ok (some r)) : r.start_date = c := by
  simp only [monthlyAttempt] at h
  by_cases he : (getWeeklySummariesForMonth weeklyList c).length = 0
  · rw [if_pos he] at h
    exact absurd h (by simp)
  · rw [if_neg he] at h
    cases hp : parseLocalISODate c with
    | none => rw [hp] at h; exact absurd h (by simp)
    | some start =>
      rw [hp] at h
      simp only at h
      by_cases hai : aiDatesOk c (formatLocalDateISO (monthEndD start))
      · rw [if_pos hai] at h
        simp only [JsRes.ok.injEq, Option.some.injEq] at h
        rw [← h]
      · rw [if_neg hai] at h
        exact absurd h (by simp)

/-- A successful yearly generation saves `"${year}-01-01"` verbatim. -/
theorem yAttempt_ok_key (monthlies : List Summary) (year : Int) (r : Summary)
    (h : yearlyAttempt monthlies year = .ok (some r)) :
    r.start_date = yearStartStr year := by
  simp only [yearlyAttempt] at h
  by_cases he : (yearlyFilter monthlies year).length = 0
  · rw [if_pos he] at h
    exact absurd h (by simp)
  · rw [if_neg he] at h
    by_cases hai : aiDatesOk (yearStartStr year) (yearEndStr year)
    · rw [if_pos hai] at h
      simp only [JsRes.ok.injEq, Option.some.injEq] at h
      rw [← h]
    · rw [if_neg hai] at h
      exact absurd h (by simp)

/-! ## Canonicalization of existing start dates -/

theorem canonList_append (xs ys : List JStr) (axs ays : List JStr)
    (hx : canonList xs = some axs) (hy : canonList ys = some ays) :
    canonList (xs ++ ys) = some (axs ++ ays) := by
  induction xs generalizing axs with
  | nil =>
    simp only [canonList] at hx
    obtain rfl := Option.some.inj hx
    simpa using hy
  | cons sd t ih =>
    simp only [canonList] at hx
    cases hp : parseLocalISODate sd with
    | none => rw [hp] at hx; exact absurd hx (by simp)
    | some e =>
      rw [hp] at hx
      cases ht : canonList t with
      | none => rw [ht] at hx; exact absurd hx (by simp)
      | some at' =>
        rw [ht] at hx
        have hx' : axs = formatLocalDateISO e :: at' := by
          have hs : some (formatLocalDateISO e :: at') = some axs := by
            simpa using hx
          exact (Option.some.inj hs).symm
        subst hx'
        rw [List.cons_append]
        simp [canonList, hp, ih at' ht]

/-- Rows whose stored key is already canonical canonicalize to
themselves. -/
theorem canonList_self (l : List JStr)
    (h : ∀ sd ∈ l, ∃ w, parseLocalISODate sd = some w ∧ formatLocalDateISO w = sd) :
    canonList l = some l := by
  induction l with
  | nil => rfl
  | cons sd t ih =>
    obtain ⟨w, hp, hf⟩ := h sd (by simp)
    simp [canonList, hp, ih fun x hx => h x (by simp [hx]), hf]

/-! ## Decimal rendering is injective -/

theorem natDigitsAux_append (n : Nat) (acc : List Char) :
    natDigitsAux n acc = natDigits n ++ acc := by
  induction n using Nat.strong_induction_on generalizing acc with
  | _ n ih =>
    rw [natDigitsAux_step]
    conv_rhs => rw [natDigits, natDigitsAux_step]
    by_cases h : n < 10
    · rw [if_pos h, if_pos h]
      rfl
    · rw [if_neg h, if_neg h, ih (n / 10) (by omega) (digitChar (n % 10) :: acc),
        ih (n / 10) (by omega) (digitChar (n % 10) :: [])]
      simp

theorem digitsVal_append (xs ys : List Char) (vx vy : Nat)
    (hx : digitsVal xs = some vx) (hy : digitsVal ys = some vy) :
    digitsVal (xs ++ ys) = some (vx * 10 ^ ys.length + vy) := by
  induction xs generalizing vx with
  | nil =>
    simp only [digitsVal] at hx
    obtain rfl := Option.some.inj hx
    simpa using hy
  | cons c t ih =>
    simp only [digitsVal] at hx
    cases hc : charDigit? c with
    | none => rw [hc] at hx; exact absurd hx (by simp)
    | some v =>
      rw [hc] at hx
      cases ht : digitsVal t with
      | none => rw [ht] at hx; exact absurd hx (by simp)
      | some vt =>
        rw [ht] at hx
        simp at hx
        subst hx
        rw [List.cons_append]
        simp only [digitsVal, hc, ih vt ht]
        simp [List.length_append]
        ring

theorem digitsVal_natDigits (n : Nat) : digitsVal (natDigits n) = some n := by
  induction n using Nat.strong_induction_on with
  | _ n ih =>
    by_cases h : n < 10
    · rw [natDigits, natDigitsAux_step, if_pos h]
      simp [digitsVal, charDigit_digitChar n (by omega)]
    · rw [natDigits, natDigitsAux_step, if_neg h, natDigitsAux_append]
      have h1 := ih (n / 10) (by omega)
      have h2 : digitsVal [digitChar (n % 10)] = some (n % 10) := by
        simp [digitsVal, charDigit_digitChar (n % 10) (by omega)]
      rw [digitsVal_append _ _ _ _ h1 h2]
      simp only [List.length_cons, List.length_nil, pow_one, Option.some.injEq]
      omega

theorem natDigits_inj (a b : Nat) (h : natDigits a = natDigits b) : a = b := by
  have ha := digitsVal_natDigits a
  have hb := digitsVal_natDigits b
  rw [h] at ha
  rw [ha] at hb
  exact Option.some.inj hb

theorem natDigits_head_digit (n : Nat) :
    ∃ v t, v ≤ 9 ∧ natDigits n = digitChar v :: t := by
  induction n using Nat.strong_induction_on with
  | _ n ih =>
    by_cases h : n < 10
    · exact ⟨n, [], by omega, by rw [natDigits, natDigitsAux_step, if_pos h]⟩
    · obtain ⟨v, t, hv, ht⟩ := ih (n / 10) (by omega)
      refine ⟨v, t ++ [digitChar (n % 10)], hv, ?_⟩
      rw [natDigits, natDigitsAux_step, if_neg h, natDigitsAux_append, ht]
      rfl

theorem digitChar_ne_dash (v : Nat) (hv : v ≤ 9) : digitChar v ≠ '-' := by
  interval_cases v <;> decide

theorem intDigits_inj (a b : Int) (h : intDigits a = intDigits b) : a = b := by
  unfold intDigits at h
  by_cases ha : a < 0 <;> by_cases hb : b < 0
  · rw [if_pos ha, if_pos hb] at h
    have := natDigits_inj _ _ (List.cons.injEq _ _ _ _ |>.mp h).2
    omega
  · rw [if_pos ha, if_neg hb] at h
    obtain ⟨v, t, hv, ht⟩ := natDigits_head_digit b.toNat
    rw [ht] at h
    exact absurd ((List.cons.injEq _ _ _ _ |>.mp h).1.symm) (digitChar_ne_dash v hv)
  · rw [if_neg ha, if_pos hb] at h
    obtain ⟨v, t, hv, ht⟩ := natDigits_head_digit a.toNat
    rw [ht] at h
    exact absurd (List.cons.injEq _ _ _ _ |>.mp h).1 (digitChar_ne_dash v hv)
  · rw [if_neg ha, if_neg hb] at h
    have := natDigits_inj _ _ h
    omega

theorem yearStartStr_inj (a b : Int) (h : yearStartStr a = yearStartStr b) : a = b := by
  unfold yearStartStr at h
  exact intDigits_inj a b (List.append_cancel_right h)

/-! ## Rendered four-digit dates parse back to themselves -/

theorem isoComponents_format (w : Int) (h1 : 1000 ≤ dYear w) (h2 : dYear w ≤ 9999) :
    isoComponents (formatLocalDateISO w) = some (dYear w, dMonth0 w + 1, dDay w) := by
  have hval := civilFromDays_valid w
  have hm : 0 ≤ dMonth0 w + 1 ∧ dMonth0 w + 1 ≤ 12 := by
    unfold dMonth0; omega
  have hd : 0 ≤ dDay w ∧ dDay w ≤ 31 := by
    unfold dDay
    have : daysInMonth (cfdY w) (cfdM w) ≤ 31 := by
      unfold daysInMonth
      split
      · split <;> omega
      · split <;> omega
    omega
  rw [format_explicit w h1 h2]
  rw [show isoComponents
      [digitChar ((dYear w).toNat / 1000), digitChar ((dYear w).toNat / 100 % 10),
        digitChar ((dYear w).toNat / 10 % 10), digitChar ((dYear w).toNat % 10), '-',
        digitChar ((dMonth0 w + 1).toNat / 10), digitChar ((dMonth0 w + 1).toNat % 10), '-',
        digitChar ((dDay w).toNat / 10), digitChar ((dDay w).toNat % 10)]
      = some (((1000 * ((dYear w).toNat / 1000) + 100 * ((dYear w).toNat / 100 % 10)
          + 10 * ((dYear w).toNat / 10 % 10) + (dYear w).toNat % 10 : Nat) : Int),
        ((10 * ((dMonth0 w + 1).toNat / 10) + (dMonth0 w + 1).toNat % 10 : Nat) : Int),
        ((10 * ((dDay w).toNat / 10) + (dDay w).toNat % 10 : Nat) : Int)) from by
    simp only [isoComponents,
      charDigit_digitChar ((dYear w).toNat / 1000) (by omega),
      charDigit_digitChar ((dYear w).toNat / 100 % 10) (by omega),
      charDigit_digitChar ((dYear w).toNat / 10 % 10) (by omega),
      charDigit_digitChar ((dYear w).toNat % 10) (by omega),
      charDigit_digitChar ((dMonth0 w + 1).toNat / 10) (by omega),
      charDigit_digitChar ((dMonth0 w + 1).toNat % 10) (by omega),
      charDigit_digitChar ((dDay w).toNat / 10) (by omega),
      charDigit_digitChar ((dDay w).toNat % 10) (by omega)]
    simp]
  simp only [Option.some.injEq, Prod.mk.injEq]
  refine ⟨by omega, by omega, by omega⟩

theorem parse_format_ok (w : Int) (h1 : 1000 ≤ dYear w) (h2 : dYear w ≤ 9999) :
    parseLocalISODate (formatLocalDateISO w) = some w := by
  have hval := civilFromDays_valid w
  have hiso := isoComponents_format w h1 h2
  have hnew : jsNewDate (dYear w) (dMonth0 w + 1 - 1) (dDay w) = w := by
    have hm0 : dMonth0 w + 1 - 1 = dMonth0 w := by ring
    rw [hm0]
    exact jsNewDate_fields_id w (by omega)
  rw [parseLocalISODate, trimJS_format w, hiso]
  simp only [hnew]
  simp [show dMonth0 w + 1 - 1 = dMonth0 w from by ring]

theorem genPendingWeekly_eq (s : St) (now : Int) :
    generatePendingWeeklySummaries s now =
      match canonList (s.weekly.map (·.start_date)) with
      | none => (s, .thrown)
      | some existingStarts => scanWeekLoop s existingStarts (weekCands now) := rfl

theorem genPendingWeekly_none (s : St) (now : Int)
    (h : canonList (s.weekly.map (·.start_date)) = none) :
    generatePendingWeeklySummaries s now = (s, .thrown) := by
  rw [genPendingWeekly_eq, h]

theorem genPendingWeekly_some (s : St) (now : Int) (exist : List JStr)
    (h : canonList (s.weekly.map (·.start_date)) = some exist) :
    generatePendingWeeklySummaries s now = scanWeekLoop s exist (weekCands now) := by
  rw [genPendingWeekly_eq, h]

theorem wApp_of_thrown (f : JStr → List DailyEntry) (c : JStr)
    (h : weeklyAttempt f c = .thrown) : wApp f c = [] := by
  unfold wApp
  rw [h]

theorem wApp_of_ok_none (f : JStr → List DailyEntry) (c : JStr)
    (h : weeklyAttempt f c = .ok none) : wApp f c = [] := by
  unfold wApp
  rw [h]

theorem wApp_mem (f : JStr → List DailyEntry) (c : JStr) (r : Summary)
    (h : r ∈ wApp f c) : weeklyAttempt f c = .ok (some r) := by
  unfold wApp at h
  cases hk : weeklyAttempt f c with
  | thrown => rw [hk] at h; simp at h
  | ok v =>
    cases v with
    | none => rw [hk] at h; simp at h
    | some r0 =>
      rw [hk] at h
      simp only [List.mem_singleton] at h
      rw [h]

theorem wCond_mono (f : JStr → List DailyEntry) (exist : List JStr)
    (app app' : List Summary) (c : JStr) (hsub : ∀ r ∈ app, r ∈ app')
    (h : wCond f exist app c) : wCond f exist app' c := by
  rcases h with h | h | h | ⟨r, hr, ha⟩
  · exact Or.inl h
  · exact Or.inr (Or.inl h)
  · exact Or.inr (Or.inr (Or.inl h))
  · exact Or.inr (Or.inr (Or.inr ⟨r, hsub r hr, ha⟩))

/-- What one run of the weekly backfill loop does: it appends the rows
generated from candidates, and either finishes cleanly with every
candidate processed, or stops at the first throwing candidate. -/
theorem scanWeekLoop_shape (exist : List JStr) :
    ∀ (cands : List JStr) (s : St),
      ∃ app : List Summary,
        (scanWeekLoop s exist cands).1 = { s with weekly := s.weekly ++ app } ∧
        (∀ r ∈ app, ∃ c, c ∈ cands ∧ weeklyAttempt s.entriesFor c = .ok (some r)) ∧
        (((scanWeekLoop s exist cands).2 = .ok () ∧
            ∀ c ∈ cands, wCond s.entriesFor exist app c) ∨
          ((scanWeekLoop s exist cands).2 = .thrown ∧
            ∃ done c' rest, cands = done ++ c' :: rest ∧
              c' ∉ exist ∧ 3 ≤ (s.entriesFor c').length ∧
              weeklyAttempt s.entriesFor c' = .thrown ∧
              ∀ c ∈ done, wCond s.entriesFor exist app c)) := by
  intro cands
  induction cands with
  | nil =>
    intro s
    refine ⟨[], by simp [scanWeekLoop], by simp, Or.inl ⟨rfl, by simp⟩⟩
  | cons c cs ih =>
    intro s
    by_cases h1 : c ∈ exist
    · obtain ⟨app, hst, happ, hdisj⟩ := ih s
      refine ⟨app, ?_, ?_, ?_⟩
      · rw [scanWeekLoop, if_pos h1]
        exact hst
      · intro r hr
        obtain ⟨c0, hc0, ha⟩ := happ r hr
        exact ⟨c0, by simp [hc0], ha⟩
      · rw [scanWeekLoop, if_pos h1]
        rcases hdisj with ⟨hok, hcond⟩ | ⟨hth, done, c', rest, hsp, hni, hlen, hatt, hcond⟩
        · refine Or.inl ⟨hok, ?_⟩
          intro c0 hc0
          rcases List.mem_cons.mp hc0 with heq | hc0'
          · rw [heq]
            exact Or.inl h1
          · exact hcond c0 hc0'
        · refine Or.inr ⟨hth, c :: done, c', rest, by rw [hsp]; rfl, hni, hlen, hatt, ?_⟩
          intro c0 hc0
          rcases List.mem_cons.mp hc0 with heq | hc0'
          · rw [heq]
            exact Or.inl h1
          · exact hcond c0 hc0'
    · by_cases h2 : 3 ≤ (s.entriesFor c).length
      · cases hk : weeklyAttempt s.entriesFor c with
        | thrown =>
          refine ⟨[], ?_, by simp, ?_⟩
          · rw [scanWeekLoop, if_neg h1, if_pos h2, genWeekly_split s c, hk,
              wApp_of_thrown _ _ hk]
          · rw [scanWeekLoop, if_neg h1, if_pos h2, genWeekly_split s c, hk,
              wApp_of_thrown _ _ hk]
            exact Or.inr ⟨rfl, [], c, cs, rfl, h1, h2, hk, by simp⟩
        | ok v =>
          have hstep : scanWeekLoop s exist (c :: cs) =
              scanWeekLoop { s with weekly := s.weekly ++ wApp s.entriesFor c }
                exist cs := by
            rw [scanWeekLoop, if_neg h1, if_pos h2, genWeekly_split s c, hk]
          obtain ⟨app2, hst2, happ2, hdisj2⟩ :=
            ih { s with weekly := s.weekly ++ wApp s.entriesFor c }
          have hef : ({ s with weekly := s.weekly ++ wApp s.entriesFor c } : St).entriesFor
              = s.entriesFor := rfl
          rw [hef] at happ2 hdisj2
          have hheadcond : wCond s.entriesFor exist (wApp s.entriesFor c ++ app2) c := by
            cases v with
            | none => exact Or.inr (Or.inr (Or.inl hk))
            | some r0 =>
              refine Or.inr (Or.inr (Or.inr ⟨r0, ?_, hk⟩))
              refine List.mem_append.mpr (Or.inl ?_)
              unfold wApp
              rw [hk]
              simp
          have hme : ∀ r ∈ app2, r ∈ wApp s.entriesFor c ++ app2 := by
            intro r hr
            exact List.mem_append.mpr (Or.inr hr)
          refine ⟨wApp s.entriesFor c ++ app2, ?_, ?_, ?_⟩
          · rw [hstep, hst2]
            simp
          · intro r hr
            rcases List.mem_append.mp hr with hr' | hr'
            · exact ⟨c, by simp, wApp_mem _ _ _ hr'⟩
            · obtain ⟨c0, hc0, ha⟩ := happ2 r hr'
              exact ⟨c0, by simp [hc0], ha⟩
          · rw [hstep]
            rcases hdisj2 with ⟨hok, hcond⟩ | ⟨hth, done, c', rest, hsp, hni, hlen, hatt, hcond⟩
            · refine Or.inl ⟨hok, ?_⟩
              intro c0 hc0
              rcases List.mem_cons.mp hc0 with heq | hc0'
              · rw [heq]
                exact hheadcond
              · exact wCond_mono _ _ _ _ _ hme (hcond c0 hc0')
            · refine Or.inr ⟨hth, c :: done, c', rest, by rw [hsp]; rfl, hni, hlen, hatt, ?_⟩
              intro c0 hc0
              rcases List.mem_cons.mp hc0 with heq | hc0'
              · rw [heq]
                exact hheadcond
              · exact wCond_mono _ _ _ _ _ hme (hcond c0 hc0')
      · obtain ⟨app, hst, happ, hdisj⟩ := ih s
        refine ⟨app, ?_, ?_, ?_⟩
        · rw [scanWeekLoop, if_neg h1, if_neg h2]
          exact hst
        · intro r hr
          obtain ⟨c0, hc0, ha⟩ := happ r hr
          exact ⟨c0, by simp [hc0], ha⟩
        · rw [scanWeekLoop, if_neg h1, if_neg h2]
          rcases hdisj with ⟨hok, hcond⟩ | ⟨hth, done, c', rest, hsp, hni, hlen, hatt, hcond⟩
          · refine Or.inl ⟨hok, ?_⟩
            intro c0 hc0
            rcases List.mem_cons.mp hc0 with heq | hc0'
            · rw [heq]
              exact Or.inr (Or.inl (by omega))
            · exact hcond c0 hc0'
          · refine Or.inr ⟨hth, c :: done, c', rest, by rw [hsp]; rfl, hni, hlen, hatt, ?_⟩
            intro c0 hc0
            rcases List.mem_cons.mp hc0 with heq | hc0'
            · rw [heq]
              exact Or.inr (Or.inl (by omega))
            · exact hcond c0 hc0'

/-- A rerun of the weekly loop over candidates that are all skippable or
null-generating performs no store write. -/
theorem scanWeekLoop_noop (f : JStr → List DailyEntry) :
    ∀ (cands : List JStr) (s : St) (exist' : List JStr),
      s.entriesFor = f →
      (∀ c ∈ cands, c ∈ exist' ∨ (f c).length < 3 ∨ weeklyAttempt f c = .ok none) →
      scanWeekLoop s exist' cands = (s, .ok ()) := by
  intro cands
  induction cands with
  | nil =>
    intro s exist' _ _
    rfl
  | cons c cs ih =>
    intro s exist' hf hall
    have htail : ∀ c0 ∈ cs, c0 ∈ exist' ∨ (f c0).length < 3 ∨
        weeklyAttempt f c0 = .ok none := by
      intro c0 hc0
      exact hall c0 (by simp [hc0])
    rw [scanWeekLoop]
    by_cases hin : c ∈ exist'
    · rw [if_pos hin]
      exact ih s exist' hf htail
    · rw [if_neg hin]
      rcases hall c (by simp) with h | h | h
      · exact absurd h hin
      · rw [if_neg (by rw [hf]; omega)]
        exact ih s exist' hf htail
      · by_cases hlen : 3 ≤ (s.entriesFor c).length
        · rw [if_pos hlen, genWeekly_split s c, hf, h, wApp_of_ok_none _ _ h]
          have hid : (⟨s.weekly ++ [], s.monthly, s.yearly, f⟩ : St) = s := by
            rw [← hf]
            simp
          rw [hid]
          exact ih s exist' hf htail
        · rw [if_neg hlen]
          exact ih s exist' hf htail

/-- A rerun of the weekly loop that reaches a throwing candidate stops
there, still without any store write. -/
theorem scanWeekLoop_noopThrow (f : JStr → List DailyEntry) :
    ∀ (done : List JStr) (s : St) (exist' : List JStr) (c' : JStr) (rest : List JStr),
      s.entriesFor = f →
      (∀ c ∈ done, c ∈ exist' ∨ (f c).length < 3 ∨ weeklyAttempt f c = .ok none) →
      c' ∉ exist' → 3 ≤ (f c').length → weeklyAttempt f c' = .thrown →
      scanWeekLoop s exist' (done ++ c' :: rest) = (s, .thrown) := by
  intro done
  induction done with
  | nil =>
    intro s exist' c' rest hf _ hni hlen hatt
    rw [List.nil_append, scanWeekLoop, if_neg hni, if_pos (by rw [hf]; exact hlen),
      genWeekly_split s c', hf, hatt, wApp_of_thrown _ _ hatt]
    have hid : (⟨s.weekly ++ [], s.monthly, s.yearly, f⟩ : St) = s := by
      rw [← hf]
      simp
    rw [hid]
  | cons c cs ih =>
    intro s exist' c' rest hf hall hni hlen hatt
    have htail : ∀ c0 ∈ cs, c0 ∈ exist' ∨ (f c0).length < 3 ∨
        weeklyAttempt f c0 = .ok none := by
      intro c0 hc0
      exact hall c0 (by simp [hc0])
    rw [List.cons_append, scanWeekLoop]
    by_cases hin : c ∈ exist'
    · rw [if_pos hin]
      exact ih s exist' c' rest hf htail hni hlen hatt
    · rw [if_neg hin]
      rcases hall c (by simp) with h | h | h
      · exact absurd h hin
      · rw [if_neg (by rw [hf]; omega)]
        exact ih s exist' c' rest hf htail hni hlen hatt
      · by_cases hl : 3 ≤ (s.entriesFor c).length
        · rw [if_pos hl, genWeekly_split s c, hf, h, wApp_of_ok_none _ _ h]
          have hid : (⟨s.weekly ++ [], s.monthly, s.yearly, f⟩ : St) = s := by
            rw [← hf]
            simp
          rw [hid]
          exact ih s exist' c' rest hf htail hni hlen hatt
        · rw [if_neg hl]
          exact ih s exist' c' rest hf htail hni hlen hatt

/-- Every weekly scan candidate is a canonically rendered date. -/
theorem weekCandidate_canon (owa : Int) (i : Int) :
    ∃ wv, weekCandidate owa i = formatLocalDateISO wv :=
  ⟨_, rfl⟩

theorem weekCands_canon (now : Int) :
    ∀ c ∈ weekCands now, ∃ wv, c = formatLocalDateISO wv := by
  intro c hc
  simp only [weekCands, List.mem_map] at hc
  obtain ⟨i, _, rfl⟩ := hc
  exact weekCandidate_canon _ _

/-- Rerunning the weekly scan against the store produced by a first run
(same entries table, same weekly table) performs no write and returns the
same outcome. -/
theorem weeklyScan_idem (s : St) (now : Int) (s1 : St) (r1 : JsRes Unit)
    (h1 : generatePendingWeeklySummaries s now = (s1, r1))
    (s₂ : St) (hW : s₂.weekly = s1.weekly) (hf : s₂.entriesFor = s.entriesFor) :
    generatePendingWeeklySummaries s₂ now = (s₂, r1) := by
  cases hcl : canonList (s.weekly.map (·.start_date)) with
  | none =>
    rw [genPendingWeekly_none s now hcl] at h1
    simp only [Prod.mk.injEq] at h1
    obtain ⟨hs1, hr1⟩ := h1
    rw [← hr1]
    refine genPendingWeekly_none s₂ now ?_
    rw [hW, ← hs1, hcl]
  | some exist =>
    rw [genPendingWeekly_some s now exist hcl] at h1
    obtain ⟨app, hst, happ, hdisj⟩ := scanWeekLoop_shape exist (weekCands now) s
    rw [h1] at hst hdisj
    simp only at hst hdisj
    have hkeys : ∀ sd ∈ app.map (·.start_date),
        ∃ wv, parseLocalISODate sd = some wv ∧ formatLocalDateISO wv = sd := by
      intro sd hsd
      obtain ⟨r, hr, rfl⟩ := List.mem_map.mp hsd
      obtain ⟨c, hcc, hatt⟩ := happ r hr
      obtain ⟨wv, hcf⟩ := weekCands_canon now c hcc
      obtain ⟨hsd', hparse⟩ := wAttempt_ok_key s.entriesFor c wv r hcf hatt
      exact ⟨wv, by rw [hsd', hparse], by rw [hsd', hcf]⟩
    have hcl2 : canonList (s₂.weekly.map (·.start_date))
        = some (exist ++ app.map (·.start_date)) := by
      rw [hW, hst]
      have hwk : ({ s with weekly := s.weekly ++ app } : St).weekly
          = s.weekly ++ app := rfl
      rw [hwk, List.map_append]
      exact canonList_append _ _ _ _ hcl (canonList_self _ hkeys)
    rw [genPendingWeekly_some s₂ now _ hcl2]
    rcases hdisj with ⟨hok, hcond⟩ | ⟨hth, done, c', rest, hsp, hni, hlen, hatt, hcond⟩
    · rw [hok]
      refine scanWeekLoop_noop s.entriesFor (weekCands now) s₂ _ hf ?_
      intro c hc
      rcases hcond c hc with h | h | h | ⟨r, hr, hro⟩
      · exact Or.inl (List.mem_append.mpr (Or.inl h))
      · exact Or.inr (Or.inl h)
      · exact Or.inr (Or.inr h)
      · obtain ⟨wv, hcf⟩ := weekCands_canon now c hc
        obtain ⟨hsd', -⟩ := wAttempt_ok_key s.entriesFor c wv r hcf hro
        refine Or.inl (List.mem_append.mpr (Or.inr ?_))
        exact List.mem_map.mpr ⟨r, hr, hsd'⟩
    · rw [hth, hsp]
      refine scanWeekLoop_noopThrow s.entriesFor done s₂ _ c' rest hf ?_ ?_ hlen hatt
      · intro c hc
        rcases hcond c hc with h | h | h | ⟨r, hr, hro⟩
        · exact Or.inl (List.mem_append.mpr (Or.inl h))
        · exact Or.inr (Or.inl h)
        · exact Or.inr (Or.inr h)
        · obtain ⟨wv, hcf⟩ := weekCands_canon now c (by rw [hsp]; simp [hc])
          obtain ⟨hsd', -⟩ := wAttempt_ok_key s.entriesFor c wv r hcf hro
          refine Or.inl (List.mem_append.mpr (Or.inr ?_))
          exact List.mem_map.mpr ⟨r, hr, hsd'⟩
      · intro hmem
        rcases List.mem_append.mp hmem with h | h
        · exact hni h
        · obtain ⟨r, hr, hrsd⟩ := List.mem_map.mp h
          obtain ⟨c'', hc''c, hatt''⟩ := happ r hr
          obtain ⟨wv, hcf⟩ := weekCands_canon now c'' hc''c
          obtain ⟨hsd', -⟩ := wAttempt_ok_key s.entriesFor c'' wv r hcf hatt''
          rw [hsd'] at hrsd
          rw [hrsd] at hatt''
          rw [hatt''] at hatt
          exact absurd hatt (by simp)

theorem genPendingMonthly_eq (s : St) (now : Int) :
    generatePendingMonthlySummaries s now =
      scanMonthLoop s (s.monthly.map (·.start_date)) (monthCands now) := rfl

theorem mApp_of_thrown (w : List Summary) (c : JStr)
    (h : monthlyAttempt w c = .thrown) : mApp w c = [] := by
  unfold mApp
  rw [h]

theorem mApp_of_ok_none (w : List Summary) (c : JStr)
    (h : monthlyAttempt w c = .ok none) : mApp w c = [] := by
  unfold mApp
  rw [h]

theorem mApp_mem (w : List Summary) (c : JStr) (r : Summary)
    (h : r ∈ mApp w c) : monthlyAttempt w c = .ok (some r) := by
  unfold mApp at h
  cases hk : monthlyAttempt w c with
  | thrown => rw [hk] at h; simp at h
  | ok v =>
    cases v with
    | none => rw [hk] at h; simp at h
    | some r0 =>
      rw [hk] at h
      simp only [List.mem_singleton] at h
      rw [h]

theorem mCond_mono (w : List Summary) (exist : List JStr)
    (app app' : List Summary) (c : JStr) (hsub : ∀ r ∈ app, r ∈ app')
    (h : mCond w exist app c) : mCond w exist app' c := by
  rcases h with h | h | h | ⟨r, hr, ha⟩
  · exact Or.inl h
  · exact Or.inr (Or.inl h)
  · exact Or.inr (Or.inr (Or.inl h))
  · exact Or.inr (Or.inr (Or.inr ⟨r, hsub r hr, ha⟩))

/-- What one run of the monthly backfill loop does. -/
theorem scanMonthLoop_shape (exist : List JStr) :
    ∀ (cands : List JStr) (s : St),
      ∃ app : List Summary,
        (scanMonthLoop s exist cands).1 = { s with monthly := s.monthly ++ app } ∧
        (∀ r ∈ app, ∃ c, c ∈ cands ∧ monthlyAttempt s.weekly c = .ok (some r)) ∧
        (((scanMonthLoop s exist cands).2 = .ok () ∧
            ∀ c ∈ cands, mCond s.weekly exist app c) ∨
          ((scanMonthLoop s exist cands).2 = .thrown ∧
            ∃ done c' rest, cands = done ++ c' :: rest ∧
              c' ∉ exist ∧ 2 ≤ (getWeeklySummariesForMonth s.weekly c').length ∧
              monthlyAttempt s.weekly c' = .thrown ∧
              ∀ c ∈ done, mCond s.weekly exist app c)) := by
  intro cands
  induction cands with
  | nil =>
    intro s
    refine ⟨[], by simp [scanMonthLoop], by simp, Or.inl ⟨rfl, by simp⟩⟩
  | cons c cs ih =>
    intro s
    by_cases h1 : c ∈ exist
    · obtain ⟨app, hst, happ, hdisj⟩ := ih s
      refine ⟨app, ?_, ?_, ?_⟩
      · rw [scanMonthLoop, if_pos h1]
        exact hst
      · intro r hr
        obtain ⟨c0, hc0, ha⟩ := happ r hr
        exact ⟨c0, by simp [hc0], ha⟩
      · rw [scanMonthLoop, if_pos h1]
        rcases hdisj with ⟨hok, hcond⟩ | ⟨hth, done, c', rest, hsp, hni, hlen, hatt, hcond⟩
        · refine Or.inl ⟨hok, ?_⟩
          intro c0 hc0
          rcases List.mem_cons.mp hc0 with heq | hc0'
          · rw [heq]
            exact Or.inl h1
          · exact hcond c0 hc0'
        · refine Or.inr ⟨hth, c :: done, c', rest, by rw [hsp]; rfl, hni, hlen, hatt, ?_⟩
          intro c0 hc0
          rcases List.mem_cons.mp hc0 with heq | hc0'
          · rw [heq]
            exact Or.inl h1
          · exact hcond c0 hc0'
    · by_cases h2 : 2 ≤ (getWeeklySummariesForMonth s.weekly c).length
      · cases hk : monthlyAttempt s.weekly c with
        | thrown =>
          refine ⟨[], ?_, by simp, ?_⟩
          · rw [scanMonthLoop, if_neg h1, if_pos h2, genMonthly_split s c, hk,
              mApp_of_thrown _ _ hk]
          · rw [scanMonthLoop, if_neg h1, if_pos h2, genMonthly_split s c, hk,
              mApp_of_thrown _ _ hk]
            exact Or.inr ⟨rfl, [], c, cs, rfl, h1, h2, hk, by simp⟩
        | ok v =>
          have hstep : scanMonthLoop s exist (c :: cs) =
              scanMonthLoop { s with monthly := s.monthly ++ mApp s.weekly c }
                exist cs := by
            rw [scanMonthLoop, if_neg h1, if_pos h2, genMonthly_split s c, hk]
          obtain ⟨app2, hst2, happ2, hdisj2⟩ :=
            ih { s with monthly := s.monthly ++ mApp s.weekly c }
          have hef : ({ s with monthly := s.monthly ++ mApp s.weekly c } : St).weekly
              = s.weekly := rfl
          rw [hef] at happ2 hdisj2
          have hheadcond : mCond s.weekly exist (mApp s.weekly c ++ app2) c := by
            cases v with
            | none => exact Or.inr (Or.inr (Or.inl hk))
            | some r0 =>
              refine Or.inr (Or.inr (Or.inr ⟨r0, ?_, hk⟩))
              refine List.mem_append.mpr (Or.inl ?_)
              unfold mApp
              rw [hk]
              simp
          have hme : ∀ r ∈ app2, r ∈ mApp s.weekly c ++ app2 := by
            intro r hr
            exact List.mem_append.mpr (Or.inr hr)
          refine ⟨mApp s.weekly c ++ app2, ?_, ?_, ?_⟩
          · rw [hstep, hst2]
            simp
          · intro r hr
            rcases List.mem_append.mp hr with hr' | hr'
            · exact ⟨c, by simp, mApp_mem _ _ _ hr'⟩
            · obtain ⟨c0, hc0, ha⟩ := happ2 r hr'
              exact ⟨c0, by simp [hc0], ha⟩
          · rw [hstep]
            rcases hdisj2 with ⟨hok, hcond⟩ | ⟨hth, done, c', rest, hsp, hni, hlen, hatt, hcond⟩
            · refine Or.inl ⟨hok, ?_⟩
              intro c0 hc0
              rcases List.mem_cons.mp hc0 with heq | hc0'
              · rw [heq]
                exact hheadcond
              · exact mCond_mono _ _ _ _ _ hme (hcond c0 hc0')
            · refine Or.inr ⟨hth, c :: done, c', rest, by rw [hsp]; rfl, hni, hlen, hatt, ?_⟩
              intro c0 hc0
              rcases List.mem_cons.mp hc0 with heq | hc0'
              · rw [heq]
                exact hheadcond
              · exact mCond_mono _ _ _ _ _ hme (hcond c0 hc0')
      · obtain ⟨app, hst, happ, hdisj⟩ := ih s
        refine ⟨app, ?_, ?_, ?_⟩
        · rw [scanMonthLoop, if_neg h1, if_neg h2]
          exact hst
        · intro r hr
          obtain ⟨c0, hc0, ha⟩ := happ r hr
          exact ⟨c0, by simp [hc0], ha⟩
        · rw [scanMonthLoop, if_neg h1, if_neg h2]
          rcases hdisj with ⟨hok, hcond⟩ | ⟨hth, done, c', rest, hsp, hni, hlen, hatt, hcond⟩
          · refine Or.inl ⟨hok, ?_⟩
            intro c0 hc0
            rcases List.mem_cons.mp hc0 with heq | hc0'
            · rw [heq]
              exact Or.inr (Or.inl (by omega))
            · exact hcond c0 hc0'
          · refine Or.inr ⟨hth, c :: done, c', rest, by rw [hsp]; rfl, hni, hlen, hatt, ?_⟩
            intro c0 hc0
            rcases List.mem_cons.mp hc0 with heq | hc0'
            · rw [heq]
              exact Or.inr (Or.inl (by omega))
            · exact hcond c0 hc0'

/-- A rerun of the monthly loop over skippable or null-generating
candidates performs no store write. -/
theorem scanMonthLoop_noop (w : List Summary) :
    ∀ (cands : List JStr) (s : St) (exist' : List JStr),
      s.weekly = w →
      (∀ c ∈ cands, c ∈ exist' ∨ (getWeeklySummariesForMonth w c).length < 2 ∨
        monthlyAttempt w c = .ok none) →
      scanMonthLoop s exist' cands = (s, .ok ()) := by
  intro cands
  induction cands with
  | nil =>
    intro s exist' _ _
    rfl
  | cons c cs ih =>
    intro s exist' hw hall
    have htail : ∀ c0 ∈ cs, c0 ∈ exist' ∨ (getWeeklySummariesForMonth w c0).length < 2 ∨
        monthlyAttempt w c0 = .ok none := by
      intro c0 hc0
      exact hall c0 (by simp [hc0])
    rw [scanMonthLoop]
    by_cases hin : c ∈ exist'
    · rw [if_pos hin]
      exact ih s exist' hw htail
    · rw [if_neg hin]
      rcases hall c (by simp) with h | h | h
      · exact absurd h hin
      · rw [if_neg (by rw [hw]; omega)]
        exact ih s exist' hw htail
      · by_cases hlen : 2 ≤ (getWeeklySummariesForMonth s.weekly c).length
        · rw [if_pos hlen, genMonthly_split s c, hw, h, mApp_of_ok_none _ _ h]
          have hid : (⟨w, s.monthly ++ [], s.yearly, s.entriesFor⟩ : St) = s := by
            rw [← hw]
            simp
          rw [hid]
          exact ih s exist' hw htail
        · rw [if_neg hlen]
          exact ih s exist' hw htail

/-- A rerun of the monthly loop that reaches a throwing candidate stops
there, still without any store write. -/
theorem scanMonthLoop_noopThrow (w : List Summary) :
    ∀ (done : List JStr) (s : St) (exist' : List JStr) (c' : JStr) (rest : List JStr),
      s.weekly = w →
      (∀ c ∈ done, c ∈ exist' ∨ (getWeeklySummariesForMonth w c).length < 2 ∨
        monthlyAttempt w c = .ok none) →
      c' ∉ exist' → 2 ≤ (getWeeklySummariesForMonth w c').length →
      monthlyAttempt w c' = .thrown →
      scanMonthLoop s exist' (done ++ c' :: rest) = (s, .thrown) := by
  intro done
  induction done with
  | nil =>
    intro s exist' c' rest hw _ hni hlen hatt
    rw [List.nil_append, scanMonthLoop, if_neg hni, if_pos (by rw [hw]; exact hlen),
      genMonthly_split s c', hw, hatt, mApp_of_thrown _ _ hatt]
    have hid : (⟨w, s.monthly ++ [], s.yearly, s.entriesFor⟩ : St) = s := by
      rw [← hw]
      simp
    rw [hid]
  | cons c cs ih =>
    intro s exist' c' rest hw hall hni hlen hatt
    have htail : ∀ c0 ∈ cs, c0 ∈ exist' ∨ (getWeeklySummariesForMonth w c0).length < 2 ∨
        monthlyAttempt w c0 = .ok none := by
      intro c0 hc0
      exact hall c0 (by simp [hc0])
    rw [List.cons_append, scanMonthLoop]
    by_cases hin : c ∈ exist'
    · rw [if_pos hin]
      exact ih s exist' c' rest hw htail hni hlen hatt
    · rw [if_neg hin]
      rcases hall c (by simp) with h | h | h
      · exact absurd h hin
      · rw [if_neg (by rw [hw]; omega)]
        exact ih s exist' c' rest hw htail hni hlen hatt
      · by_cases hl : 2 ≤ (getWeeklySummariesForMonth s.weekly c).length
        · rw [if_pos hl, genMonthly_split s c, hw, h, mApp_of_ok_none _ _ h]
          have hid : (⟨w, s.monthly ++ [], s.yearly, s.entriesFor⟩ : St) = s := by
            rw [← hw]
            simp
          rw [hid]
          exact ih s exist' c' rest hw htail hni hlen hatt
        · rw [if_neg hl]
          exact ih s exist' c' rest hw htail hni hlen hatt

/-- Rerunning the monthly scan against the store produced by a first run
(same weekly table, same monthly table) performs no write and returns the
same outcome. -/
theorem monthlyScan_idem (s : St) (now : Int) (s1 : St) (r1 : JsRes Unit)
    (h1 : generatePendingMonthlySummaries s now = (s1, r1))
    (s₂ : St) (hM : s₂.monthly = s1.monthly) (hw : s₂.weekly = s.weekly) :
    generatePendingMonthlySummaries s₂ now = (s₂, r1) := by
  rw [genPendingMonthly_eq] at h1
  obtain ⟨app, hst, happ, hdisj⟩ :=
    scanMonthLoop_shape (s.monthly.map (·.start_date)) (monthCands now) s
  rw [h1] at hst hdisj
  simp only at hst hdisj
  have hm2 : s₂.monthly = s.monthly ++ app := by
    rw [hM, hst]
  have hex2 : s₂.monthly.map (·.start_date)
      = s.monthly.map (·.start_date) ++ app.map (·.start_date) := by
    rw [hm2, List.map_append]
  rw [genPendingMonthly_eq, hex2]
  rcases hdisj with ⟨hok, hcond⟩ | ⟨hth, done, c', rest, hsp, hni, hlen, hatt, hcond⟩
  · rw [hok]
    refine scanMonthLoop_noop s.weekly (monthCands now) s₂ _ hw ?_
    intro c hc
    rcases hcond c hc with h | h | h | ⟨r, hr, hro⟩
    · exact Or.inl (List.mem_append.mpr (Or.inl h))
    · exact Or.inr (Or.inl h)
    · exact Or.inr (Or.inr h)
    · refine Or.inl (List.mem_append.mpr (Or.inr ?_))
      exact List.mem_map.mpr ⟨r, hr, mAttempt_ok_key _ _ _ hro⟩
  · rw [hth, hsp]
    refine scanMonthLoop_noopThrow s.weekly done s₂ _ c' rest hw ?_ ?_ hlen hatt
    · intro c hc
      rcases hcond c hc with h | h | h | ⟨r, hr, hro⟩
      · exact Or.inl (List.mem_append.mpr (Or.inl h))
      · exact Or.inr (Or.inl h)
      · exact Or.inr (Or.inr h)
      · refine Or.inl (List.mem_append.mpr (Or.inr ?_))
        exact List.mem_map.mpr ⟨r, hr, mAttempt_ok_key _ _ _ hro⟩
    · intro hmem
      rcases List.mem_append.mp hmem with h | h
      · exact hni h
      · obtain ⟨r, hr, hrsd⟩ := List.mem_map.mp h
        obtain ⟨c'', hc''c, hatt''⟩ := happ r hr
        have hkey := mAttempt_ok_key _ _ _ hatt''
        rw [hkey] at hrsd
        rw [hrsd] at hatt''
        rw [hatt''] at hatt
        exact absurd hatt (by simp)

theorem genPendingYearly_eq (s : St) (now : Int) :
    generatePendingYearlySummaries s now =
      scanYearLoop s (s.yearly.map (·.start_date)) s.monthly (yearCands now) := rfl

theorem yApp_of_thrown (m : List Summary) (y : Int)
    (h : yearlyAttempt m y = .thrown) : yApp m y = [] := by
  unfold yApp
  rw [h]

theorem yApp_of_ok_none (m : List Summary) (y : Int)
    (h : yearlyAttempt m y = .ok none) : yApp m y = [] := by
  unfold yApp
  rw [h]

theorem yApp_mem (m : List Summary) (y : Int) (r : Summary)
    (h : r ∈ yApp m y) : yearlyAttempt m y = .ok (some r) := by
  unfold yApp at h
  cases hk : yearlyAttempt m y with
  | thrown => rw [hk] at h; simp at h
  | ok v =>
    cases v with
    | none => rw [hk] at h; simp at h
    | some r0 =>
      rw [hk] at h
      simp only [List.mem_singleton] at h
      rw [h]

theorem yCond_mono (m : List Summary) (exist : List JStr)
    (app app' : List Summary) (y : Int) (hsub : ∀ r ∈ app, r ∈ app')
    (h : yCond m exist app y) : yCond m exist app' y := by
  rcases h with h | h | h | ⟨r, hr, ha⟩
  · exact Or.inl h
  · exact Or.inr (Or.inl h)
  · exact Or.inr (Or.inr (Or.inl h))
  · exact Or.inr (Or.inr (Or.inr ⟨r, hsub r hr, ha⟩))

/-- What one run of the yearly backfill loop does. -/
theorem scanYearLoop_shape (exist : List JStr) (monthlies : List Summary) :
    ∀ (cands : List Int) (s : St), s.monthly = monthlies →
      ∃ app : List Summary,
        (scanYearLoop s exist monthlies cands).1 = { s with yearly := s.yearly ++ app } ∧
        (∀ r ∈ app, ∃ y, y ∈ cands ∧ yearlyAttempt monthlies y = .ok (some r)) ∧
        (((scanYearLoop s exist monthlies cands).2 = .ok () ∧
            ∀ y ∈ cands, yCond monthlies exist app y) ∨
          ((scanYearLoop s exist monthlies cands).2 = .thrown ∧
            ∃ done y' rest, cands = done ++ y' :: rest ∧
              yearStartStr y' ∉ exist ∧ 6 ≤ (yearlyFilter monthlies y').length ∧
              yearlyAttempt monthlies y' = .thrown ∧
              ∀ y ∈ done, yCond monthlies exist app y)) := by
  intro cands
  induction cands with
  | nil =>
    intro s _
    refine ⟨[], by simp [scanYearLoop], by simp, Or.inl ⟨rfl, by simp⟩⟩
  | cons y ys ih =>
    intro s hm
    by_cases h1 : yearStartStr y ∈ exist
    · obtain ⟨app, hst, happ, hdisj⟩ := ih s hm
      refine ⟨app, ?_, ?_, ?_⟩
      · rw [scanYearLoop, if_pos h1]
        exact hst
      · intro r hr
        obtain ⟨y0, hy0, ha⟩ := happ r hr
        exact ⟨y0, by simp [hy0], ha⟩
      · rw [scanYearLoop, if_pos h1]
        rcases hdisj with ⟨hok, hcond⟩ | ⟨hth, done, y', rest, hsp, hni, hlen, hatt, hcond⟩
        · refine Or.inl ⟨hok, ?_⟩
          intro y0 hy0
          rcases List.mem_cons.mp hy0 with heq | hy0'
          · rw [heq]
            exact Or.inl h1
          · exact hcond y0 hy0'
        · refine Or.inr ⟨hth, y :: done, y', rest, by rw [hsp]; rfl, hni, hlen, hatt, ?_⟩
          intro y0 hy0
          rcases List.mem_cons.mp hy0 with heq | hy0'
          · rw [heq]
            exact Or.inl h1
          · exact hcond y0 hy0'
    · by_cases h2 : 6 ≤ (yearlyFilter monthlies y).length
      · cases hk : yearlyAttempt monthlies y with
        | thrown =>
          refine ⟨[], ?_, by simp, ?_⟩
          · rw [scanYearLoop, if_neg h1, if_pos h2, genYearly_split s y, hm, hk,
              yApp_of_thrown _ _ hk]
          · rw [scanYearLoop, if_neg h1, if_pos h2, genYearly_split s y, hm, hk,
              yApp_of_thrown _ _ hk]
            exact Or.inr ⟨rfl, [], y, ys, rfl, h1, h2, hk, by simp⟩
        | ok v =>
          have hstep : scanYearLoop s exist monthlies (y :: ys) =
              scanYearLoop { s with yearly := s.yearly ++ yApp monthlies y }
                exist monthlies ys := by
            rw [scanYearLoop, if_neg h1, if_pos h2, genYearly_split s y, hm, hk]
          obtain ⟨app2, hst2, happ2, hdisj2⟩ :=
            ih { s with yearly := s.yearly ++ yApp monthlies y } hm
          have hheadcond : yCond monthlies exist (yApp monthlies y ++ app2) y := by
            cases v with
            | none => exact Or.inr (Or.inr (Or.inl hk))
            | some r0 =>
              refine Or.inr (Or.inr (Or.inr ⟨r0, ?_, hk⟩))
              refine List.mem_append.mpr (Or.inl ?_)
              unfold yApp
              rw [hk]
              simp
          have hme : ∀ r ∈ app2, r ∈ yApp monthlies y ++ app2 := by
            intro r hr
            exact List.mem_append.mpr (Or.inr hr)
          refine ⟨yApp monthlies y ++ app2, ?_, ?_, ?_⟩
          · rw [hstep, hst2]
            simp
          · intro r hr
            rcases List.mem_append.mp hr with hr' | hr'
            · exact ⟨y, by simp, yApp_mem _ _ _ hr'⟩
            · obtain ⟨y0, hy0, ha⟩ := happ2 r hr'
              exact ⟨y0, by simp [hy0], ha⟩
          · rw [hstep]
            rcases hdisj2 with ⟨hok, hcond⟩ | ⟨hth, done, y', rest, hsp, hni, hlen, hatt, hcond⟩
            · refine Or.inl ⟨hok, ?_⟩
              intro y0 hy0
              rcases List.mem_cons.mp hy0 with heq | hy0'
              · rw [heq]
                exact hheadcond
              · exact yCond_mono _ _ _ _ _ hme (hcond y0 hy0')
            · refine Or.inr ⟨hth, y :: done, y', rest, by rw [hsp]; rfl, hni, hlen, hatt, ?_⟩
              intro y0 hy0
              rcases List.mem_cons.mp hy0 with heq | hy0'
              · rw [heq]
                exact hheadcond
              · exact yCond_mono _ _ _ _ _ hme (hcond y0 hy0')
      · obtain ⟨app, hst, happ, hdisj⟩ := ih s hm
        refine ⟨app, ?_, ?_, ?_⟩
        · rw [scanYearLoop, if_neg h1, if_neg h2]
          exact hst
        · intro r hr
          obtain ⟨y0, hy0, ha⟩ := happ r hr
          exact ⟨y0, by simp [hy0], ha⟩
        · rw [scanYearLoop, if_neg h1, if_neg h2]
          rcases hdisj with ⟨hok, hcond⟩ | ⟨hth, done, y', rest, hsp, hni, hlen, hatt, hcond⟩
          · refine Or.inl ⟨hok, ?_⟩
            intro y0 hy0
            rcases List.mem_cons.mp hy0 with heq | hy0'
            · rw [heq]
              exact Or.inr (Or.inl (by omega))
            · exact hcond y0 hy0'
          · refine Or.inr ⟨hth, y :: done, y', rest, by rw [hsp]; rfl, hni, hlen, hatt, ?_⟩
            intro y0 hy0
            rcases List.mem_cons.mp hy0 with heq | hy0'
            · rw [heq]
              exact Or.inr (Or.inl (by omega))
            · exact hcond y0 hy0'

/-- A rerun of the yearly loop over skippable or null-generating
candidates performs no store write. -/
theorem scanYearLoop_noop (monthlies : List Summary) :
    ∀ (cands : List Int) (s : St) (exist' : List JStr),
      s.monthly = monthlies →
      (∀ y ∈ cands, yearStartStr y ∈ exist' ∨ (yearlyFilter monthlies y).length < 6 ∨
        yearlyAttempt monthlies y = .ok none) →
      scanYearLoop s exist' monthlies cands = (s, .ok ()) := by
  intro cands
  induction cands with
  | nil =>
    intro s exist' _ _
    rfl
  | cons y ys ih =>
    intro s exist' hm hall
    have htail : ∀ y0 ∈ ys, yearStartStr y0 ∈ exist' ∨
        (yearlyFilter monthlies y0).length < 6 ∨ yearlyAttempt monthlies y0 = .ok none := by
      intro y0 hy0
      exact hall y0 (by simp [hy0])
    rw [scanYearLoop]
    by_cases hin : yearStartStr y ∈ exist'
    · rw [if_pos hin]
      exact ih s exist' hm htail
    · rw [if_neg hin]
      rcases hall y (by simp) with h | h | h
      · exact absurd h hin
      · rw [if_neg (by omega)]
        exact ih s exist' hm htail
      · by_cases hlen : 6 ≤ (yearlyFilter monthlies y).length
        · rw [if_pos hlen, genYearly_split s y, hm, h, yApp_of_ok_none _ _ h]
          have hid : (⟨s.weekly, monthlies, s.yearly ++ [], s.entriesFor⟩ : St) = s := by
            rw [← hm]
            simp
          rw [hid]
          exact ih s exist' hm htail
        · rw [if_neg hlen]
          exact ih s exist' hm htail

/-- A rerun of the yearly loop that reaches a throwing candidate stops
there, still without any store write. -/
theorem scanYearLoop_noopThrow (monthlies : List Summary) :
    ∀ (done : List Int) (s : St) (exist' : List JStr) (y' : Int) (rest : List Int),
      s.monthly = monthlies →
      (∀ y ∈ done, yearStartStr y ∈ exist' ∨ (yearlyFilter monthlies y).length < 6 ∨
        yearlyAttempt monthlies y = .ok none) →
      yearStartStr y' ∉ exist' → 6 ≤ (yearlyFilter monthlies y').length →
      yearlyAttempt monthlies y' = .thrown →
      scanYearLoop s exist' monthlies (done ++ y' :: rest) = (s, .thrown) := by
  intro done
  induction done with
  | nil =>
    intro s exist' y' rest hm _ hni hlen hatt
    rw [List.nil_append, scanYearLoop, if_neg hni, if_pos hlen,
      genYearly_split s y', hm, hatt, yApp_of_thrown _ _ hatt]
    have hid : (⟨s.weekly, monthlies, s.yearly ++ [], s.entriesFor⟩ : St) = s := by
      rw [← hm]
      simp
    rw [hid]
  | cons y ys ih =>
    intro s exist' y' rest hm hall hni hlen hatt
    have htail : ∀ y0 ∈ ys, yearStartStr y0 ∈ exist' ∨
        (yearlyFilter monthlies y0).length < 6 ∨ yearlyAttempt monthlies y0 = .ok none := by
      intro y0 hy0
      exact hall y0 (by simp [hy0])
    rw [List.cons_append, scanYearLoop]
    by_cases hin : yearStartStr y ∈ exist'
    · rw [if_pos hin]
      exact ih s exist' y' rest hm htail hni hlen hatt
    · rw [if_neg hin]
      rcases hall y (by simp) with h | h | h
      · exact absurd h hin
      · rw [if_neg (by omega)]
        exact ih s exist' y' rest hm htail hni hlen hatt
      · by_cases hl : 6 ≤ (yearlyFilter monthlies y).length
        · rw [if_pos hl, genYearly_split s y, hm, h, yApp_of_ok_none _ _ h]
          have hid : (⟨s.weekly, monthlies, s.yearly ++ [], s.entriesFor⟩ : St) = s := by
            rw [← hm]
            simp
          rw [hid]
          exact ih s exist' y' rest hm htail hni hlen hatt
        · rw [if_neg hl]
          exact ih s exist' y' rest hm htail hni hlen hatt

/-- Rerunning the yearly scan against the store produced by a first run
(same monthly table, same yearly table) performs no write and returns the
same outcome. -/
theorem yearlyScan_idem (s : St) (now : Int) (s1 : St) (r1 : JsRes Unit)
    (h1 : generatePendingYearlySummaries s now = (s1, r1))
    (s₂ : St) (hY : s₂.yearly = s1.yearly) (hm : s₂.monthly = s.monthly) :
    generatePendingYearlySummaries s₂ now = (s₂, r1) := by
  rw [genPendingYearly_eq] at h1
  obtain ⟨app, hst, happ, hdisj⟩ :=
    scanYearLoop_shape (s.yearly.map (·.start_date)) s.monthly (yearCands now) s rfl
  rw [h1] at hst hdisj
  simp only at hst hdisj
  have hy2 : s₂.yearly = s.yearly ++ app := by
    rw [hY, hst]
  have hex2 : s₂.yearly.map (·.start_date)
      = s.yearly.map (·.start_date) ++ app.map (·.start_date) := by
    rw [hy2, List.map_append]
  rw [genPendingYearly_eq, hex2, hm]
  rcases hdisj with ⟨hok, hcond⟩ | ⟨hth, done, y', rest, hsp, hni, hlen, hatt, hcond⟩
  · rw [hok]
    refine scanYearLoop_noop s.monthly (yearCands now) s₂ _ hm ?_
    intro y hy
    rcases hcond y hy with h | h | h | ⟨r, hr, hro⟩
    · exact Or.inl (List.mem_append.mpr (Or.inl h))
    · exact Or.inr (Or.inl h)
    · exact Or.inr (Or.inr h)
    · refine Or.inl (List.mem_append.mpr (Or.inr ?_))
      exact List.mem_map.mpr ⟨r, hr, yAttempt_ok_key _ _ _ hro⟩
  · rw [hth, hsp]
    refine scanYearLoop_noopThrow s.monthly done s₂ _ y' rest hm ?_ ?_ hlen hatt
    · intro y hy
      rcases hcond y hy with h | h | h | ⟨r, hr, hro⟩
      · exact Or.inl (List.mem_append.mpr (Or.inl h))
      · exact Or.inr (Or.inl h)
      · exact Or.inr (Or.inr h)
      · refine Or.inl (List.mem_append.mpr (Or.inr ?_))
        exact List.mem_map.mpr ⟨r, hr, yAttempt_ok_key _ _ _ hro⟩
    · intro hmem
      rcases List.mem_append.mp hmem with h | h
      · exact hni h
      · obtain ⟨r, hr, hrsd⟩ := List.mem_map.mp h
        obtain ⟨y'', hy''c, hatt''⟩ := happ r hr
        have hkey := yAttempt_ok_key _ _ _ hatt''
        rw [hkey] at hrsd
        have hyy : y'' = y' := yearStartStr_inj _ _ hrsd
        rw [hyy] at hatt''
        rw [hatt''] at hatt
        exact absurd hatt (by simp)

/-! ## Each scan touches only its own table, and the composed scan is
idempotent -/

theorem genPendingWeekly_pres (s : St) (now : Int) (s1 : St) (r1 : JsRes Unit)
    (h : generatePendingWeeklySummaries s now = (s1, r1)) :
    s1.monthly = s.monthly ∧ s1.yearly = s.yearly ∧ s1.entriesFor = s.entriesFor := by
  cases hcl : canonList (s.weekly.map (·.start_date)) with
  | none =>
    rw [genPendingWeekly_none s now hcl] at h
    simp only [Prod.mk.injEq] at h
    rw [← h.1]
    exact ⟨rfl, rfl, rfl⟩
  | some exist =>
    rw [genPendingWeekly_some s now exist hcl] at h
    obtain ⟨app, hst, -, -⟩ := scanWeekLoop_shape exist (weekCands now) s
    rw [h] at hst
    simp only at hst
    rw [hst]
    exact ⟨rfl, rfl, rfl⟩

theorem genPendingMonthly_pres (s : St) (now : Int) (s1 : St) (r1 : JsRes Unit)
    (h : generatePendingMonthlySummaries s now = (s1, r1)) :
    s1.weekly = s.weekly ∧ s1.yearly = s.yearly ∧ s1.entriesFor = s.entriesFor := by
  rw [genPendingMonthly_eq] at h
  obtain ⟨app, hst, -, -⟩ :=
    scanMonthLoop_shape (s.monthly.map (·.start_date)) (monthCands now) s
  rw [h] at hst
  simp only at hst
  rw [hst]
  exact ⟨rfl, rfl, rfl⟩

theorem genPendingYearly_pres (s : St) (now : Int) (s1 : St) (r1 : JsRes Unit)
    (h : generatePendingYearlySummaries s now = (s1, r1)) :
    s1.weekly = s.weekly ∧ s1.monthly = s.monthly ∧ s1.entriesFor = s.entriesFor := by
  rw [genPendingYearly_eq] at h
  obtain ⟨app, hst, -, -⟩ :=
    scanYearLoop_shape (s.yearly.map (·.start_date)) s.monthly (yearCands now) s rfl
  rw [h] at hst
  simp only at hst
  rw [hst]
  exact ⟨rfl, rfl, rfl⟩

/-- Running the composed pending-backfill scan a second time from the
state the first run produced changes nothing: same final store, same
outcome. -/
theorem checkAndGenerate_idem (s : St) (now : Int) :
    checkAndGeneratePendingSummaries (checkAndGeneratePendingSummaries s now).1 now
      = checkAndGeneratePendingSummaries s now := by
  cases e1 : generatePendingWeeklySummaries s now with
  | mk s1 r1 =>
    have hpres1 := genPendingWeekly_pres s now s1 r1 e1
    cases r1 with
    | thrown =>
      have hrun : checkAndGeneratePendingSummaries s now = (s1, .thrown) := by
        simp only [checkAndGeneratePendingSummaries, e1]
      rw [hrun]
      simp only
      have hw2 : generatePendingWeeklySummaries s1 now = (s1, .thrown) :=
        weeklyScan_idem s now s1 .thrown e1 s1 rfl hpres1.2.2
      simp only [checkAndGeneratePendingSummaries, hw2]
    | ok u =>
      cases e2 : generatePendingMonthlySummaries s1 now with
      | mk s2 r2 =>
        have hpres2 := genPendingMonthly_pres s1 now s2 r2 e2
        cases r2 with
        | thrown =>
          have hrun : checkAndGeneratePendingSummaries s now = (s2, .thrown) := by
            simp only [checkAndGeneratePendingSummaries, e1, e2]
          rw [hrun]
          simp only
          have hw2 : generatePendingWeeklySummaries s2 now = (s2, .ok u) :=
            weeklyScan_idem s now s1 (.ok u) e1 s2 hpres2.1
              (hpres2.2.2.trans hpres1.2.2)
          have hm2 : generatePendingMonthlySummaries s2 now = (s2, .thrown) :=
            monthlyScan_idem s1 now s2 .thrown e2 s2 rfl hpres2.1
          simp only [checkAndGeneratePendingSummaries, hw2, hm2]
        | ok u2 =>
          cases e3 : generatePendingYearlySummaries s2 now with
          | mk s3 r3 =>
            have hpres3 := genPendingYearly_pres s2 now s3 r3 e3
            have hrun : checkAndGeneratePendingSummaries s now = (s3, r3) := by
              simp only [checkAndGeneratePendingSummaries, e1, e2, e3]
            rw [hrun]
            simp only
            have hw2 : generatePendingWeeklySummaries s3 now = (s3, .ok u) :=
              weeklyScan_idem s now s1 (.ok u) e1 s3
                (hpres3.1.trans hpres2.1)
                (hpres3.2.2.trans (hpres2.2.2.trans hpres1.2.2))
            have hm2 : generatePendingMonthlySummaries s3 now = (s3, .ok u2) :=
              monthlyScan_idem s1 now s2 (.ok u2) e2 s3 hpres3.2.1
                (hpres3.1.trans hpres2.1)
            have hy2 : generatePendingYearlySummaries s3 now = (s3, r3) :=
              yearlyScan_idem s2 now s3 r3 e3 s3 rfl hpres3.2.1
            simp only [checkAndGeneratePendingSummaries, hw2, hm2, hy2]

/-! ## Year windows, month ends and the week-start projection -/

theorem daysInMonth_bounds (y m : Int) :
    28 ≤ daysInMonth y m ∧ daysInMonth y m ≤ 31 := by
  unfold daysInMonth
  constructor
  · split
    · split <;> omega
    · split <;> omega
  · split
    · split <;> omega
    · split <;> omega

/-- The first of any month is no earlier than January 1 of the year. -/
theorem month_start_le (y m : Int) (h1 : 1 ≤ m) (h2 : m ≤ 12) :
    daysFromCivil y 1 1 ≤ daysFromCivil y m 1 := by
  by_cases h : m ≤ 2 <;>
    simp only [daysFromCivil, if_pos, if_neg, h, ite_true, ite_false] <;>
    norm_num <;>
    omega

/-- The first of any month is no later than December 1. -/
theorem month_start_le12 (y m : Int) (h1 : 1 ≤ m) (h2 : m ≤ 12) :
    daysFromCivil y m 1 ≤ daysFromCivil y 12 1 := by
  by_cases h : m ≤ 2 <;>
    simp only [daysFromCivil, if_pos, if_neg, h, ite_true, ite_false] <;>
    norm_num <;>
    omega

/-- December 31 is the day before January 1 of the next year. -/
theorem dec31_jan1 (y : Int) :
    daysFromCivil y 12 31 + 1 = daysFromCivil (y + 1) 1 1 := by
  simp only [daysFromCivil]
  norm_num
  omega

/-- Adding the month length to the first of a month lands on the first of
the next month. -/
theorem month_length (y m : Int) (h1 : 1 ≤ m) (h2 : m ≤ 12) :
    daysFromCivil y m 1 + daysInMonth y m =
      (if m = 12 then daysFromCivil (y + 1) 1 1 else daysFromCivil y (m + 1) 1) := by
  have hiff := isLeap_iff y
  by_cases hfeb : m = 2
  · subst hfeb
    rw [show daysInMonth y 2 = if isLeap y then 29 else 28 from by simp [daysInMonth]]
    rcases hL : isLeap y with _ | _ <;> rw [hL] at hiff <;> norm_num at hiff <;>
      simp only [daysFromCivil] <;> norm_num <;> omega
  · have hdim : daysInMonth y m = if m = 4 ∨ m = 6 ∨ m = 9 ∨ m = 11 then 30 else 31 := by
      simp [daysInMonth, hfeb]
    rcases (by omega : m = 1 ∨ m = 3 ∨ m = 4 ∨ m = 5 ∨ m = 6 ∨ m = 7 ∨ m = 8 ∨
        m = 9 ∨ m = 10 ∨ m = 11 ∨ m = 12) with
      rfl | rfl | rfl | rfl | rfl | rfl | rfl | rfl | rfl | rfl | rfl <;>
      rw [hdim] <;> simp only [daysFromCivil] <;> norm_num <;> omega

/-- Within its month (day ≤ month length), a date precedes January 1 of
the following year. -/
theorem before_next_year (y m d : Int) (h1 : 1 ≤ m) (h2 : m ≤ 12)
    (hd : d ≤ daysInMonth y m) :
    daysFromCivil y m d < daysFromCivil (y + 1) 1 1 := by
  have hlin : daysFromCivil y m d = daysFromCivil y m 1 + (d - 1) := by
    have := daysFromCivil_linear y m 1 (d - 1)
    rw [show 1 + (d - 1) = d by ring] at this
    omega
  have h12 := month_start_le12 y m h1 h2
  have hj := dec31_jan1 y
  have hl31 : daysFromCivil y 12 31 = daysFromCivil y 12 1 + 30 := by
    have := daysFromCivil_linear y 12 1 30
    rw [show 1 + (30 : Int) = 31 by norm_num] at this
    omega
  have hdim := daysInMonth_bounds y m
  omega

/-- Every day number lies in the year window of its own year field. -/
theorem year_window (e : Int) :
    daysFromCivil (dYear e) 1 1 ≤ e ∧ e < daysFromCivil (dYear e + 1) 1 1 := by
  have hval := civilFromDays_valid e
  have hrt := daysFromCivil_civilFromDays e
  have hlin : daysFromCivil (cfdY e) (cfdM e) (cfdD e)
      = daysFromCivil (cfdY e) (cfdM e) 1 + (cfdD e - 1) := by
    have := daysFromCivil_linear (cfdY e) (cfdM e) 1 (cfdD e - 1)
    rw [show 1 + (cfdD e - 1) = cfdD e by ring] at this
    omega
  constructor
  · have := month_start_le (cfdY e) (cfdM e) hval.1 hval.2.1
    unfold dYear
    omega
  · have := before_next_year (cfdY e) (cfdM e) (cfdD e) hval.1 hval.2.1 hval.2.2.2
    unfold dYear
    omega

/-- A day number at or past January 1 of year `y` has year field ≥ `y`. -/
theorem dYear_lb (e y : Int) (h : daysFromCivil y 1 1 ≤ e) : y ≤ dYear e := by
  by_contra hc
  have hw := (year_window e).2
  have hmono := daysFromCivil_year_ge (dYear e + 1) 1 1 (y - dYear e - 1) (by omega)
  rw [show dYear e + 1 + (y - dYear e - 1) = y by ring] at hmono
  omega

/-- A day number before January 1 of year `y` has year field < `y`. -/
theorem dYear_ub (e y : Int) (h : e < daysFromCivil y 1 1) : dYear e < y := by
  by_contra hc
  have hw := (year_window e).1
  have hmono := daysFromCivil_year_ge y 1 1 (dYear e - y) (by omega)
  rw [show y + (dYear e - y) = dYear e by ring] at hmono
  omega

/-- Moving at most `k ∈ [0, 360]` days back moves the year field back at
most one. -/
theorem dYear_back_bound (e k : Int) (h0 : 0 ≤ k) (h1 : k ≤ 360) :
    dYear e - 1 ≤ dYear (e - k) ∧ dYear (e - k) ≤ dYear e := by
  have hw := year_window e
  have hstep := daysFromCivil_succ_year (dYear e - 1) 1 1
  rw [show dYear e - 1 + 1 = dYear e by ring] at hstep
  constructor
  · refine dYear_lb (e - k) (dYear e - 1) ?_
    omega
  · have := dYear_ub (e - k) (dYear e + 1) (by omega)
    omega

/-- Moving at most `k ∈ [0, 360]` days forward moves the year field
forward at most one. -/
theorem dYear_fwd_bound (e k : Int) (h0 : 0 ≤ k) (h1 : k ≤ 360) :
    dYear e ≤ dYear (e + k) ∧ dYear (e + k) ≤ dYear e + 1 := by
  have hw := year_window e
  have hstep := daysFromCivil_succ_year (dYear e + 1) 1 1
  constructor
  · refine dYear_lb (e + k) (dYear e) ?_
    omega
  · have := dYear_ub (e + k) (dYear e + 2)
      (by rw [show dYear e + 2 = dYear e + 1 + 1 by ring]; omega)
    omega

/-! ### The month-end computation -/

/-- `new Date(y, m + 1, 0)` on a date's own local fields is exactly the
last day of that date's month — outside the two-digit-year remap range. -/
theorem monthEndD_eq (e : Int) (h : 100 ≤ dYear e) :
    monthEndD e = daysFromCivil (dYear e) (dMonth0 e + 1)
      (daysInMonth (dYear e) (dMonth0 e + 1)) := by
  have hval := civilFromDays_valid e
  have hm0 : 0 ≤ dMonth0 e ∧ dMonth0 e ≤ 11 := by
    unfold dMonth0
    omega
  unfold monthEndD jsNewDate mkDayNum
  rw [if_neg (by omega)]
  have hM : dMonth0 e + 1 = cfdM e := by
    unfold dMonth0
    ring
  by_cases h11 : dMonth0 e ≤ 10
  · rw [show (dMonth0 e + 1) / 12 = 0 by omega,
      show (dMonth0 e + 1) % 12 = dMonth0 e + 1 by omega,
      show dYear e + 0 = dYear e by ring]
    have hml := month_length (dYear e) (dMonth0 e + 1) (by omega) (by omega)
    rw [if_neg (by omega)] at hml
    have hlin0 : daysFromCivil (dYear e) (dMonth0 e + 1 + 1) 0
        = daysFromCivil (dYear e) (dMonth0 e + 1 + 1) 1 - 1 := by
      have := daysFromCivil_linear (dYear e) (dMonth0 e + 1 + 1) 1 (-1)
      rw [show 1 + (-1 : Int) = 0 by norm_num] at this
      omega
    have hlin1 : daysFromCivil (dYear e) (dMonth0 e + 1)
        (daysInMonth (dYear e) (dMonth0 e + 1))
        = daysFromCivil (dYear e) (dMonth0 e + 1) 1
          + (daysInMonth (dYear e) (dMonth0 e + 1) - 1) := by
      have := daysFromCivil_linear (dYear e) (dMonth0 e + 1) 1
        (daysInMonth (dYear e) (dMonth0 e + 1) - 1)
      rw [show 1 + (daysInMonth (dYear e) (dMonth0 e + 1) - 1)
        = daysInMonth (dYear e) (dMonth0 e + 1) by ring] at this
      omega
    omega
  · have h11' : dMonth0 e = 11 := by omega
    rw [h11']
    norm_num
    have hml := month_length (dYear e) 12 (by omega) (by omega)
    rw [if_pos rfl] at hml
    have hlin0 : daysFromCivil (dYear e + 1) 1 0
        = daysFromCivil (dYear e + 1) 1 1 - 1 := by
      have := daysFromCivil_linear (dYear e + 1) 1 1 (-1)
      rw [show 1 + (-1 : Int) = 0 by norm_num] at this
      omega
    have hlin1 : daysFromCivil (dYear e) 12 (daysInMonth (dYear e) 12)
        = daysFromCivil (dYear e) 12 1 + (daysInMonth (dYear e) 12 - 1) := by
      have := daysFromCivil_linear (dYear e) 12 1 (daysInMonth (dYear e) 12 - 1)
      rw [show 1 + (daysInMonth (dYear e) 12 - 1) = daysInMonth (dYear e) 12 by ring] at this
      omega
    omega

/-- Fields of the month end: same year, same month, day = month length. -/
theorem monthEndD_fields (e : Int) (h : 100 ≤ dYear e) :
    dYear (monthEndD e) = dYear e ∧ dMonth0 (monthEndD e) = dMonth0 e ∧
      dDay (monthEndD e) = daysInMonth (dYear e) (dMonth0 e + 1) := by
  have hval := civilFromDays_valid e
  have hm0 : 0 ≤ dMonth0 e ∧ dMonth0 e ≤ 11 := by
    unfold dMonth0
    omega
  have hdim := daysInMonth_bounds (dYear e) (dMonth0 e + 1)
  have hrt := civilFromDays_daysFromCivil (dYear e) (dMonth0 e + 1)
    (daysInMonth (dYear e) (dMonth0 e + 1)) (by omega) (by omega) (by omega) le_rfl
  have hY : (civilFromDays (daysFromCivil (dYear e) (dMonth0 e + 1)
      (daysInMonth (dYear e) (dMonth0 e + 1)))).1 = dYear e := by rw [hrt]
  have hMm : cfdM (daysFromCivil (dYear e) (dMonth0 e + 1)
      (daysInMonth (dYear e) (dMonth0 e + 1))) = dMonth0 e + 1 := by
    have : (civilFromDays (daysFromCivil (dYear e) (dMonth0 e + 1)
        (daysInMonth (dYear e) (dMonth0 e + 1)))).2.1 = dMonth0 e + 1 := by rw [hrt]
    exact this
  have hD : (civilFromDays (daysFromCivil (dYear e) (dMonth0 e + 1)
      (daysInMonth (dYear e) (dMonth0 e + 1)))).2.2
      = daysInMonth (dYear e) (dMonth0 e + 1) := by rw [hrt]
  refine ⟨?_, ?_, ?_⟩
  · show cfdY (monthEndD e) = dYear e
    rw [monthEndD_eq e h]
    exact hY
  · show cfdM (monthEndD e) - 1 = dMonth0 e
    rw [monthEndD_eq e h]
    omega
  · show cfdD (monthEndD e) = daysInMonth (dYear e) (dMonth0 e + 1)
    rw [monthEndD_eq e h]
    exact hD

/-! ### The week-start projection -/

/-- Outside the remap range, `weekStart` subtracts the Monday offset. -/
theorem weekStart_eq (e : Int) (h : ¬ (0 ≤ dYear e ∧ dYear e ≤ 99)) :
    weekStart e = e + (if dDow e = 0 then -6 else 1 - dDow e) := by
  unfold weekStart
  simp only [jsNewDate_fields_id e h]
  exact jsNewDate_fields e _ h

/-- `dDow` is always in `[0, 6]`. -/
theorem dDow_bounds (e : Int) : 0 ≤ dDow e ∧ dDow e ≤ 6 := by
  unfold dDow
  omega

/-- For years ≥ 101, the week start lands on a Monday and is idempotent. -/
theorem weekStart_monday (e : Int) (h : 101 ≤ dYear e) :
    dDow (weekStart e) = 1 ∧ weekStart (weekStart e) = weekStart e := by
  have hdw := dDow_bounds e
  have hws := weekStart_eq e (by omega)
  have hoffb : -6 ≤ (if dDow e = 0 then (-6 : Int) else 1 - dDow e) ∧
      (if dDow e = 0 then (-6 : Int) else 1 - dDow e) ≤ 0 := by
    split <;> omega
  have hyr : 100 ≤ dYear (weekStart e) := by
    rw [hws]
    have := dYear_back_bound e (-(if dDow e = 0 then (-6 : Int) else 1 - dDow e))
      (by omega) (by omega)
    rw [show e - -(if dDow e = 0 then (-6 : Int) else 1 - dDow e)
      = e + (if dDow e = 0 then (-6 : Int) else 1 - dDow e) by ring] at this
    omega
  have hmon : dDow (weekStart e) = 1 := by
    rw [hws]
    unfold dDow at hdw ⊢
    split <;> omega
  refine ⟨hmon, ?_⟩
  have hws2 := weekStart_eq (weekStart e) (by omega)
  rw [hws2, hmon]
  norm_num

/-! ## Successful generation at well-formed four-digit-year candidates -/

theorem weekEndOf_eq (w : Int) (h : ¬ (0 ≤ dYear w ∧ dYear w ≤ 99)) :
    weekEndOf w = w + 6 := by
  unfold weekEndOf
  exact jsNewDate_fields w 6 h

theorem aiDatesOk_format (a b : Int)
    (ha1 : 1000 ≤ dYear a) (ha2 : dYear a ≤ 9999)
    (hb1 : 1000 ≤ dYear b) (hb2 : dYear b ≤ 9999) :
    aiDatesOk (formatLocalDateISO a) (formatLocalDateISO b) = true := by
  unfold aiDatesOk
  rw [isoComponents_format a ha1 ha2, isoComponents_format b hb1 hb2,
    parse_format_ok a ha1 ha2, parse_format_ok b hb1 hb2]
  rfl

/-- A weekly generation at a canonically rendered candidate with
a four-digit year (at most 9998, so the week end is representable) and a
non-empty week saves exactly the expected record. -/
theorem wAttempt_ok (f : JStr → List DailyEntry) (w : Int)
    (h1 : 1000 ≤ dYear w) (h2 : dYear w ≤ 9998)
    (hne : (f (formatLocalDateISO w)).length ≠ 0) :
    weeklyAttempt f (formatLocalDateISO w) =
      .ok (some ⟨.weekly, formatLocalDateISO w, formatLocalDateISO (weekEndOf w),
        ruleBasedWeekly (f (formatLocalDateISO w))⟩) := by
  have hwe : weekEndOf w = w + 6 := weekEndOf_eq w (by omega)
  have hfwd := dYear_fwd_bound w 6 (by omega) (by omega)
  have hyb1 : 1000 ≤ dYear (weekEndOf w) := by rw [hwe]; omega
  have hyb2 : dYear (weekEndOf w) ≤ 9999 := by rw [hwe]; omega
  unfold weeklyAttempt
  rw [parse_format_ok w h1 (by omega)]
  simp only
  rw [if_neg hne, parse_format_ok w h1 (by omega)]
  simp only
  rw [if_pos (aiDatesOk_format w (weekEndOf w) h1 (by omega) hyb1 hyb2)]

/-- A monthly generation at a canonically rendered candidate with a
four-digit year and at least one weekly summary in range saves exactly
the expected record. -/
theorem mAttempt_ok (wl : List Summary) (ms : Int)
    (h1 : 1000 ≤ dYear ms) (h2 : dYear ms ≤ 9999)
    (hne : (getWeeklySummariesForMonth wl (formatLocalDateISO ms)).length ≠ 0) :
    monthlyAttempt wl (formatLocalDateISO ms) =
      .ok (some ⟨.monthly, formatLocalDateISO ms, formatLocalDateISO (monthEndD ms),
        ruleBasedMonthly (getWeeklySummariesForMonth wl (formatLocalDateISO ms))⟩) := by
  have hmf := monthEndD_fields ms (by omega)
  have hyb1 : 1000 ≤ dYear (monthEndD ms) := by omega
  have hyb2 : dYear (monthEndD ms) ≤ 9999 := by omega
  unfold monthlyAttempt
  rw [if_neg hne, parse_format_ok ms h1 (by omega)]
  simp only
  rw [if_pos (aiDatesOk_format ms (monthEndD ms) h1 (by omega) hyb1 hyb2)]

/-- `"${year}-01-01"` matches the date regex with components
`(year, 1, 1)` for four-digit years. -/
theorem yearStartStr_components (year : Int) (h1 : 1000 ≤ year) (h2 : year ≤ 9999) :
    isoComponents (yearStartStr year) = some (year, 1, 1) := by
  have hz : charDigit? '0' = some 0 := rfl
  have ho : charDigit? '1' = some 1 := rfl
  rw [yearStartStr,
    show intDigits year = natDigits year.toNat from by
      unfold intDigits
      rw [if_neg (by omega)],
    natDigits_four year.toNat (by omega) (by omega)]
  rw [show ([digitChar (year.toNat / 1000), digitChar (year.toNat / 100 % 10),
      digitChar (year.toNat / 10 % 10), digitChar (year.toNat % 10)]
      ++ ['-', '0', '1', '-', '0', '1'] : JStr)
    = [digitChar (year.toNat / 1000), digitChar (year.toNat / 100 % 10),
      digitChar (year.toNat / 10 % 10), digitChar (year.toNat % 10), '-',
      '0', '1', '-', '0', '1'] from rfl]
  rw [show isoComponents
      [digitChar (year.toNat / 1000), digitChar (year.toNat / 100 % 10),
        digitChar (year.toNat / 10 % 10), digitChar (year.toNat % 10), '-',
        '0', '1', '-', '0', '1']
      = some (((1000 * (year.toNat / 1000) + 100 * (year.toNat / 100 % 10)
          + 10 * (year.toNat / 10 % 10) + year.toNat % 10 : Nat) : Int),
        ((10 * 0 + 1 : Nat) : Int), ((10 * 0 + 1 : Nat) : Int)) from by
    simp only [isoComponents,
      charDigit_digitChar (year.toNat / 1000) (by omega),
      charDigit_digitChar (year.toNat / 100 % 10) (by omega),
      charDigit_digitChar (year.toNat / 10 % 10) (by omega),
      charDigit_digitChar (year.toNat % 10) (by omega), hz, ho]
    simp]
  simp only [Option.some.injEq, Prod.mk.injEq]
  refine ⟨by omega, by omega, by omega⟩

theorem parse_yearStart (year : Int) (h1 : 1000 ≤ year) (h2 : year ≤ 9999) :
    parseLocalISODate (yearStartStr year) = some (daysFromCivil year 1 1) := by
  have hc := yearStartStr_components year h1 h2
  exact parse_of_components _ year 1 1 hc (by omega) (by omega) (by omega) (by omega)
    (by norm_num [daysInMonth])

/-- `new Date(year, 12, 0)` is December 31 — outside the remap range. -/
theorem yearEndD_eq (year : Int) (h : ¬ (0 ≤ year ∧ year ≤ 99)) :
    jsNewDate year 12 0 = daysFromCivil year 12 31 := by
  unfold jsNewDate mkDayNum
  rw [if_neg h]
  norm_num
  have := dec31_jan1 year
  have hlin : daysFromCivil (year + 1) 1 0 = daysFromCivil (year + 1) 1 1 - 1 := by
    have := daysFromCivil_linear (year + 1) 1 1 (-1)
    rw [show 1 + (-1 : Int) = 0 by norm_num] at this
    omega
  omega

theorem yearEndD_fields (year : Int) (h1 : 1000 ≤ year) (h2 : year ≤ 9999) :
    dYear (jsNewDate year 12 0) = year ∧ dMonth0 (jsNewDate year 12 0) = 11 ∧
      dDay (jsNewDate year 12 0) = 31 := by
  have hrt := civilFromDays_daysFromCivil year 12 31 (by omega) (by omega) (by omega)
    (by simp [daysInMonth])
  have hY : (civilFromDays (daysFromCivil year 12 31)).1 = year := by rw [hrt]
  have hM : (civilFromDays (daysFromCivil year 12 31)).2.1 = 12 := by rw [hrt]
  have hD : (civilFromDays (daysFromCivil year 12 31)).2.2 = 31 := by rw [hrt]
  have hM' : cfdM (daysFromCivil year 12 31) = 12 := hM
  refine ⟨?_, ?_, ?_⟩
  · show cfdY (jsNewDate year 12 0) = year
    rw [yearEndD_eq year (by omega)]
    exact hY
  · show cfdM (jsNewDate year 12 0) - 1 = 11
    rw [yearEndD_eq year (by omega)]
    omega
  · show cfdD (jsNewDate year 12 0) = 31
    rw [yearEndD_eq year (by omega)]
    exact hD

/-- A yearly generation at a four-digit year with at least one monthly
summary in range saves exactly the expected record. -/
theorem yAttempt_ok (ml : List Summary) (year : Int)
    (h1 : 1000 ≤ year) (h2 : year ≤ 9999)
    (hne : (yearlyFilter ml year).length ≠ 0) :
    yearlyAttempt ml year =
      .ok (some ⟨.yearly, yearStartStr year, yearEndStr year,
        ruleBasedYearly (yearlyFilter ml year)⟩) := by
  have hyf := yearEndD_fields year h1 h2
  have hai : aiDatesOk (yearStartStr year) (yearEndStr year) = true := by
    unfold aiDatesOk yearEndStr
    rw [yearStartStr_components year h1 h2, parse_yearStart year h1 h2,
      isoComponents_format (jsNewDate year 12 0) (by omega) (by omega),
      parse_format_ok (jsNewDate year 12 0) (by omega) (by omega)]
    rfl
  unfold yearlyAttempt
  rw [if_neg hne, if_pos hai]

/-! ## The theme sort is a stable descending sort -/

theorem insertDesc_perm (p : JStr × Nat) (l : List (JStr × Nat)) :
    List.Perm (insertDesc p l) (p :: l) := by
  induction l with
  | nil => exact List.Perm.refl _
  | cons q t ih =>
    rw [insertDesc]
    split
    · exact ((ih.cons q).trans (List.Perm.swap p q t))
    · exact List.Perm.refl _

theorem sortDescAux_perm :
    ∀ (l acc : List (JStr × Nat)),
      List.Perm (l.foldl (fun a q => insertDesc q a) acc) (acc ++ l) := by
  intro l
  induction l with
  | nil =>
    intro acc
    simp
  | cons q t ih =>
    intro acc
    have h1 : (q :: t).foldl (fun a q => insertDesc q a) acc
        = t.foldl (fun a q => insertDesc q a) (insertDesc q acc) := rfl
    have h2 := ih (insertDesc q acc)
    have h3 := (insertDesc_perm q acc).append_right t
    have h4 : List.Perm (q :: (acc ++ t)) (acc ++ q :: t) := List.perm_middle.symm
    rw [h1]
    exact (h2.trans h3).trans h4

theorem sortDesc_perm (l : List (JStr × Nat)) : List.Perm (sortDesc l) l := by
  have := sortDescAux_perm l []
  simpa [sortDesc] using this

theorem insertDesc_mem (p : JStr × Nat) (l : List (JStr × Nat)) (a : JStr × Nat)
    (h : a ∈ insertDesc p l) : a = p ∨ a ∈ l := by
  have := (insertDesc_perm p l).mem_iff.mp h
  simpa using this

theorem insertDesc_sorted (p : JStr × Nat) (l : List (JStr × Nat))
    (h : l.Pairwise (fun a b => b.2 ≤ a.2)) :
    (insertDesc p l).Pairwise (fun a b => b.2 ≤ a.2) := by
  induction l with
  | nil => simp [insertDesc]
  | cons q t ih =>
    rw [List.pairwise_cons] at h
    obtain ⟨hq, ht⟩ := h
    rw [insertDesc]
    split
    case isTrue hpq =>
      rw [List.pairwise_cons]
      refine ⟨?_, ih ht⟩
      intro b hb
      rcases insertDesc_mem p t b hb with rfl | hb'
      · exact hpq
      · exact hq b hb'
    case isFalse hpq =>
      rw [List.pairwise_cons]
      refine ⟨?_, by rw [List.pairwise_cons]; exact ⟨hq, ht⟩⟩
      intro b hb
      rcases List.mem_cons.mp hb with rfl | hb'
      · omega
      · have := hq b hb'
        omega

theorem sortDescAux_sorted :
    ∀ (l acc : List (JStr × Nat)),
      acc.Pairwise (fun a b => b.2 ≤ a.2) →
      (l.foldl (fun a q => insertDesc q a) acc).Pairwise (fun a b => b.2 ≤ a.2) := by
  intro l
  induction l with
  | nil =>
    intro acc hacc
    exact hacc
  | cons q t ih =>
    intro acc hacc
    exact ih (insertDesc q acc) (insertDesc_sorted q acc hacc)

theorem sortDesc_sorted (l : List (JStr × Nat)) :
    (sortDesc l).Pairwise (fun a b => b.2 ≤ a.2) :=
  sortDescAux_sorted l [] (by simp)

theorem insertDesc_filter_ne (p : JStr × Nat) (l : List (JStr × Nat)) (n : Nat)
    (hp : p.2 ≠ n) :
    (insertDesc p l).filter (fun q => q.2 == n) = l.filter (fun q => q.2 == n) := by
  induction l with
  | nil => simp [insertDesc, hp]
  | cons q t ih =>
    rw [insertDesc]
    split
    · rw [List.filter_cons, List.filter_cons, ih]
    · rw [List.filter_cons]
      simp [hp]

theorem insertDesc_filter_eq (p : JStr × Nat) (l : List (JStr × Nat)) (n : Nat)
    (hp : p.2 = n) (hsort : l.Pairwise (fun a b => b.2 ≤ a.2)) :
    (insertDesc p l).filter (fun q => q.2 == n)
      = l.filter (fun q => q.2 == n) ++ [p] := by
  induction l with
  | nil => simp [insertDesc, hp]
  | cons q t ih =>
    rw [List.pairwise_cons] at hsort
    obtain ⟨hq, ht⟩ := hsort
    rw [insertDesc]
    split
    case isTrue hpq =>
      by_cases hqn : q.2 = n
      · simp [List.filter_cons, hqn, ih ht]
      · simp [List.filter_cons, hqn, ih ht]
    case isFalse hpq =>
      have hqlt : q.2 < p.2 := by omega
      have hnone : (q :: t).filter (fun r => r.2 == n) = [] := by
        rw [List.filter_eq_nil_iff]
        intro a ha
        rcases List.mem_cons.mp ha with rfl | ha'
        · simp only [beq_iff_eq]
          omega
        · have := hq a ha'
          simp only [beq_iff_eq]
          omega
      simp [List.filter_cons, hp, hnone]

theorem sortDescAux_filter :
    ∀ (l acc : List (JStr × Nat)) (n : Nat),
      acc.Pairwise (fun a b => b.2 ≤ a.2) →
      (l.foldl (fun a q => insertDesc q a) acc).filter (fun q => q.2 == n)
        = acc.filter (fun q => q.2 == n) ++ l.filter (fun q => q.2 == n) := by
  intro l
  induction l with
  | nil =>
    intro acc n _
    simp
  | cons q t ih =>
    intro acc n hacc
    have hstep : (q :: t).foldl (fun a r => insertDesc r a) acc
        = t.foldl (fun a r => insertDesc r a) (insertDesc q acc) := rfl
    rw [hstep, ih (insertDesc q acc) n (insertDesc_sorted q acc hacc)]
    by_cases hqn : q.2 = n
    · rw [insertDesc_filter_eq q acc n hqn hacc]
      simp [List.filter_cons, hqn]
    · rw [insertDesc_filter_ne q acc n hqn]
      simp [List.filter_cons, hqn]

/-- Stability: the elements at any fixed count keep their input order. -/
theorem sortDesc_filter (l : List (JStr × Nat)) (n : Nat) :
    (sortDesc l).filter (fun q => q.2 == n) = l.filter (fun q => q.2 == n) := by
  have := sortDescAux_filter l [] n (by simp)
  simpa [sortDesc] using this

/-! ## Frequency-table keys come from the input themes -/

theorem bumpKey_mem (k : JStr) (l : List (JStr × Nat)) (p : JStr × Nat)
    (hp : p ∈ bumpKey k l) : p.1 = k ∨ p.1 ∈ l.map Prod.fst := by
  induction l with
  | nil =>
    simp only [bumpKey, List.mem_singleton] at hp
    rw [hp]
    exact Or.inl rfl
  | cons q t ih =>
    rw [bumpKey] at hp
    split at hp
    · rcases List.mem_cons.mp hp with rfl | hp'
      · exact Or.inr (by simp)
      · exact Or.inr (by simp [List.mem_cons.mpr (Or.inr (List.mem_map_of_mem _ hp'))])
    · rcases List.mem_cons.mp hp with rfl | hp'
      · exact Or.inr (by simp)
      · rcases ih hp' with h | h
        · exact Or.inl h
        · exact Or.inr (by simp [h])

theorem buildFreqAux_keys :
    ∀ (l : List JStr) (acc : List (JStr × Nat)) (p : JStr × Nat),
      p ∈ l.foldl (fun a k => bumpKey k a) acc →
      p.1 ∈ l ∨ p.1 ∈ acc.map Prod.fst := by
  intro l
  induction l with
  | nil =>
    intro acc p hp
    exact Or.inr (List.mem_map_of_mem _ hp)
  | cons k t ih =>
    intro acc p hp
    rcases ih (bumpKey k acc) p hp with h | h
    · exact Or.inl (by simp [h])
    · obtain ⟨q, hq, hq1⟩ := List.mem_map.mp h
      rcases bumpKey_mem k acc q hq with h' | h'
      · exact Or.inl (by simp [← hq1, h'])
      · exact Or.inr (by rw [← hq1]; exact h')

theorem buildFreq_keys (l : List JStr) (p : JStr × Nat) (hp : p ∈ buildFreq l) :
    p.1 ∈ l := by
  rcases buildFreqAux_keys l [] p hp with h | h
  · exact h
  · simp at h

/-- With no integer-index keys, `Object.entries` keeps insertion order. -/
theorem jsEntries_of_nonidx (l : List (JStr × Nat))
    (h : ∀ p ∈ l, arrayIndex? p.1 = none) : jsEntries l = l := by
  unfold jsEntries
  have h1 : l.filter (fun p => (arrayIndex? p.1).isSome) = [] := by
    rw [List.filter_eq_nil_iff]
    intro p hp
    simp [h p hp]
  have h2 : l.filter (fun p => ¬ (arrayIndex? p.1).isSome) = l := by
    rw [List.filter_eq_self]
    intro p hp
    simp [h p hp]
  rw [h1, h2]
  rfl

/-- With no numeric-string themes, theme consolidation is exactly the
stable descending sort of the first-encounter frequency table. -/
theorem consolidateThemes_nonidx (themes : List JStr)
    (h : ∀ t ∈ themes, arrayIndex? t = none) :
    consolidateThemes themes = (sortDesc (buildFreq themes)).map Prod.fst := by
  unfold consolidateThemes
  rw [jsEntries_of_nonidx _ fun p hp => h p.1 (buildFreq_keys themes p hp)]

theorem ruleBasedMonthly_key_themes (ws : List Summary) (h : ws.length ≠ 0) :
    (ruleBasedMonthly ws).key_themes
      = (consolidateThemes (ws.flatMap (·.insights.key_themes))).take 10 := by
  unfold ruleBasedMonthly
  rw [if_neg h]

/-! ## The week-start projection always yields a Monday -/

/-- Like `before_next_year`, with the generic day bound 31 (covers
constructor day inputs that overflow short months). -/
theorem before_next_year31 (y m d : Int) (h1 : 1 ≤ m) (h2 : m ≤ 12)
    (hd : d ≤ 31) :
    daysFromCivil y m d < daysFromCivil (y + 1) 1 1 := by
  have hlin : daysFromCivil y m d = daysFromCivil y m 1 + (d - 1) := by
    have := daysFromCivil_linear y m 1 (d - 1)
    rw [show 1 + (d - 1) = d by ring] at this
    omega
  have h12 := month_start_le12 y m h1 h2
  have hj := dec31_jan1 y
  have hl31 : daysFromCivil y 12 31 = daysFromCivil y 12 1 + 30 := by
    have := daysFromCivil_linear y 12 1 30
    rw [show 1 + (30 : Int) = 31 by norm_num] at this
    omega
  omega

/-- Rebuilding a remapped-year date from its fields constructs the
corresponding 19xx civil date. -/
theorem jsNewDate_fields_remap (e : Int) (hy : 0 ≤ dYear e ∧ dYear e ≤ 99) :
    jsNewDate (dYear e) (dMonth0 e) (dDay e)
      = daysFromCivil (dYear e + 1900) (cfdM e) (cfdD e) := by
  have hval := civilFromDays_valid e
  unfold jsNewDate mkDayNum dMonth0 dDay
  rw [if_pos (by unfold dYear at hy; exact hy)]
  rw [show (cfdM e - 1) / 12 = 0 by omega, show (cfdM e - 1) % 12 = cfdM e - 1 by omega,
    show cfdM e - 1 + 1 = cfdM e by ring]
  rw [show dYear e + 1900 + 0 = dYear e + 1900 by ring]

/-- The constructed date of a remapped two-digit year lies in 19xx. -/
theorem dYear_remap (e : Int) (hy : 0 ≤ dYear e ∧ dYear e ≤ 99) :
    dYear (jsNewDate (dYear e) (dMonth0 e) (dDay e)) = dYear e + 1900 := by
  rw [jsNewDate_fields_remap e hy]
  have hval := civilFromDays_valid e
  have hd31 : cfdD e ≤ 31 := le_trans hval.2.2.2 (daysInMonth_bounds _ _).2
  have hlow : daysFromCivil (dYear e + 1900) 1 1
      ≤ daysFromCivil (dYear e + 1900) (cfdM e) (cfdD e) := by
    have h1 := month_start_le (dYear e + 1900) (cfdM e) hval.1 hval.2.1
    have hlin := daysFromCivil_linear (dYear e + 1900) (cfdM e) 1 (cfdD e - 1)
    rw [show 1 + (cfdD e - 1) = cfdD e by ring] at hlin
    omega
  have hhigh := before_next_year31 (dYear e + 1900) (cfdM e) (cfdD e)
    hval.1 hval.2.1 hd31
  have hlb := dYear_lb _ _ hlow
  have hub := dYear_ub _ _ hhigh
  omega

/-- For every date, `weekStart` lands on a Monday (possibly of the
remapped 19xx week). -/
theorem weekStart_dow (e : Int) : dDow (weekStart e) = 1 := by
  by_cases hy : 0 ≤ dYear e ∧ dYear e ≤ 99
  · have hB := dYear_remap e hy
    have hBne : ¬ (0 ≤ dYear (jsNewDate (dYear e) (dMonth0 e) (dDay e)) ∧
        dYear (jsNewDate (dYear e) (dMonth0 e) (dDay e)) ≤ 99) := by omega
    have heq : weekStart e = jsNewDate (dYear e) (dMonth0 e) (dDay e) +
        (if dDow (jsNewDate (dYear e) (dMonth0 e) (dDay e)) = 0 then -6
          else 1 - dDow (jsNewDate (dYear e) (dMonth0 e) (dDay e))) :=
      jsNewDate_fields _ _ hBne
    rw [heq]
    have hdw := dDow_bounds (jsNewDate (dYear e) (dMonth0 e) (dDay e))
    unfold dDow at hdw ⊢
    split <;> omega
  · have hB : jsNewDate (dYear e) (dMonth0 e) (dDay e) = e := jsNewDate_fields_id e hy
    have heq : weekStart e = e + (if dDow e = 0 then -6 else 1 - dDow e) := by
      simp only [weekStart, hB]
      exact jsNewDate_fields e _ hy
    rw [heq]
    have hdw := dDow_bounds e
    unfold dDow at hdw ⊢
    split <;> omega

/-! ## Normalization shape facts for the yearly force entry point -/

theorem normalize_isSome_eq_shape (date : JStr) :
    (normalizeYearlyForceDate date).isSome = yearlyKeyShapeOK date := by
  match date with
  | [] => rfl
  | [_] => rfl
  | [_, _] => rfl
  | [_, _, _] => rfl
  | [c1, c2, c3, c4] =>
    simp only [normalizeYearlyForceDate, yearlyKeyShapeOK, isFourDigitYear]
    cases h1 : charDigit? c1 <;> cases h2 : charDigit? c2 <;>
      cases h3 : charDigit? c3 <;> cases h4 : charDigit? c4 <;>
      simp [isoComponents]
  | [_, _, _, _, _] => rfl
  | [_, _, _, _, _, _] => rfl
  | [_, _, _, _, _, _, _] => rfl
  | [_, _, _, _, _, _, _, _] => rfl
  | [_, _, _, _, _, _, _, _, _] => rfl
  | [c1, c2, c3, c4, h1, c5, c6, h2, c7, c8] =>
    simp only [normalizeYearlyForceDate, yearlyKeyShapeOK, isFourDigitYear]
    cases hiso : isoComponents [c1, c2, c3, c4, h1, c5, c6, h2, c7, c8] with
    | none => simp [hiso]
    | some v =>
      obtain ⟨y, m, d⟩ := v
      simp [hiso]
  | _ :: _ :: _ :: _ :: _ :: _ :: _ :: _ :: _ :: _ :: _ :: _ => rfl

theorem normalize_none_of_badshape (date : JStr) (h : yearlyKeyShapeOK date = false) :
    normalizeYearlyForceDate date = none := by
  have hs := normalize_isSome_eq_shape date
  rw [h] at hs
  cases hn : normalizeYearlyForceDate date with
  | none => rfl
  | some y =>
    rw [hn] at hs
    simp at hs

theorem normalize_year_bounds (date : JStr) (y : Int)
    (h : normalizeYearlyForceDate date = some y) : 0 ≤ y ∧ y ≤ 9999 := by
  match date with
  | [] => exact absurd h (by simp [normalizeYearlyForceDate])
  | [_] => exact absurd h (by simp [normalizeYearlyForceDate])
  | [_, _] => exact absurd h (by simp [normalizeYearlyForceDate])
  | [_, _, _] => exact absurd h (by simp [normalizeYearlyForceDate])
  | [c1, c2, c3, c4] =>
    simp only [normalizeYearlyForceDate] at h
    split at h
    case h_1 v1 v2 v3 v4 e1 e2 e3 e4 =>
      have b1 := digitChar_charDigit _ _ e1
      have b2 := digitChar_charDigit _ _ e2
      have b3 := digitChar_charDigit _ _ e3
      have b4 := digitChar_charDigit _ _ e4
      have := Option.some.inj h
      omega
    case h_2 => exact absurd h (by simp)
  | [_, _, _, _, _] => exact absurd h (by simp [normalizeYearlyForceDate])
  | [_, _, _, _, _, _] => exact absurd h (by simp [normalizeYearlyForceDate])
  | [_, _, _, _, _, _, _] => exact absurd h (by simp [normalizeYearlyForceDate])
  | [_, _, _, _, _, _, _, _] => exact absurd h (by simp [normalizeYearlyForceDate])
  | [_, _, _, _, _, _, _, _, _] => exact absurd h (by simp [normalizeYearlyForceDate])
  | [c1, c2, c3, c4, h1, c5, c6, h2, c7, c8] =>
    simp only [normalizeYearlyForceDate] at h
    cases hiso : isoComponents [c1, c2, c3, c4, h1, c5, c6, h2, c7, c8] with
    | none =>
      rw [hiso] at h
      exact absurd h (by simp)
    | some v =>
      obtain ⟨y', m, d⟩ := v
      rw [hiso] at h
      simp only [Option.some.injEq] at h
      obtain ⟨a1, a2, a3, a4, a5, a6, a7, a8, v1, v2, v3, v4, v5, v6, v7, v8,
        hs, e1, e2, e3, e4, e5, e6, e7, e8, hyv, hmv, hdv⟩ :=
        isoComponents_inv _ y' m d hiso
      have b1 := digitChar_charDigit _ _ e1
      have b2 := digitChar_charDigit _ _ e2
      have b3 := digitChar_charDigit _ _ e3
      have b4 := digitChar_charDigit _ _ e4
      omega
  | _ :: _ :: _ :: _ :: _ :: _ :: _ :: _ :: _ :: _ :: _ :: _ =>
    exact absurd h (by simp [normalizeYearlyForceDate])

/-! ## The ten claims -/

/-- Claim C1: running the composed pending-backfill scan
(`checkAndGeneratePendingSummaries`) twice in a row, with no new entries
or summaries added in between, writes zero additional summaries on the
second run and returns the same outcome, for every starting store state
and every clock value. -/
theorem c1_backfill_idempotent (s : St) (now : Int) :
    checkAndGeneratePendingSummaries (checkAndGeneratePendingSummaries s now).1 now
      = checkAndGeneratePendingSummaries s now :=
  checkAndGenerate_idem s now

/-- Claim C2 (amended): `parseLocalISODate` rejects every non-matching
string and every pattern-matching string denoting a calendar overflow,
and for a valid calendar date whose four-digit year is at least 100 it
returns the date with exactly those components.  The original claim's
unrestricted "for a valid calendar date" clause is false for the years
0000–0099 (the `new Date(y, m, d)` two-digit-year remap makes the
re-check fail; see the counterexample). -/
theorem c2_parse_strict :
    (∀ s : JStr, isoComponents (trimJS s) = none → parseLocalISODate s = none) ∧
    (∀ (s : JStr) (y m d : Int), isoComponents (trimJS s) = some (y, m, d) →
      ¬ (1 ≤ m ∧ m ≤ 12 ∧ 1 ≤ d ∧ d ≤ daysInMonth y m) →
      parseLocalISODate s = none) ∧
    (∀ (s : JStr) (y m d : Int), isoComponents (trimJS s) = some (y, m, d) →
      100 ≤ y → 1 ≤ m → m ≤ 12 → 1 ≤ d → d ≤ daysInMonth y m →
      ∃ e, parseLocalISODate s = some e ∧
        dYear e = y ∧ dMonth0 e + 1 = m ∧ dDay e = d) := by
  refine ⟨parse_none_of_nomatch, ?_, ?_⟩
  · intro s y m d hc hinv
    obtain ⟨c1, c2, c3, c4, c5, c6, c7, c8, v1, v2, v3, v4, v5, v6, v7, v8,
      hs, e1, e2, e3, e4, e5, e6, e7, e8, hyv, hmv, hdv⟩ :=
      isoComponents_inv _ y m d hc
    have b5 := digitChar_charDigit _ _ e5
    have b6 := digitChar_charDigit _ _ e6
    exact parse_none_of_bad s y m d hc (by omega) (by omega) (Or.inr hinv)
  · intro s y m d hc hy hm1 hm12 hd1 hd2
    have hrt := civilFromDays_daysFromCivil y m d hm1 hm12 hd1 hd2
    have hY : (civilFromDays (daysFromCivil y m d)).1 = y := by rw [hrt]
    have hM : cfdM (daysFromCivil y m d) = m := by
      have : (civilFromDays (daysFromCivil y m d)).2.1 = m := by rw [hrt]
      exact this
    have hD : (civilFromDays (daysFromCivil y m d)).2.2 = d := by rw [hrt]
    have hnew : jsNewDate y (m - 1) d = daysFromCivil y m d := by
      unfold jsNewDate mkDayNum
      rw [if_neg (by omega), show (m - 1) / 12 = 0 by omega,
        show (m - 1) % 12 = m - 1 by omega, show m - 1 + 1 = m by ring,
        show y + 0 = y by ring]
    refine ⟨daysFromCivil y m d, ?_, hY, ?_, hD⟩
    · rw [parseLocalISODate, hc]
      simp only [hnew]
      rw [if_pos]
      refine ⟨hY, ?_, hD⟩
      show cfdM (daysFromCivil y m d) - 1 = m - 1
      omega
    · show cfdM (daysFromCivil y m d) - 1 + 1 = m
      omega

theorem c2_witness :
    parseLocalISODate ("2024-02-30".data) = none ∧
    parseLocalISODate ("2024-13-01".data) = none :=
  ⟨c2_parse_strict.2.1 _ 2024 2 30 (by decide) (by decide),
   c2_parse_strict.2.1 _ 2024 13 1 (by decide) (by decide)⟩

/-- The string "0099-01-01" matches the pattern and denotes a valid civil
date, yet the strict parser rejects it: the two-digit-year constructor
remap sends year 99 to 1999, so the field re-check fails. -/
theorem c2_counterexample :
    isoComponents (trimJS ("0099-01-01".data)) = some (99, 1, 1) ∧
    (1 ≤ (1 : Int) ∧ (1 : Int) ≤ 12 ∧ 1 ≤ (1 : Int) ∧
      (1 : Int) ≤ daysInMonth 99 1) ∧
    parseLocalISODate ("0099-01-01".data) = none :=
  ⟨by decide, by decide, by decide⟩

/-- Claim C3: a malformed yearly force key (neither `"YYYY"` nor
`"YYYY-MM-DD"`) makes normalization throw synchronously, before any store
access — the state is returned untouched with a thrown outcome; and every
successfully normalized key yields an actual bounded year number (never
`NaN`/garbage). -/
theorem c3_force_yearly_guard :
    (∀ (s : St) (date : JStr), yearlyKeyShapeOK date = false →
      forceYearlySummaryGeneration s date = (s, .thrown)) ∧
    (∀ (date : JStr) (y : Int), normalizeYearlyForceDate date = some y →
      0 ≤ y ∧ y ≤ 9999) := by
  constructor
  · intro s date h
    unfold forceYearlySummaryGeneration
    rw [normalize_none_of_badshape date h]
  · exact normalize_year_bounds

theorem c3_witness :
    forceYearlySummaryGeneration emptySt ("2024-13".data) = (emptySt, .thrown) ∧
    (0 ≤ (2024 : Int) ∧ (2024 : Int) ≤ 9999) :=
  ⟨c3_force_yearly_guard.1 emptySt _ (by decide),
   c3_force_yearly_guard.2 ("2024".data) 2024 (by decide)⟩

/-- Claim C4: for every granularity, when the fetched source rows for the
requested period are empty, the rollup generator returns `null` with the
store unchanged and no exception. -/
theorem c4_empty_source_null :
    (∀ (s : St) (c : JStr) (dt : Int), parseLocalISODate c = some dt →
      s.entriesFor (formatLocalDateISO dt) = [] →
      generateWeeklySummary s c = (s, .ok none)) ∧
    (∀ (s : St) (c : JStr), getWeeklySummariesForMonth s.weekly c = [] →
      generateMonthlySummary s c = (s, .ok none)) ∧
    (∀ (s : St) (year : Int), yearlyFilter s.monthly year = [] →
      generateYearlySummary s year = (s, .ok none)) := by
  refine ⟨?_, ?_, ?_⟩
  · intro s c dt hp he
    unfold generateWeeklySummary
    rw [hp]
    simp only
    rw [he]
    simp
  · intro s c he
    unfold generateMonthlySummary
    rw [he]
    simp
  · intro s year he
    unfold generateYearlySummary
    rw [he]
    simp

theorem c4_witness :
    generateWeeklySummary emptySt ("2024-01-01".data) = (emptySt, .ok none) ∧
    generateMonthlySummary emptySt ("2024-01-01".data) = (emptySt, .ok none) ∧
    generateYearlySummary emptySt 2024 = (emptySt, .ok none) :=
  ⟨c4_empty_source_null.1 emptySt _ (daysFromCivil 2024 1 1) (by decide) rfl,
   c4_empty_source_null.2.1 emptySt _ rfl,
   c4_empty_source_null.2.2 emptySt 2024 rfl⟩

/-- Claim C5: for a candidate period with no existing summary, the
backfill loop generates exactly when the source count meets the quality
threshold: a week with 2 entries is skipped while a (representable) week
with 3 entries produces a saved weekly summary; a month generates only
with ≥ 2 weekly summaries; a year only with ≥ 6 monthly summaries. -/
theorem c5_thresholds :
    (∀ (s : St) (exist : List JStr) (w : Int),
      formatLocalDateISO w ∉ exist →
      (s.entriesFor (formatLocalDateISO w)).length = 2 →
      scanWeekLoop s exist [formatLocalDateISO w] = (s, .ok ())) ∧
    (∀ (s : St) (exist : List JStr) (w : Int),
      1000 ≤ dYear w → dYear w ≤ 9998 →
      formatLocalDateISO w ∉ exist →
      (s.entriesFor (formatLocalDateISO w)).length = 3 →
      ∃ sm, scanWeekLoop s exist [formatLocalDateISO w]
          = ({ s with weekly := s.weekly ++ [sm] }, .ok ()) ∧
        sm.start_date = formatLocalDateISO w) ∧
    (∀ (s : St) (exist : List JStr) (c : JStr),
      c ∉ exist → (getWeeklySummariesForMonth s.weekly c).length < 2 →
      scanMonthLoop s exist [c] = (s, .ok ())) ∧
    (∀ (s : St) (exist : List JStr) (ms : Int),
      1000 ≤ dYear ms → dYear ms ≤ 9999 →
      formatLocalDateISO ms ∉ exist →
      2 ≤ (getWeeklySummariesForMonth s.weekly (formatLocalDateISO ms)).length →
      ∃ sm, scanMonthLoop s exist [formatLocalDateISO ms]
          = ({ s with monthly := s.monthly ++ [sm] }, .ok ()) ∧
        sm.start_date = formatLocalDateISO ms) ∧
    (∀ (s : St) (exist : List JStr) (y : Int),
      yearStartStr y ∉ exist → (yearlyFilter s.monthly y).length < 6 →
      scanYearLoop s exist s.monthly [y] = (s, .ok ())) ∧
    (∀ (s : St) (exist : List JStr) (y : Int),
      1000 ≤ y → y ≤ 9999 →
      yearStartStr y ∉ exist → 6 ≤ (yearlyFilter s.monthly y).length →
      ∃ sm, scanYearLoop s exist s.monthly [y]
          = ({ s with yearly := s.yearly ++ [sm] }, .ok ()) ∧
        sm.start_date = yearStartStr y) := by
  refine ⟨?_, ?_, ?_, ?_, ?_, ?_⟩
  · intro s exist w hni hlen
    rw [scanWeekLoop, if_neg hni, if_neg (by omega)]
    rfl
  · intro s exist w h1 h2 hni hlen
    have hk := wAttempt_ok s.entriesFor w h1 h2 (by omega)
    refine ⟨⟨.weekly, formatLocalDateISO w, formatLocalDateISO (weekEndOf w),
      ruleBasedWeekly (s.entriesFor (formatLocalDateISO w))⟩, ?_, rfl⟩
    rw [scanWeekLoop, if_neg hni, if_pos (by omega), genWeekly_split s _, hk,
      show wApp s.entriesFor (formatLocalDateISO w)
        = [⟨.weekly, formatLocalDateISO w, formatLocalDateISO (weekEndOf w),
            ruleBasedWeekly (s.entriesFor (formatLocalDateISO w))⟩] from by
        unfold wApp
        rw [hk]]
    rfl
  · intro s exist c hni hlt
    rw [scanMonthLoop, if_neg hni, if_neg (by omega)]
    rfl
  · intro s exist ms h1 h2 hni hge
    have hk := mAttempt_ok s.weekly ms h1 h2 (by omega)
    refine ⟨⟨.monthly, formatLocalDateISO ms, formatLocalDateISO (monthEndD ms),
      ruleBasedMonthly (getWeeklySummariesForMonth s.weekly (formatLocalDateISO ms))⟩,
      ?_, rfl⟩
    rw [scanMonthLoop, if_neg hni, if_pos hge, genMonthly_split s _, hk,
      show mApp s.weekly (formatLocalDateISO ms)
        = [⟨.monthly, formatLocalDateISO ms, formatLocalDateISO (monthEndD ms),
            ruleBasedMonthly (getWeeklySummariesForMonth s.weekly
              (formatLocalDateISO ms))⟩] from by
        unfold mApp
        rw [hk]]
    rfl
  · intro s exist y hni hlt
    rw [scanYearLoop, if_neg hni, if_neg (by omega)]
    rfl
  · intro s exist y h1 h2 hni hge
    have hk := yAttempt_ok s.monthly y h1 h2 (by omega)
    refine ⟨⟨.yearly, yearStartStr y, yearEndStr y,
      ruleBasedYearly (yearlyFilter s.monthly y)⟩, ?_, rfl⟩
    rw [scanYearLoop, if_neg hni, if_pos hge, genYearly_split s _, hk,
      show yApp s.monthly y
        = [⟨.yearly, yearStartStr y, yearEndStr y,
            ruleBasedYearly (yearlyFilter s.monthly y)⟩] from by
        unfold yApp
        rw [hk]]
    rfl

theorem c5_witness :
    scanWeekLoop st2 [] [formatLocalDateISO 20094] = (st2, .ok ()) ∧
    (∃ sm, scanWeekLoop st3 [] [formatLocalDateISO 20094]
        = ({ st3 with weekly := st3.weekly ++ [sm] }, .ok ()) ∧
      sm.start_date = formatLocalDateISO 20094) ∧
    scanMonthLoop emptySt [] ["2025-01-01".data] = (emptySt, .ok ()) ∧
    (∃ sm, scanMonthLoop stM [] [formatLocalDateISO (daysFromCivil 2025 1 1)]
        = ({ stM with monthly := stM.monthly ++ [sm] }, .ok ()) ∧
      sm.start_date = formatLocalDateISO (daysFromCivil 2025 1 1)) ∧
    scanYearLoop emptySt [] emptySt.monthly [2024] = (emptySt, .ok ()) ∧
    (∃ sm, scanYearLoop stY [] stY.monthly [2024]
        = ({ stY with yearly := stY.yearly ++ [sm] }, .ok ()) ∧
      sm.start_date = yearStartStr 2024) :=
  ⟨c5_thresholds.1 st2 [] 20094 (by simp) rfl,
   c5_thresholds.2.1 st3 [] 20094 (by decide) (by decide) (by simp) rfl,
   c5_thresholds.2.2.1 emptySt [] ("2025-01-01".data) (by simp) (by decide),
   c5_thresholds.2.2.2.1 stM [] (daysFromCivil 2025 1 1) (by decide) (by decide)
     (by simp)
     (by
       have hf : formatLocalDateISO (daysFromCivil 2025 1 1) = "2025-01-01".data :=
         format_of_components _ 2025 1 1 (by decide) (by norm_num) (by norm_num)
           (by norm_num) (by norm_num) (by decide)
       have hp : parseLocalISODate ("2025-01-01".data)
           = some (daysFromCivil 2025 1 1) := by decide
       have hm : monthEndD (daysFromCivil 2025 1 1) = daysFromCivil 2025 1 31 := by
         rw [monthEndD_eq _ (by decide),
           show dYear (daysFromCivil 2025 1 1) = 2025 from by decide,
           show dMonth0 (daysFromCivil 2025 1 1) = 0 from by decide]
         norm_num [daysInMonth]
       have hfe : formatLocalDateISO (monthEndD (daysFromCivil 2025 1 1))
           = "2025-01-31".data := by
         rw [hm]
         exact format_of_components _ 2025 1 31 (by decide) (by norm_num) (by norm_num)
           (by norm_num) (by norm_num) (by decide)
       rw [hf]
       simp only [getWeeklySummariesForMonth, hp]
       rw [hfe]
       decide),
   c5_thresholds.2.2.2.2.1 emptySt [] 2024 (by simp) (by decide),
   c5_thresholds.2.2.2.2.2 stY [] 2024 (by decide) (by decide) (by simp)
     (by
       have h1 : yearStartStr 2024 = "2024-01-01".data := by
         rw [yearStartStr,
           show intDigits 2024 = natDigits (2024 : Int).toNat from by
             unfold intDigits
             rw [if_neg (by norm_num)],
           show (2024 : Int).toNat = 2024 from rfl,
           natDigits_four 2024 (by norm_num) (by norm_num)]
         rfl
       have h2 : yearEndStr 2024 = "2024-12-31".data := by
         unfold yearEndStr
         rw [yearEndD_eq 2024 (by norm_num)]
         exact format_of_components _ 2024 12 31 (by decide) (by norm_num) (by norm_num)
           (by norm_num) (by norm_num) (by decide)
       unfold yearlyFilter
       rw [h1, h2]
       decide)⟩

/-- Claim C6 (amended): with no numeric-string themes, theme
consolidation is the stable descending-frequency sort of the
first-encounter frequency table (a permutation of it, with counts
non-increasing and ties kept in first-encounter order), the monthly
insight keeps the first 10 consolidated themes, and the spec's concrete
derivation example holds.  The unrestricted tie-break claim is false:
`Object.entries` moves integer-index keys (such as "2024") to the front;
see the counterexample. -/
theorem c6_theme_consolidation :
    (∀ themes : List JStr, (∀ t ∈ themes, arrayIndex? t = none) →
      consolidateThemes themes = (sortDesc (buildFreq themes)).map Prod.fst ∧
      List.Perm (sortDesc (buildFreq themes)) (buildFreq themes) ∧
      (sortDesc (buildFreq themes)).Pairwise (fun a b => b.2 ≤ a.2) ∧
      ∀ n, (sortDesc (buildFreq themes)).filter (fun q => q.2 == n)
        = (buildFreq themes).filter (fun q => q.2 == n)) ∧
    (∀ ws : List Summary, ws.length ≠ 0 →
      (ruleBasedMonthly ws).key_themes
        = (consolidateThemes (ws.flatMap (·.insights.key_themes))).take 10) ∧
    (∀ w1 w2 : Summary,
      w1.insights.key_themes = ["Work", "Work", "Family"].map String.data →
      w2.insights.key_themes = ["Family", "Travel"].map String.data →
      (ruleBasedMonthly [w1, w2]).key_themes
        = ["Work", "Family", "Travel"].map String.data) := by
  refine ⟨?_, ruleBasedMonthly_key_themes, ?_⟩
  · intro themes h
    exact ⟨consolidateThemes_nonidx themes h, sortDesc_perm _, sortDesc_sorted _,
      fun n => sortDesc_filter _ n⟩
  · intro w1 w2 h1 h2
    rw [ruleBasedMonthly_key_themes [w1, w2] (by simp)]
    have hfm : ([w1, w2].flatMap (·.insights.key_themes))
        = ["Work", "Work", "Family", "Family", "Travel"].map String.data := by
      simp [h1, h2]
    rw [hfm]
    decide

theorem c6_witness :
    (ruleBasedMonthly [wth1, wth2]).key_themes
      = ["Work", "Family", "Travel"].map String.data :=
  c6_theme_consolidation.2.2 wth1 wth2 rfl rfl

/-- Frequency ties are NOT always broken by first-encounter order: the
numeric-string theme "2024" is an integer-index object key, so
`Object.entries` enumerates it before "Work" even though "Work" was
encountered first and both have frequency 1. -/
theorem c6_counterexample :
    consolidateThemes (["Work", "2024"].map String.data)
      = ["2024", "Work"].map String.data ∧
    ["2024", "Work"].map String.data ≠ ["Work", "2024"].map String.data :=
  ⟨by decide, by decide⟩

/-- Claim C7: the three trend fields of every non-empty aggregation are
the unweighted arithmetic means of the corresponding child values, and
the average of an empty list is 0 by an explicit guard; entries rated
[5, 5, 4] give trend 14/3. -/
theorem c7_trend_means :
    average [] = 0 ∧
    (∀ nums : List ℚ, nums ≠ [] → average nums = nums.sum / nums.length) ∧
    (∀ entries : List DailyEntry, entries ≠ [] →
      (ruleBasedWeekly entries).productivity_trend
          = average (entries.map (·.ratings.productivity)) ∧
        (ruleBasedWeekly entries).mood_trend
          = average (entries.map (·.ratings.mood)) ∧
        (ruleBasedWeekly entries).energy_trend
          = average (entries.map (·.ratings.energy))) ∧
    (∀ ws : List Summary, ws ≠ [] →
      (ruleBasedMonthly ws).productivity_trend
          = average (ws.map (·.insights.productivity_trend)) ∧
        (ruleBasedMonthly ws).mood_trend
          = average (ws.map (·.insights.mood_trend)) ∧
        (ruleBasedMonthly ws).energy_trend
          = average (ws.map (·.insights.energy_trend))) ∧
    (∀ ms : List Summary, ms ≠ [] →
      (ruleBasedYearly ms).productivity_trend
          = average (ms.map (·.insights.productivity_trend)) ∧
        (ruleBasedYearly ms).mood_trend
          = average (ms.map (·.insights.mood_trend)) ∧
        (ruleBasedYearly ms).energy_trend
          = average (ms.map (·.insights.energy_trend))) ∧
    average [5, 5, 4] = 14 / 3 := by
  refine ⟨rfl, ?_, ?_, ?_, ?_, ?_⟩
  · intro nums h
    rw [average, if_neg (by simpa using h)]
  · intro entries h
    have hlen : ¬ entries.length = 0 := by simpa using h
    unfold ruleBasedWeekly
    rw [if_neg hlen]
    exact ⟨rfl, rfl, rfl⟩
  · intro ws h
    have hlen : ¬ ws.length = 0 := by simpa using h
    unfold ruleBasedMonthly
    rw [if_neg hlen]
    exact ⟨rfl, rfl, rfl⟩
  · intro ms h
    have hlen : ¬ ms.length = 0 := by simpa using h
    unfold ruleBasedYearly
    rw [if_neg hlen]
    exact ⟨rfl, rfl, rfl⟩
  · rw [average, if_neg (by norm_num)]
    norm_num

theorem c7_witness :
    (ruleBasedWeekly [entry0]).productivity_trend
        = average ([entry0].map (·.ratings.productivity)) ∧
      (ruleBasedWeekly [entry0]).mood_trend
        = average ([entry0].map (·.ratings.mood)) ∧
      (ruleBasedWeekly [entry0]).energy_trend
        = average ([entry0].map (·.ratings.energy)) :=
  c7_trend_means.2.2.1 [entry0] (by simp)

/-- Claim C8 (amended): the week-start projection always lands on a
Monday (day-of-week 1), and it is idempotent for dates whose year is at
least 101.  The original unrestricted idempotence claim is false: at the
year-100 boundary the computed Monday can fall into year 99, and
rebuilding that date triggers the two-digit-year remap to 1999; see the
counterexample. -/
theorem c8_weekStart_monday :
    (∀ e : Int, dDow (weekStart e) = 1) ∧
    (∀ e : Int, 101 ≤ dYear e → weekStart (weekStart e) = weekStart e) := by
  refine ⟨weekStart_dow, ?_⟩
  intro e h
  exact (weekStart_monday e h).2

theorem c8_witness :
    dDow (weekStart 20094) = 1 ∧ weekStart (weekStart 20094) = weekStart 20094 :=
  ⟨c8_weekStart_monday.1 20094, c8_weekStart_monday.2 20094 (by decide)⟩

set_option maxRecDepth 10000 in
/-- Day -683003 is 0100-01-01 (a Friday); its week start is 0099-12-28,
but applying weekStart again remaps year 99 to 1999 and lands on day
10952 (1999-12-27), so weekStart is not idempotent there. -/
theorem c8_counterexample :
    dYear (-683003 : Int) = 100 ∧
    weekStart (-683003) = -683007 ∧
    dYear (-683007 : Int) = 99 ∧
    weekStart (weekStart (-683003)) = 10952 ∧
    weekStart (weekStart (-683003)) ≠ weekStart (-683003) :=
  ⟨by decide, by decide, by decide, by decide, by decide⟩

/-- Claim C9 (amended): for every date outside the remapped-year range
(year ≥ 100), the month-end computation `new Date(y, m + 1, 0)` returns a
date in the same year and month whose day is exactly the month length —
29 for leap-year February, 28 for other Februaries, 30 or 31 elsewhere.
The unrestricted claim is false for the remapped years 0–99; see the
counterexample. -/
theorem c9_month_end (e : Int) (h : 100 ≤ dYear e) :
    dYear (monthEndD e) = dYear e ∧ dMonth0 (monthEndD e) = dMonth0 e ∧
      dDay (monthEndD e) = daysInMonth (dYear e) (dMonth0 e + 1) :=
  monthEndD_fields e h

theorem c9_witness :
    (dYear (monthEndD 19754) = dYear 19754 ∧
      dMonth0 (monthEndD 19754) = dMonth0 19754 ∧
      dDay (monthEndD 19754) = daysInMonth (dYear 19754) (dMonth0 19754 + 1)) ∧
    daysInMonth (dYear 19754) (dMonth0 19754 + 1) = 29 :=
  ⟨c9_month_end 19754 (by decide), by decide⟩

/-- Day -719497 is 0000-02-01; year 0 is a leap year, so February has 29
days, yet the month-end computation remaps year 0 to 1900 (not a leap
year) and returns day 28. -/
theorem c9_counterexample :
    dYear (-719497 : Int) = 0 ∧ dMonth0 (-719497 : Int) = 1 ∧
    daysInMonth 0 2 = 29 ∧ dDay (monthEndD (-719497)) = 28 :=
  ⟨by decide, by decide, by decide, by decide⟩

/-- Claim C10: for every string that exactly matches the `YYYY-MM-DD`
pattern, denotes a real calendar date, and has a four-digit year of at
least 1000, parsing and re-rendering returns the original string, so
re-canonicalizing an already-canonical stored `start_date` is a no-op. -/
theorem c10_codec_roundtrip (s : JStr) (y m d : Int)
    (hc : isoComponents s = some (y, m, d)) (hy : 1000 ≤ y)
    (hm1 : 1 ≤ m) (hm12 : m ≤ 12) (hd1 : 1 ≤ d) (hd2 : d ≤ daysInMonth y m) :
    ∃ e, parseLocalISODate s = some e ∧ formatLocalDateISO e = s :=
  ⟨daysFromCivil y m d,
    parse_of_components s y m d hc (by omega) hm1 hm12 hd1 hd2,
    format_of_components s y m d hc hy hm1 hm12 hd1 hd2⟩

theorem c10_witness :
    ∃ e, parseLocalISODate ("2024-02-29".data) = some e ∧
      formatLocalDateISO e = "2024-02-29".data :=
  c10_codec_roundtrip _ 2024 2 29 (by decide) (by decide) (by decide) (by decide)
    (by decide) (by decide)

end DailyTracker
